import Mathlib

/-!
# CQL compiler of the document indexer: embedding and verified properties

A shallow embedding of `cql/cql.go` (the parse-tree visitor that compiles a CQL
statement into a typed command).

Conventions of the embedding

* `uint64` values are natural numbers; every arithmetic operation of the source
  that can leave the range is written with an explicit `% 2 ^ 64`.
* Go's `int` is `Int`.
* A Go `map[string]V` is the lookup function `String → Option V`.
* The visitor of the source keeps its last result in the slot `v.res`; every
  reader of the slot reads it right after the visit that filled it has returned
  without error, so each visit returns its result directly, in `Except`.
* The generated parser package is not part of the sources.  The parse-tree
  contexts are records of what the visitor reads from them.
-/

namespace Cql

/-! ## Errors -/

/-- The two error kinds of Go's `strconv`. -/
inductive NumErrKind where
  | invalid
  | range
deriving DecidableEq, Repr

/-- Go's `strconv.NumError`: the failing function, the input text, the kind. -/
structure NumError where
  Func : String
  Num : String
  Err : NumErrKind
deriving DecidableEq, Repr

/-- The errors the compiler returns, one constructor per `errors.Errorf` or
`errors.Wrap` site of `cql.go`, plus the listener diagnostic and the run-time
fault of a Go `panic`. -/
inductive CqlError where
  /-- Message `failed to find the definion of index %s` -/
  | indexNotFound (index : String)
  /-- Message `invalid number of values, is %d, want %d` -/
  | invalidNumberOfValues (is want : Nat)
  /-- The result of `errors.Wrap` on a `strconv` error -/
  | wrap (e : NumError)
  /-- Message `invalid ORDERBY property %s, want a UintProp property` -/
  | invalidOrderBy (prop : String)
  /-- Message `invalid query due to multiple EnumPred of property %s` -/
  | multipleEnumPred (prop : String)
  /-- Message `invalid query due to multiple StrPred of property %s` -/
  | multipleStrPred (prop : String)
  /-- Message `unsupported subrule of cql` -/
  | unsupportedSubrule
  /-- the diagnostic kept by `VerboseErrorListener` -/
  | listener (msg : String)
  /-- a Go `panic` (not a returned error) -/
  | panicked (msg : String)
deriving DecidableEq, Repr

/-! ## Go's `strconv` -/

/-- The largest `uint64`. -/
def maxUint64 : Nat := 2 ^ 64 - 1

/-- The digit loop of `strconv.ParseUint(s, 10, 64)`: `n` is the value read so
far, `s0` the whole input (for the error). A byte that is not a decimal digit
is an invalid-input error; a value past `2 ^ 64 - 1` is a range error. -/
def parseUintLoop (s0 : String) : List Char → Nat → Except NumError Nat
  | [], n => .ok n
  | c :: cs, n =>
    if 48 ≤ c.toNat ∧ c.toNat ≤ 57 then
      let d := c.toNat - 48
      if n ≥ maxUint64 / 10 + 1 then
        .error ⟨"ParseUint", s0, .range⟩
      else
        let n10 := n * 10
        let n1 := (n10 + d) % 2 ^ 64
        if n1 < n10 ∨ n1 > maxUint64 then
          .error ⟨"ParseUint", s0, .range⟩
        else
          parseUintLoop s0 cs n1
    else
      .error ⟨"ParseUint", s0, .invalid⟩

/-- Go's `strconv.ParseUint(s, 10, 64)`. -/
def ParseUint (s : String) : Except NumError Nat :=
  if s.data = [] then .error ⟨"ParseUint", s, .invalid⟩
  else parseUintLoop s s.data 0

/-- Go's `strconv.ParseInt(s, 10, 0)` on a 64-bit platform: an optional sign,
then `ParseUint`, then the range check against `2 ^ 63`. -/
def ParseInt (s : String) : Except NumError Int :=
  match s.data with
  | [] => .error ⟨"ParseInt", s, .invalid⟩
  | c :: cs =>
    let neg := c.toNat = 45
    let rest := if c.toNat = 43 ∨ c.toNat = 45 then cs else c :: cs
    match ParseUint (String.mk rest) with
    | .error ⟨_, _, .invalid⟩ => .error ⟨"ParseInt", s, .invalid⟩
    | .error ⟨_, _, .range⟩ => .error ⟨"ParseInt", s, .range⟩
    | .ok un =>
      if ¬ neg ∧ un ≥ 2 ^ 63 then .error ⟨"ParseInt", s, .range⟩
      else if neg ∧ un > 2 ^ 63 then .error ⟨"ParseInt", s, .range⟩
      else .ok (if neg then - (un : Int) else (un : Int))

/-- Go's `strconv.Atoi`: `ParseInt(s, 10, 0)` with the error's function name
replaced. -/
def Atoi (s : String) : Except NumError Int :=
  match ParseInt s with
  | .error e => .error { e with Func := "Atoi" }
  | .ok i => .ok i

/-! ## Data model (`cql.go`, lines 12-91) -/

/-- The limit of a select that names no limit. -/
def DEFAULT_LIMIT : Int := 100

structure UintProp where
  Name : String
  ValLen : Int
  Val : Nat
deriving DecidableEq, Repr

structure EnumProp where
  Name : String
  Val : Int
deriving DecidableEq, Repr

structure StrProp where
  Name : String
  Val : String
deriving DecidableEq, Repr

structure Document where
  DocID : Nat
  UintProps : List UintProp
  EnumProps : List EnumProp
  StrProps : List StrProp
deriving DecidableEq, Repr

structure DocumentWithIdx extends Document where
  Index : String
deriving DecidableEq, Repr

structure UintPred where
  Name : String
  Low : Nat
  High : Nat
deriving DecidableEq, Repr

structure EnumPred where
  Name : String
  InVals : List Int
deriving DecidableEq, Repr

structure StrPred where
  Name : String
  ContWord : String
deriving DecidableEq, Repr

structure CqlCreate extends DocumentWithIdx
deriving DecidableEq, Repr

structure CqlDestroy where
  Index : String
deriving DecidableEq, Repr

structure CqlInsert extends DocumentWithIdx
deriving DecidableEq, Repr

structure CqlDel extends DocumentWithIdx
deriving DecidableEq, Repr

/-- A Go `map[string]V`, as its lookup. -/
abbrev GoMap (V : Type) := String → Option V

/-- The map `make(map[string]V)` returns. -/
def GoMap.empty {V : Type} : GoMap V := fun _ => none

/-- The assignment `m[k] = v`. -/
def GoMap.insert {V : Type} (m : GoMap V) (k : String) (v : V) : GoMap V :=
  fun k2 => if k2 = k then some v else m k2

structure CqlSelect where
  Index : String
  UintPreds : GoMap UintPred
  EnumPreds : GoMap EnumPred
  StrPreds : GoMap StrPred
  OrderBy : String
  Limit : Int

/-- The final results of the visitor, one per command variant. -/
inductive Res where
  | create (q : CqlCreate)
  | destroy (q : CqlDestroy)
  | insert (q : CqlInsert)
  | del (q : CqlDel)
  | select (q : CqlSelect)

/-! ## Parse-tree contexts

The contexts come from the generated parser package, which the sources do not
include. Each is the record of what the visitor reads from it. -/

/-- Modelled from the spec: the comparator of a comparison clause, which the
grammar takes from the operators `<`, `>`, `=`, `<=`, `>=` (section 6). -/
inductive CompareContext where
  | lt
  | bt
  | eq
  | le
  | be
deriving DecidableEq, Repr

/-- Whether the token `<` is present. -/
def CompareContext.K_LT (c : CompareContext) : Bool := c = .lt

/-- Whether the token `>` is present. -/
def CompareContext.K_BT (c : CompareContext) : Bool := c = .bt

/-- Whether the token `=` is present. -/
def CompareContext.K_EQ (c : CompareContext) : Bool := c = .eq

/-- Whether the token `<=` is present. -/
def CompareContext.K_LE (c : CompareContext) : Bool := c = .le

/-- Whether the token `>=` is present. -/
def CompareContext.K_BE (c : CompareContext) : Bool := c = .be

/-- Modelled from the spec: a comparison clause `Property Compare INT` on an
unsigned-integer property; `Property` and `INT` are the texts of the tokens. -/
structure UintPredContext where
  Property : String
  Compare : CompareContext
  INT : String
deriving DecidableEq, Repr

/-- Modelled from the spec: a set clause `Property IN (INT, ...)`; `IntList` is
the texts of the integer tokens in order. -/
structure EnumPredContext where
  Property : String
  IntList : List String
deriving DecidableEq, Repr

/-- Modelled from the spec: a substring clause; `STRING` is the text of the
string token, its quote characters included. -/
structure StrPredContext where
  Property : String
  STRING : String
deriving DecidableEq, Repr

/-- Modelled from the spec: the order/limit part of a select; either accessor of
the source may return nil. -/
structure OrderLimitContext where
  Order : Option String
  Limit : Option String
deriving DecidableEq, Repr

/-- Modelled from the spec: a select statement; the three clause lists are in
textual order. -/
structure QueryContext where
  IndexName : String
  AllUintPred : List UintPredContext
  AllEnumPred : List EnumPredContext
  AllStrPred : List StrPredContext
  OrderLimit : Option OrderLimitContext
deriving DecidableEq, Repr

/-- Modelled from the spec: the document of an insert or delete: collection
name, id literal and value literals, as the texts of their tokens. -/
structure DocumentContext where
  IndexName : String
  DocId : String
  AllValue : List String
deriving DecidableEq, Repr

/-- Modelled from the spec: the width keyword of an unsigned-integer property
definition, one of `UINT8`, `UINT16`, `UINT32`, `UINT64` (section 6). -/
inductive UintTypeContext where
  | u8
  | u16
  | u32
  | u64
deriving DecidableEq, Repr

/-- Whether the keyword `UINT8` is present. -/
def UintTypeContext.K_UINT8 (c : UintTypeContext) : Bool := c = .u8

/-- Whether the keyword `UINT16` is present. -/
def UintTypeContext.K_UINT16 (c : UintTypeContext) : Bool := c = .u16

/-- Whether the keyword `UINT32` is present. -/
def UintTypeContext.K_UINT32 (c : UintTypeContext) : Bool := c = .u32

/-- Whether the keyword `UINT64` is present. -/
def UintTypeContext.K_UINT64 (c : UintTypeContext) : Bool := c = .u64

/-- Modelled from the spec: an unsigned-integer property definition. -/
structure UintPropDefContext where
  Property : String
  UintType : UintTypeContext
deriving DecidableEq, Repr

/-- Modelled from the spec: an enumerated property definition. -/
structure EnumPropDefContext where
  Property : String
deriving DecidableEq, Repr

/-- Modelled from the spec: a string property definition. -/
structure StrPropDefContext where
  Property : String
deriving DecidableEq, Repr

/-- Modelled from the spec: a schema definition; the three definition lists are
in textual order. -/
structure CreateContext where
  IndexName : String
  AllUintPropDef : List UintPropDefContext
  AllEnumPropDef : List EnumPropDefContext
  AllStrPropDef : List StrPropDefContext
deriving DecidableEq, Repr

/-- Modelled from the spec: a schema drop. -/
structure DestroyContext where
  IndexName : String
deriving DecidableEq, Repr

/-- Modelled from the spec: an insert statement. -/
structure InsertContext where
  Document : DocumentContext
deriving DecidableEq, Repr

/-- Modelled from the spec: a delete statement. -/
structure DelContext where
  Document : DocumentContext
deriving DecidableEq, Repr

/-- Modelled from the spec: the top-level parse node, which holds exactly one of
the five statement kinds (section 4.1). -/
inductive CqlContext where
  | create (c : CreateContext)
  | destroy (c : DestroyContext)
  | insert (c : InsertContext)
  | del (c : DelContext)
  | query (c : QueryContext)
deriving DecidableEq, Repr

/-- The accessor `ctx.Create()`. -/
def CqlContext.Create : CqlContext → Option CreateContext
  | .create c => some c
  | _ => none

/-- The accessor `ctx.Destroy()`. -/
def CqlContext.Destroy : CqlContext → Option DestroyContext
  | .destroy c => some c
  | _ => none

/-- The accessor `ctx.Insert()`. -/
def CqlContext.Insert : CqlContext → Option InsertContext
  | .insert c => some c
  | _ => none

/-- The accessor `ctx.Del()`. -/
def CqlContext.Del : CqlContext → Option DelContext
  | .del c => some c
  | _ => none

/-- The accessor `ctx.Query()`. -/
def CqlContext.Query : CqlContext → Option QueryContext
  | .query c => some c
  | _ => none

/-! ## The visitor (`cql.go`, lines 147-462) -/

/-- The source's `minU64`. -/
def minU64 (a b : Nat) : Nat := if a < b then a else b

/-- The source's `maxU64`. -/
def maxU64 (a b : Nat) : Nat := if a > b then a else b

/-- The source's `stripQuote`: drops one leading and then one trailing double
quote (character 34), each only if present. -/
def stripQuote (s : String) : String :=
  let l := s.data
  let l := if l.length > 0 ∧ l.head? = some (Char.ofNat 34) then l.drop 1 else l
  let l := if l.length > 0 ∧ l.getLast? = some (Char.ofNat 34) then l.dropLast else l
  String.mk l

/-- The source's `VisitUintPropDef`. -/
def VisitUintPropDef (ctx : UintPropDefContext) : Except CqlError UintProp :=
  let pop : UintProp := { Name := ctx.Property, ValLen := 0, Val := 0 }
  let uintType := ctx.UintType
  if uintType.K_UINT8 then .ok { pop with ValLen := 1 }
  else if uintType.K_UINT16 then .ok { pop with ValLen := 2 }
  else if uintType.K_UINT32 then .ok { pop with ValLen := 4 }
  else if uintType.K_UINT64 then .ok { pop with ValLen := 8 }
  else .error (.panicked "invalid uintType")

/-- The source's `VisitEnumPropDef`. -/
def VisitEnumPropDef (ctx : EnumPropDefContext) : Except CqlError EnumProp :=
  .ok { Name := ctx.Property, Val := 0 }

/-- The source's `VisitStrPropDef`. -/
def VisitStrPropDef (ctx : StrPropDefContext) : Except CqlError StrProp :=
  .ok { Name := ctx.Property, Val := "" }

/-- The first loop of `VisitCreate`: appends the result of each definition to
`q.UintProps`, in order. -/
def createUintLoop : List UintPropDefContext → CqlCreate → Except CqlError CqlCreate
  | [], q => .ok q
  | popDef :: rest, q =>
    match VisitUintPropDef popDef with
    | .error e => .error e
    | .ok r => createUintLoop rest { q with UintProps := q.UintProps ++ [r] }

/-- The second loop of `VisitCreate`. -/
def createEnumLoop : List EnumPropDefContext → CqlCreate → Except CqlError CqlCreate
  | [], q => .ok q
  | popDef :: rest, q =>
    match VisitEnumPropDef popDef with
    | .error e => .error e
    | .ok r => createEnumLoop rest { q with EnumProps := q.EnumProps ++ [r] }

/-- The third loop of `VisitCreate`. -/
def createStrLoop : List StrPropDefContext → CqlCreate → Except CqlError CqlCreate
  | [], q => .ok q
  | popDef :: rest, q =>
    match VisitStrPropDef popDef with
    | .error e => .error e
    | .ok r => createStrLoop rest { q with StrProps := q.StrProps ++ [r] }

/-- The source's `VisitCreate`. -/
def VisitCreate (ctx : CreateContext) : Except CqlError CqlCreate :=
  let q : CqlCreate :=
    { DocID := 0, UintProps := [], EnumProps := [], StrProps := [], Index := ctx.IndexName }
  match createUintLoop ctx.AllUintPropDef q with
  | .error e => .error e
  | .ok q =>
    match createEnumLoop ctx.AllEnumPropDef q with
    | .error e => .error e
    | .ok q => createStrLoop ctx.AllStrPropDef q

/-- The source's `VisitDestroy`. -/
def VisitDestroy (ctx : DestroyContext) : Except CqlError CqlDestroy :=
  .ok { Index := ctx.IndexName }

/-- The first loop of `VisitDocument`, from index `i` on: `prots` is what is
left of `docProt.UintProps`, and `vals[i]` is parsed as an unsigned decimal. An
index past the end of `vals` is Go's index-out-of-range panic. -/
def docUintLoop (vals : List String) : List UintProp → Nat → Except CqlError (List UintProp)
  | [], _ => .ok []
  | uintProp :: prots, i =>
    match vals[i]? with
    | none => .error (.panicked "index out of range")
    | some text =>
      match ParseUint text with
      | .error e => .error (.wrap e)
      | .ok tmpU64 =>
        match docUintLoop vals prots (i + 1) with
        | .error e => .error e
        | .ok rest => .ok ({ uintProp with Val := tmpU64 } :: rest)

/-- The second loop of `VisitDocument`: `vals[i + off]` is parsed by `Atoi`,
where `off` is `len(docProt.UintProps)`. -/
def docEnumLoop (vals : List String) (off : Nat) :
    List EnumProp → Nat → Except CqlError (List EnumProp)
  | [], _ => .ok []
  | enumProp :: prots, i =>
    match vals[i + off]? with
    | none => .error (.panicked "index out of range")
    | some text =>
      match Atoi text with
      | .error e => .error (.wrap e)
      | .ok tmpInt =>
        match docEnumLoop vals off prots (i + 1) with
        | .error e => .error e
        | .ok rest => .ok ({ enumProp with Val := tmpInt } :: rest)

/-- The third loop of `VisitDocument`: `vals[i + off]` is taken as it is, where
`off` is `len(docProt.UintProps) + len(docProt.EnumProps)`. -/
def docStrLoop (vals : List String) (off : Nat) :
    List StrProp → Nat → Except CqlError (List StrProp)
  | [], _ => .ok []
  | strProp :: prots, i =>
    match vals[i + off]? with
    | none => .error (.panicked "index out of range")
    | some text =>
      match docStrLoop vals off prots (i + 1) with
      | .error e => .error e
      | .ok rest => .ok ({ strProp with Val := text } :: rest)

/-- The source's `VisitDocument`; `docProts` is the visitor's schema registry.
A missing key of a Go map reads as the zero value, here the empty document. -/
def VisitDocument (docProts : GoMap Document) (ctx : DocumentContext) :
    Except CqlError DocumentWithIdx :=
  let index := ctx.IndexName
  let ok := (docProts index).isSome
  let docProt : Document := (docProts index).getD
    { DocID := 0, UintProps := [], EnumProps := [], StrProps := [] }
  let want := docProt.UintProps.length + docProt.EnumProps.length + docProt.StrProps.length
  if ¬ ok then .error (.indexNotFound index)
  else if ctx.AllValue.length ≠ want then
    .error (.invalidNumberOfValues ctx.AllValue.length want)
  else
    match ParseUint ctx.DocId with
    | .error e => .error (.wrap e)
    | .ok tmpU64 =>
      let vals := ctx.AllValue
      match docUintLoop vals docProt.UintProps 0 with
      | .error e => .error e
      | .ok uintProps =>
        match docEnumLoop vals docProt.UintProps.length docProt.EnumProps 0 with
        | .error e => .error e
        | .ok enumProps =>
          match docStrLoop vals (docProt.UintProps.length + docProt.EnumProps.length)
              docProt.StrProps 0 with
          | .error e => .error e
          | .ok strProps =>
            .ok { DocID := tmpU64, UintProps := uintProps, EnumProps := enumProps,
                  StrProps := strProps, Index := ctx.IndexName }

/-- The source's `VisitInsert`. -/
def VisitInsert (docProts : GoMap Document) (ctx : InsertContext) : Except CqlError CqlInsert :=
  match VisitDocument docProts ctx.Document with
  | .error e => .error e
  | .ok doc => .ok { toDocumentWithIdx := doc }

/-- The source's `VisitDel`. -/
def VisitDel (docProts : GoMap Document) (ctx : DelContext) : Except CqlError CqlDel :=
  match VisitDocument docProts ctx.Document with
  | .error e => .error e
  | .ok doc => .ok { toDocumentWithIdx := doc }

/-- The source's `VisitUintPred`: the interval of one comparison clause. `val - 1`
and `val + 1` are `uint64` operations and wrap around. -/
def VisitUintPred (ctx : UintPredContext) : Except CqlError UintPred :=
  let pred : UintPred := { Name := ctx.Property, Low := 0, High := maxUint64 }
  match ParseUint ctx.INT with
  | .error e => .error (.wrap e)
  | .ok val =>
    let cmp := ctx.Compare
    if cmp.K_LT then .ok { pred with High := (val + 2 ^ 64 - 1) % 2 ^ 64 }
    else if cmp.K_BT then .ok { pred with Low := (val + 1) % 2 ^ 64 }
    else if cmp.K_EQ then .ok { pred with Low := val, High := val }
    else if cmp.K_LE then .ok { pred with High := val }
    else if cmp.K_BE then .ok { pred with Low := val }
    else .error (.panicked "invalid compare")

/-- The source's `VisitIntList`: every integer token through `Atoi`, in order. -/
def VisitIntList : List String → Except CqlError (List Int)
  | [] => .ok []
  | it :: rest =>
    match Atoi it with
    | .error e => .error (.wrap e)
    | .ok val =>
      match VisitIntList rest with
      | .error e => .error e
      | .ok intList => .ok (val :: intList)

/-- The source's `VisitEnumPred`. -/
def VisitEnumPred (ctx : EnumPredContext) : Except CqlError EnumPred :=
  match VisitIntList ctx.IntList with
  | .error e => .error e
  | .ok vals => .ok { Name := ctx.Property, InVals := vals }

/-- The source's `VisitStrPred`. -/
def VisitStrPred (ctx : StrPredContext) : Except CqlError StrPred :=
  .ok { Name := ctx.Property, ContWord := stripQuote ctx.STRING }

structure orderLimit where
  order : String
  limit : Int
deriving DecidableEq, Repr

/-- The source's `VisitOrderLimit`. -/
def VisitOrderLimit (ctx : OrderLimitContext) : Except CqlError orderLimit :=
  let ol : orderLimit := { order := "", limit := 0 }
  let ol : orderLimit :=
    match ctx.Order with
    | some ordText => { ol with order := ordText }
    | none => ol
  let ol : orderLimit := { ol with limit := DEFAULT_LIMIT }
  match ctx.Limit with
  | some lmtText =>
    match Atoi lmtText with
    | .error e => .error (.wrap e)
    | .ok n => .ok { ol with limit := n }
  | none => .ok ol

/-- The body of the first loop of `VisitQuery` (lines 296-306) for clause
index `i`, after the clause's visit returned `uintPred`: the predicate is
folded with the one `q.UintPreds` already holds under its name (larger `Low`,
smaller `High`) and stored; clause 0 also sets `q.OrderBy`. -/
def queryUintStep (i : Nat) (q : CqlSelect) (uintPred : UintPred) : CqlSelect :=
  let uintPred : UintPred :=
    match q.UintPreds uintPred.Name with
    | some uintPred2 =>
      { uintPred with Low := maxU64 uintPred.Low uintPred2.Low,
                      High := minU64 uintPred.High uintPred2.High }
    | none => uintPred
  let q : CqlSelect := { q with UintPreds := q.UintPreds.insert uintPred.Name uintPred }
  if i = 0 then { q with OrderBy := uintPred.Name } else q

/-- The first loop of `VisitQuery` (lines 292-307), from clause index `i` on:
each clause is visited and, unless the visit fails, folded into `q`. -/
def queryUintLoop : List UintPredContext → Nat → CqlSelect → Except CqlError CqlSelect
  | [], _, q => .ok q
  | predCtx :: rest, i, q =>
    match VisitUintPred predCtx with
    | .error e => .error e
    | .ok uintPred => queryUintLoop rest (i + 1) (queryUintStep i q uintPred)

/-- The order/limit step of `VisitQuery` (lines 308-327). -/
def queryOrderLimit (ctx : QueryContext) (q : CqlSelect) : Except CqlError CqlSelect :=
  let step : Except CqlError CqlSelect :=
    match ctx.OrderLimit with
    | some ordCtx =>
      match VisitOrderLimit ordCtx with
      | .error e => .error e
      | .ok ol =>
        let q : CqlSelect := { q with OrderBy := ol.order }
        if (q.UintPreds q.OrderBy).isNone then .error (.invalidOrderBy q.OrderBy)
        else .ok { q with Limit := ol.limit }
    | none =>
      if q.OrderBy ≠ "" then .ok { q with Limit := DEFAULT_LIMIT } else .ok q
  match step with
  | .error e => .error e
  | .ok q =>
    if q.OrderBy ≠ "" ∧ (q.UintPreds q.OrderBy).isNone then .error (.invalidOrderBy q.OrderBy)
    else .ok q

/-- The loop of `VisitQuery` over the set clauses (lines 328-338): a second
clause on a property is an error. -/
def queryEnumLoop : List EnumPredContext → CqlSelect → Except CqlError CqlSelect
  | [], q => .ok q
  | predCtx :: rest, q =>
    match VisitEnumPred predCtx with
    | .error e => .error e
    | .ok enumPred =>
      if (q.EnumPreds enumPred.Name).isSome then .error (.multipleEnumPred enumPred.Name)
      else queryEnumLoop rest { q with EnumPreds := q.EnumPreds.insert enumPred.Name enumPred }

/-- The loop of `VisitQuery` over the substring clauses (lines 339-349). -/
def queryStrLoop : List StrPredContext → CqlSelect → Except CqlError CqlSelect
  | [], q => .ok q
  | predCtx :: rest, q =>
    match VisitStrPred predCtx with
    | .error e => .error e
    | .ok strPred =>
      if (q.StrPreds strPred.Name).isSome then .error (.multipleStrPred strPred.Name)
      else queryStrLoop rest { q with StrPreds := q.StrPreds.insert strPred.Name strPred }

/-- The select the source's `VisitQuery` starts from. -/
def newSelect (ctx : QueryContext) : CqlSelect :=
  { Index := ctx.IndexName, UintPreds := GoMap.empty, EnumPreds := GoMap.empty,
    StrPreds := GoMap.empty, OrderBy := "", Limit := 0 }

/-- The source's `VisitQuery`: interval clauses, then order and limit, then set
clauses, then substring clauses. -/
def VisitQuery (ctx : QueryContext) : Except CqlError CqlSelect :=
  match queryUintLoop ctx.AllUintPred 0 (newSelect ctx) with
  | .error e => .error e
  | .ok q =>
    match queryOrderLimit ctx q with
    | .error e => .error e
    | .ok q =>
      match queryEnumLoop ctx.AllEnumPred q with
      | .error e => .error e
      | .ok q => queryStrLoop ctx.AllStrPred q

/-- The source's `VisitCql`: the dispatch on the statement kind. -/
def VisitCql (docProts : GoMap Document) (ctx : CqlContext) : Except CqlError Res :=
  match ctx.Create with
  | some create => (VisitCreate create).map Res.create
  | none =>
    match ctx.Destroy with
    | some destroy => (VisitDestroy destroy).map Res.destroy
    | none =>
      match ctx.Insert with
      | some ins => (VisitInsert docProts ins).map Res.insert
      | none =>
        match ctx.Del with
        | some del => (VisitDel docProts del).map Res.del
        | none =>
          match ctx.Query with
          | some query => (VisitQuery query).map Res.select
          | none => .error .unsupportedSubrule

/-- The source's `ParseCql`, after the parser has run: `elErr` is the diagnostic
the error listener holds (if any) and `tree` the parse tree. It returns the pair
`(res, err)` of the source. -/
def ParseCql (elErr : Option CqlError) (tree : CqlContext) (docProts : GoMap Document) :
    Option Res × Option CqlError :=
  match elErr with
  | some e => (none, some e)
  | none =>
    match VisitCql docProts tree with
    | .error err1 => (none, some err1)
    | .ok res => (some res, none)

/-! ## The write-ahead log encoder (`wal/encoder.go`, lines 106-114) -/

/-- The source's `encodeFrameSize`. `dataBytes` is a Go `int`; `uint64(dataBytes)`
is its value modulo `2 ^ 64`; Go's `%` on `int` truncates toward zero
(`Int.tmod`). `padBytes` always lies in `0..7`, so `0x80|padBytes` is taken on
its value as a natural number; the shift and the `|=` are `uint64` operations. -/
def encodeFrameSize (dataBytes : Int) : Nat × Int :=
  let lenField : Nat := (dataBytes % 2 ^ 64).toNat
  let padBytes : Int := Int.tmod (8 - Int.tmod dataBytes 8) 8
  if padBytes ≠ 0 then
    (lenField ||| ((((128 ||| padBytes.toNat) % 2 ^ 64) <<< 56) % 2 ^ 64), padBytes)
  else
    (lenField, padBytes)

/-! ## Vocabulary of the properties -/

/-- Whether the value `x` satisfies the comparison clause `c`, read as
arithmetic on the literal of the clause. -/
def UintPredContext.satisfiedBy (c : UintPredContext) (x : Nat) : Bool :=
  match ParseUint c.INT with
  | .error _ => false
  | .ok v =>
    match c.Compare with
    | .lt => decide (x < v)
    | .bt => decide (x > v)
    | .eq => decide (x = v)
    | .le => decide (x ≤ v)
    | .be => decide (x ≥ v)

/-- The two clauses at the edge of the domain: `< 0` and `> 2 ^ 64 - 1`. -/
def UintPredContext.isEdge (c : UintPredContext) : Bool :=
  match ParseUint c.INT with
  | .error _ => false
  | .ok v => (c.Compare = .lt ∧ v = 0) ∨ (c.Compare = .bt ∧ v = 2 ^ 64 - 1)

/-- The interval clauses of a select that name the property `P`, in textual
order. -/
def clausesOn (P : String) (ctx : QueryContext) : List UintPredContext :=
  ctx.AllUintPred.filter (fun c => c.Property = P)

/-- The `Low` of the interval `VisitUintPred` returns for one clause (0 when
the clause is rejected). -/
def clauseLow (c : UintPredContext) : Nat :=
  match VisitUintPred c with
  | .ok p => p.Low
  | .error _ => 0

/-- The `High` of the interval `VisitUintPred` returns for one clause (the
largest value when the clause is rejected). -/
def clauseHigh (c : UintPredContext) : Nat :=
  match VisitUintPred c with
  | .ok p => p.High
  | .error _ => maxUint64

/-- The predicate the interval loop holds for property `P` after the clauses
`cs`, when it held `o` before: every clause on `P` narrows the range. -/
def foldOn (P : String) : List UintPredContext → Option UintPred → Option UintPred
  | [], o => o
  | c :: cs, o =>
    if c.Property = P then
      match o with
      | some p2 =>
        foldOn P cs (some ⟨P, maxU64 (clauseLow c) p2.Low, minU64 (clauseHigh c) p2.High⟩)
      | none => foldOn P cs (some ⟨P, clauseLow c, clauseHigh c⟩)
    else foldOn P cs o

/-- The select `WHERE price>10 AND price<100 AND price>=20` on `orders`. -/
def exampleFold : QueryContext :=
  { IndexName := "orders",
    AllUintPred := [⟨"price", .bt, "10"⟩, ⟨"price", .lt, "100"⟩, ⟨"price", .be, "20"⟩],
    AllEnumPred := [], AllStrPred := [], OrderLimit := none }

/-- The text of a string literal: a double quote, `w`, a double quote. -/
def quoted (w : String) : String :=
  String.mk (Char.ofNat 34 :: (w.data ++ [Char.ofNat 34]))

/-- The schema definition `orders(price UINT32, name STR)`. -/
def ordersCreate : CreateContext :=
  { IndexName := "orders", AllUintPropDef := [⟨"price", .u32⟩], AllEnumPropDef := [],
    AllStrPropDef := [⟨"name"⟩] }

/-- Modelled from the spec: the registry after the caller has recorded a
define-schema command: it maps the collection name to the command's prototype
(section 3, lifecycle). The caller's code is not part of the sources. -/
def registerSchema (docProts : GoMap Document) (q : CqlCreate) : GoMap Document :=
  docProts.insert q.Index q.toDocument

/-- The registry that holds the prototype of `ordersCreate` and nothing else. -/
def ordersRegistry : GoMap Document :=
  match VisitCreate ordersCreate with
  | .ok q => registerSchema GoMap.empty q
  | .error _ => GoMap.empty

/-- The document of an insert into `orders` with id `1` and the value literals
`42` and `"x"` (the second with its quote characters, as the token has them). -/
def ordersDocument : DocumentContext :=
  { IndexName := "orders", DocId := "1", AllValue := ["42", quoted "x"] }

/-- The documented conditions under which a document binds: the collection is
in the registry, the number of value literals is the number of properties of
the prototype, the id literal parses as an unsigned 64-bit decimal, each of the
first `N1` literals parses as an unsigned 64-bit decimal and each of the next
`N2` literals parses as a signed decimal integer. Nothing is asked of the
remaining (string) literals. -/
def documentBinds (docProts : GoMap Document) (ctx : DocumentContext) : Prop :=
  ∃ prot, docProts ctx.IndexName = some prot ∧
    ctx.AllValue.length =
      prot.UintProps.length + prot.EnumProps.length + prot.StrProps.length ∧
    (∃ n, ParseUint ctx.DocId = .ok n) ∧
    (∀ i t, i < prot.UintProps.length → ctx.AllValue[i]? = some t →
      ∃ n, ParseUint t = .ok n) ∧
    (∀ j t, j < prot.EnumProps.length → ctx.AllValue[prot.UintProps.length + j]? = some t →
      ∃ n, Atoi t = .ok n)

/-- A registry with one collection, `items`, of three properties: one
unsigned-integer, one enumerated, one string. -/
def itemsRegistry : GoMap Document :=
  GoMap.empty.insert "items"
    { DocID := 0, UintProps := [⟨"size", 1, 0⟩], EnumProps := [⟨"color", 0⟩],
      StrProps := [⟨"name", ""⟩] }

/-- The document of an insert into `items` that supplies two values. -/
def itemsShortDocument : DocumentContext :=
  { IndexName := "items", DocId := "7", AllValue := ["1", "2"] }

/-- The select `SELECT FROM orders WHERE price>0`. -/
def examplePriceOnly : QueryContext :=
  { IndexName := "orders", AllUintPred := [⟨"price", .bt, "0"⟩], AllEnumPred := [],
    AllStrPred := [], OrderLimit := none }

/-- The select `SELECT FROM orders WHERE color IN (1) ORDER BY color`. -/
def exampleOrderByColor : QueryContext :=
  { IndexName := "orders", AllUintPred := [], AllEnumPred := [⟨"color", ["1"]⟩],
    AllStrPred := [], OrderLimit := some ⟨some "color", none⟩ }

/-- The select `SELECT FROM orders WHERE color IN (1) ORDER BY color LIMIT
99999999999999999999`, whose limit literal is past the range of Go's `int`. -/
def exampleOrderByColorBigLimit : QueryContext :=
  { IndexName := "orders", AllUintPred := [], AllEnumPred := [⟨"color", ["1"]⟩],
    AllStrPred := [], OrderLimit := some ⟨some "color", some "99999999999999999999"⟩ }

/-- The select `SELECT FROM orders WHERE price>0 AND qty>1 ORDER BY qty LIMIT 5`. -/
def exampleOrderByQty : QueryContext :=
  { IndexName := "orders", AllUintPred := [⟨"price", .bt, "0"⟩, ⟨"qty", .bt, "1"⟩],
    AllEnumPred := [], AllStrPred := [], OrderLimit := some ⟨some "qty", some "5"⟩ }

/-- The select `SELECT FROM orders WHERE color IN (1) AND name CONTAINS "x"`,
which has no interval clause. -/
def exampleNoInterval : QueryContext :=
  { IndexName := "orders", AllUintPred := [], AllEnumPred := [⟨"color", ["1"]⟩],
    AllStrPred := [⟨"name", quoted "x"⟩], OrderLimit := none }

/-- The select `SELECT FROM orders WHERE color IN (1,2) AND color IN (3)`. -/
def exampleDupColor : QueryContext :=
  { IndexName := "orders", AllUintPred := [],
    AllEnumPred := [⟨"color", ["1", "2"]⟩, ⟨"color", ["3"]⟩],
    AllStrPred := [], OrderLimit := none }

/-- The byte width a width keyword declares: 1, 2, 4, 8 for `UINT8`, `UINT16`,
`UINT32`, `UINT64`. -/
def widthOf : UintTypeContext → Int
  | .u8 => 1
  | .u16 => 2
  | .u32 => 4
  | .u64 => 8

/-- The define-schema command the declarations of `ctx` describe: per bucket
the declared definitions in textual order, every value the zero value. -/
def declaredSchema (ctx : CreateContext) : CqlCreate :=
  { DocID := 0,
    UintProps := ctx.AllUintPropDef.map (fun d => ⟨d.Property, widthOf d.UintType, 0⟩),
    EnumProps := ctx.AllEnumPropDef.map (fun d => ⟨d.Property, 0⟩),
    StrProps := ctx.AllStrPropDef.map (fun d => ⟨d.Property, ""⟩),
    Index := ctx.IndexName }

/-- The property names of a schema prototype: unsigned-integer, then
enumerated, then string definitions. -/
def schemaNames (d : Document) : List String :=
  d.UintProps.map (fun x => x.Name) ++ d.EnumProps.map (fun x => x.Name) ++
    d.StrProps.map (fun x => x.Name)

/-- The property names a schema definition declares, bucket by bucket in
textual order. -/
def declaredNames (ctx : CreateContext) : List String :=
  ctx.AllUintPropDef.map (fun x => x.Property) ++ ctx.AllEnumPropDef.map (fun x => x.Property) ++
    ctx.AllStrPropDef.map (fun x => x.Property)

/-- The schema definition `orders(price UINT32, price UINT64)`, which declares
the name `price` twice. -/
def exampleDupSchema : CreateContext :=
  { IndexName := "orders", AllUintPropDef := [⟨"price", .u32⟩, ⟨"price", .u64⟩],
    AllEnumPropDef := [], AllStrPropDef := [] }

/-- The select `SELECT FROM orders WHERE price>0 AND color IN (1,2) AND color IN
(3) ORDER BY size`: a repeated set predicate, and an ORDER BY on a property
without an interval predicate. -/
def exampleDupAndOrder : QueryContext :=
  { IndexName := "orders", AllUintPred := [⟨"price", .bt, "0"⟩],
    AllEnumPred := [⟨"color", ["1", "2"]⟩, ⟨"color", ["3"]⟩],
    AllStrPred := [], OrderLimit := some ⟨some "size", none⟩ }

/-- A registry whose collection `orders` declares `price` as a string property
and has no unsigned-integer property. -/
def ordersPriceStrRegistry : GoMap Document :=
  GoMap.empty.insert "orders"
    { DocID := 0, UintProps := [], EnumProps := [], StrProps := [⟨"price", ""⟩] }

/-- A registry with one collection, `t`, whose only property is the
unsigned-integer property `b` of declared byte width `w`. -/
def widthRegistry (w : Int) : GoMap Document :=
  GoMap.empty.insert "t"
    { DocID := 0, UintProps := [⟨"b", w, 0⟩], EnumProps := [], StrProps := [] }

/-- The document of an insert into `t` with id `1` and the one value literal
`text`. -/
def widthDocument (text : String) : DocumentContext :=
  { IndexName := "t", DocId := "1", AllValue := [text] }

/-- The select `WHERE qty>=20 AND price>10 AND price<100 AND color IN (1)`. -/
def examplePermA : QueryContext :=
  { IndexName := "orders",
    AllUintPred := [⟨"qty", .be, "20"⟩, ⟨"price", .bt, "10"⟩, ⟨"price", .lt, "100"⟩],
    AllEnumPred := [⟨"color", ["1"]⟩], AllStrPred := [], OrderLimit := none }

/-- The select `WHERE price>10 AND qty>=20 AND price<100 AND color IN (1)`:
`examplePermA` with its first two interval clauses exchanged. -/
def examplePermB : QueryContext :=
  { IndexName := "orders",
    AllUintPred := [⟨"price", .bt, "10"⟩, ⟨"qty", .be, "20"⟩, ⟨"price", .lt, "100"⟩],
    AllEnumPred := [⟨"color", ["1"]⟩], AllStrPred := [], OrderLimit := none }

/-- The select `WHERE qty>=20 AND price>10 AND color IN (1) AND color IN (2)`,
with a repeated set predicate. -/
def examplePermDupA : QueryContext :=
  { IndexName := "orders",
    AllUintPred := [⟨"qty", .be, "20"⟩, ⟨"price", .bt, "10"⟩],
    AllEnumPred := [⟨"color", ["1"]⟩, ⟨"color", ["2"]⟩], AllStrPred := [],
    OrderLimit := none }

/-- The select `WHERE price>10 AND qty>=20 AND color IN (1) AND color IN (2)`:
`examplePermDupA` with its two interval clauses exchanged. -/
def examplePermDupB : QueryContext :=
  { IndexName := "orders",
    AllUintPred := [⟨"price", .bt, "10"⟩, ⟨"qty", .be, "20"⟩],
    AllEnumPred := [⟨"color", ["1"]⟩, ⟨"color", ["2"]⟩], AllStrPred := [],
    OrderLimit := none }

/-! ## Theorems -/

/-! ### Go's `strconv` -/

theorem parseUintLoop_lt (s0 : String) (cs : List Char) (n v : Nat) (hn : n < 2 ^ 64)
    (h : parseUintLoop s0 cs n = .ok v) : v < 2 ^ 64 := by
  induction cs generalizing n with
  | nil =>
    simp only [parseUintLoop, Except.ok.injEq] at h
    omega
  | cons c cs ih =>
    simp only [parseUintLoop] at h
    split at h
    · split at h
      · exact absurd h (by simp)
      · split at h
        · exact absurd h (by simp)
        · exact ih _ (Nat.mod_lt _ (by norm_num)) h
    · exact absurd h (by simp)

/-- A text `ParseUint` accepts denotes an unsigned 64-bit value. -/
theorem ParseUint_lt (s : String) (v : Nat) (h : ParseUint s = .ok v) : v < 2 ^ 64 := by
  unfold ParseUint at h
  split at h
  · exact absurd h (by simp)
  · exact parseUintLoop_lt s s.data 0 v (by norm_num) h

/-! ### Interval clauses -/

/-- The interval of a single clause, by operator. -/
theorem VisitUintPred_ok (P txt : String) (cmp : CompareContext) (v : Nat)
    (h : ParseUint txt = .ok v) :
    VisitUintPred ⟨P, cmp, txt⟩ = .ok
      (match cmp with
       | .lt => ⟨P, 0, (v + 2 ^ 64 - 1) % 2 ^ 64⟩
       | .bt => ⟨P, (v + 1) % 2 ^ 64, maxUint64⟩
       | .eq => ⟨P, v, v⟩
       | .le => ⟨P, 0, v⟩
       | .be => ⟨P, v, maxUint64⟩) := by
  cases cmp <;> simp [VisitUintPred, h, CompareContext.K_LT, CompareContext.K_BT,
    CompareContext.K_EQ, CompareContext.K_LE, CompareContext.K_BE]

/-- C3: for a comparison clause on property `P` whose literal parses to `v`,
`VisitUintPred` returns the full range `[0, 2^64-1]` changed only as follows:
`<` sets High to `v - 1`, `>` sets Low to `v + 1` (both in unsigned 64-bit
arithmetic, so `0 - 1` is `2^64-1` and `(2^64-1) + 1` is `0`), `<=` sets High to
`v`, `>=` sets Low to `v`, `=` sets both to `v`; the Name is `P`. -/
theorem C3_VisitUintPred_interval (P txt : String) (v : Nat) (h : ParseUint txt = .ok v) :
    VisitUintPred ⟨P, .lt, txt⟩
        = .ok ⟨P, 0, if v = 0 then 2 ^ 64 - 1 else v - 1⟩ ∧
    VisitUintPred ⟨P, .bt, txt⟩
        = .ok ⟨P, if v = 2 ^ 64 - 1 then 0 else v + 1, 2 ^ 64 - 1⟩ ∧
    VisitUintPred ⟨P, .le, txt⟩ = .ok ⟨P, 0, v⟩ ∧
    VisitUintPred ⟨P, .be, txt⟩ = .ok ⟨P, v, 2 ^ 64 - 1⟩ ∧
    VisitUintPred ⟨P, .eq, txt⟩ = .ok ⟨P, v, v⟩ := by
  have hv := ParseUint_lt txt v h
  refine ⟨?_, ?_, ?_, ?_, ?_⟩
  · rw [VisitUintPred_ok P txt .lt v h]
    simp only [Except.ok.injEq, UintPred.mk.injEq, true_and]
    split <;> omega
  · rw [VisitUintPred_ok P txt .bt v h]
    simp only [Except.ok.injEq, UintPred.mk.injEq, true_and, maxUint64, and_true]
    split <;> omega
  · rw [VisitUintPred_ok P txt .le v h]
  · rw [VisitUintPred_ok P txt .be v h]; rfl
  · rw [VisitUintPred_ok P txt .eq v h]

/-- C3 at the clause `price < 100`. -/
theorem C3_VisitUintPred_interval_witness :
    ParseUint "100" = .ok 100 ∧
    VisitUintPred ⟨"price", .lt, "100"⟩ = .ok ⟨"price", 0, 99⟩ :=
  ⟨rfl, (C3_VisitUintPred_interval "price" "100" 100 rfl).1⟩

theorem VisitUintPred_name (c : UintPredContext) (p : UintPred) (h : VisitUintPred c = .ok p) :
    p.Name = c.Property := by
  unfold VisitUintPred at h
  split at h
  · exact absurd h (by simp)
  · cases hc : c.Compare <;>
      simp [hc, CompareContext.K_LT, CompareContext.K_BT, CompareContext.K_EQ,
        CompareContext.K_LE, CompareContext.K_BE] at h <;> rw [← h]

theorem VisitUintPred_parse (c : UintPredContext) (p : UintPred) (h : VisitUintPred c = .ok p) :
    ∃ v, ParseUint c.INT = .ok v := by
  unfold VisitUintPred at h
  split at h
  · exact absurd h (by simp)
  · exact ⟨_, by assumption⟩

theorem VisitUintPred_of_parse (c : UintPredContext) (v : Nat) (h : ParseUint c.INT = .ok v) :
    ∃ p, VisitUintPred c = .ok p := by
  obtain ⟨P, cmp, txt⟩ := c
  exact ⟨_, VisitUintPred_ok P txt cmp v h⟩

theorem maxU64_eq (a b : Nat) : maxU64 a b = max a b := by
  unfold maxU64; split <;> omega

theorem minU64_eq (a b : Nat) : minU64 a b = min a b := by
  unfold minU64; split <;> omega

theorem queryUintStep_fields (i : Nat) (q : CqlSelect) (p : UintPred) :
    (queryUintStep i q p).Index = q.Index ∧ (queryUintStep i q p).EnumPreds = q.EnumPreds ∧
    (queryUintStep i q p).StrPreds = q.StrPreds ∧ (queryUintStep i q p).Limit = q.Limit ∧
    (queryUintStep i q p).OrderBy = (if i = 0 then p.Name else q.OrderBy) := by
  unfold queryUintStep
  by_cases hi : i = 0 <;> cases hq : q.UintPreds p.Name <;> simp [hi]

theorem queryUintStep_preds (i : Nat) (q : CqlSelect) (p : UintPred) (P : String) :
    (queryUintStep i q p).UintPreds P =
      if p.Name = P then
        match q.UintPreds P with
        | some p2 => some ⟨P, maxU64 p.Low p2.Low, minU64 p.High p2.High⟩
        | none => some ⟨P, p.Low, p.High⟩
      else q.UintPreds P := by
  unfold queryUintStep
  by_cases hP : p.Name = P
  · subst hP
    by_cases hi : i = 0 <;> cases hq : q.UintPreds p.Name <;> simp [hi, GoMap.insert]
  · have hP2 : ¬ P = p.Name := fun h => hP h.symm
    by_cases hi : i = 0 <;> cases hq : q.UintPreds p.Name <;> simp [hi, hP, hP2, GoMap.insert]

/-- The interval loop never fails on clauses that `VisitUintPred` accepts; it
changes only `UintPreds` and `OrderBy`, and `UintPreds` as `foldOn` says. -/
theorem queryUintLoop_spec (cs : List UintPredContext) :
    ∀ (i : Nat) (q : CqlSelect), (∀ c ∈ cs, ∃ p, VisitUintPred c = .ok p) →
      ∃ q2, queryUintLoop cs i q = .ok q2 ∧ q2.Index = q.Index ∧
        q2.EnumPreds = q.EnumPreds ∧ q2.StrPreds = q.StrPreds ∧ q2.Limit = q.Limit ∧
        q2.OrderBy = (if i = 0 then (cs.head?.map (fun c => c.Property)).getD q.OrderBy
                      else q.OrderBy) ∧
        ∀ P, q2.UintPreds P = foldOn P cs (q.UintPreds P) := by
  induction cs with
  | nil =>
    intro i q _
    exact ⟨q, rfl, rfl, rfl, rfl, rfl, by simp, fun P => rfl⟩
  | cons c cs ih =>
    intro i q hall
    obtain ⟨p, hp⟩ := hall c (List.mem_cons_self _ _)
    have hname := VisitUintPred_name c p hp
    have hlow : clauseLow c = p.Low := by simp [clauseLow, hp]
    have hhigh : clauseHigh c = p.High := by simp [clauseHigh, hp]
    obtain ⟨hsI, hsE, hsS, hsL, hsO⟩ := queryUintStep_fields i q p
    obtain ⟨q2, h2, hI, hE, hS, hL, hO, hU⟩ := ih (i + 1) (queryUintStep i q p)
      (fun c2 hc2 => hall c2 (List.mem_cons_of_mem _ hc2))
    refine ⟨q2, ?_, ?_, ?_, ?_, ?_, ?_, ?_⟩
    · simp only [queryUintLoop, hp, h2]
    · rw [hI, hsI]
    · rw [hE, hsE]
    · rw [hS, hsS]
    · rw [hL, hsL]
    · rw [hO, hsO]
      simp [hname]
    · intro P
      rw [hU P, queryUintStep_preds, hname]
      by_cases hP : c.Property = P
      · cases hq : q.UintPreds P <;> simp [foldOn, hP, hlow, hhigh]
      · simp [foldOn, hP]

theorem foldOn_absent (P : String) (cs : List UintPredContext) (o : Option UintPred)
    (h : ∀ c ∈ cs, c.Property ≠ P) : foldOn P cs o = o := by
  induction cs generalizing o with
  | nil => rfl
  | cons c cs ih =>
    have hc : c.Property ≠ P := h c (List.mem_cons_self _ _)
    simp only [foldOn, hc, if_false]
    exact ih o (fun c2 hc2 => h c2 (List.mem_cons_of_mem _ hc2))

/-- Folding on from a held predicate: the result is the held range narrowed by
every clause on `P`, and each bound is the held one or that of some clause. -/
theorem foldOn_some (P : String) (cs : List UintPredContext) :
    ∀ p0 : UintPred, p0.Name = P →
      ∃ pred, foldOn P cs (some p0) = some pred ∧ pred.Name = P ∧
        p0.Low ≤ pred.Low ∧ pred.High ≤ p0.High ∧
        (∀ c ∈ cs, c.Property = P → clauseLow c ≤ pred.Low ∧ pred.High ≤ clauseHigh c) ∧
        (pred.Low = p0.Low ∨ ∃ c ∈ cs, c.Property = P ∧ clauseLow c = pred.Low) ∧
        (pred.High = p0.High ∨ ∃ c ∈ cs, c.Property = P ∧ clauseHigh c = pred.High) := by
  induction cs with
  | nil =>
    intro p0 h0
    exact ⟨p0, rfl, h0, le_refl _, le_refl _, by simp, Or.inl rfl, Or.inl rfl⟩
  | cons c cs ih =>
    intro p0 h0
    by_cases hc : c.Property = P
    · obtain ⟨pred, hf, hn, hl, hh, hall, hlo, hhi⟩ :=
        ih ⟨P, maxU64 (clauseLow c) p0.Low, minU64 (clauseHigh c) p0.High⟩ rfl
      simp only [maxU64_eq, minU64_eq] at hl hh hlo hhi
      refine ⟨pred, by simp only [foldOn, hc, if_true, hf], hn,
        le_trans (le_max_right _ _) hl, le_trans hh (min_le_right _ _), ?_, ?_, ?_⟩
      · intro c2 hc2 hP
        rcases List.mem_cons.mp hc2 with rfl | hmem
        · exact ⟨le_trans (le_max_left _ _) hl, le_trans hh (min_le_left _ _)⟩
        · exact hall c2 hmem hP
      · rcases hlo with hlo | ⟨c2, hc2, hP, he⟩
        · by_cases hcmp : clauseLow c ≤ p0.Low
          · exact Or.inl (hlo.trans (max_eq_right hcmp))
          · exact Or.inr ⟨c, List.mem_cons_self _ _, hc,
              (hlo.trans (max_eq_left (le_of_not_le hcmp))).symm⟩
        · exact Or.inr ⟨c2, List.mem_cons_of_mem _ hc2, hP, he⟩
      · rcases hhi with hhi | ⟨c2, hc2, hP, he⟩
        · by_cases hcmp : p0.High ≤ clauseHigh c
          · exact Or.inl (hhi.trans (min_eq_right hcmp))
          · exact Or.inr ⟨c, List.mem_cons_self _ _, hc,
              (hhi.trans (min_eq_left (le_of_not_le hcmp))).symm⟩
        · exact Or.inr ⟨c2, List.mem_cons_of_mem _ hc2, hP, he⟩
    · obtain ⟨pred, hf, hn, hl, hh, hall, hlo, hhi⟩ := ih p0 h0
      refine ⟨pred, by simp only [foldOn, hc, if_false, hf], hn, hl, hh, ?_, ?_, ?_⟩
      · intro c2 hc2 hP
        rcases List.mem_cons.mp hc2 with rfl | hmem
        · exact absurd hP hc
        · exact hall c2 hmem hP
      · rcases hlo with hlo | ⟨c2, hc2, hP, he⟩
        · exact Or.inl hlo
        · exact Or.inr ⟨c2, List.mem_cons_of_mem _ hc2, hP, he⟩
      · rcases hhi with hhi | ⟨c2, hc2, hP, he⟩
        · exact Or.inl hhi
        · exact Or.inr ⟨c2, List.mem_cons_of_mem _ hc2, hP, he⟩

/-- Folding from the empty map: a property some clause names holds one
predicate, whose `Low` is the largest clause `Low` and whose `High` is the
smallest clause `High`. -/
theorem foldOn_none (P : String) (cs : List UintPredContext)
    (h : ∃ c ∈ cs, c.Property = P) :
    ∃ pred, foldOn P cs none = some pred ∧ pred.Name = P ∧
      (∀ c ∈ cs, c.Property = P → clauseLow c ≤ pred.Low ∧ pred.High ≤ clauseHigh c) ∧
      (∃ c ∈ cs, c.Property = P ∧ clauseLow c = pred.Low) ∧
      (∃ c ∈ cs, c.Property = P ∧ clauseHigh c = pred.High) := by
  induction cs with
  | nil =>
    obtain ⟨c, hc, _⟩ := h
    exact absurd hc (List.not_mem_nil c)
  | cons c cs ih =>
    by_cases hc : c.Property = P
    · obtain ⟨pred, hf, hn, hl, hh, hall, hlo, hhi⟩ :=
        foldOn_some P cs ⟨P, clauseLow c, clauseHigh c⟩ rfl
      simp only at hl hh hlo hhi
      refine ⟨pred, by simp only [foldOn, hc, if_true, hf], hn, ?_, ?_, ?_⟩
      · intro c2 hc2 hP
        rcases List.mem_cons.mp hc2 with rfl | hmem
        · exact ⟨hl, hh⟩
        · exact hall c2 hmem hP
      · rcases hlo with hlo | ⟨c2, hc2, hP, he⟩
        · exact ⟨c, List.mem_cons_self _ _, hc, hlo.symm⟩
        · exact ⟨c2, List.mem_cons_of_mem _ hc2, hP, he⟩
      · rcases hhi with hhi | ⟨c2, hc2, hP, he⟩
        · exact ⟨c, List.mem_cons_self _ _, hc, hhi.symm⟩
        · exact ⟨c2, List.mem_cons_of_mem _ hc2, hP, he⟩
    · have h2 : ∃ c ∈ cs, c.Property = P := by
        obtain ⟨c2, hc2, hP⟩ := h
        rcases List.mem_cons.mp hc2 with rfl | hmem
        · exact absurd hP hc
        · exact ⟨c2, hmem, hP⟩
      obtain ⟨pred, hf, hn, hall, hlo, hhi⟩ := ih h2
      refine ⟨pred, by simp only [foldOn, hc, if_false, hf], hn, ?_, ?_, ?_⟩
      · intro c2 hc2 hP
        rcases List.mem_cons.mp hc2 with rfl | hmem
        · exact absurd hP hc
        · exact hall c2 hmem hP
      · obtain ⟨c2, hc2, hP, he⟩ := hlo
        exact ⟨c2, List.mem_cons_of_mem _ hc2, hP, he⟩
      · obtain ⟨c2, hc2, hP, he⟩ := hhi
        exact ⟨c2, List.mem_cons_of_mem _ hc2, hP, he⟩

/-- The interval loop returns a select only if every clause was accepted. -/
theorem queryUintLoop_ok_all (cs : List UintPredContext) :
    ∀ (i : Nat) (q q2 : CqlSelect), queryUintLoop cs i q = .ok q2 →
      ∀ c ∈ cs, ∃ p, VisitUintPred c = .ok p := by
  induction cs with
  | nil => intro i q q2 _ c hc; exact absurd hc (List.not_mem_nil c)
  | cons c0 cs ih =>
    intro i q q2 h c hc
    simp only [queryUintLoop] at h
    cases hv : VisitUintPred c0 with
    | error e => simp [hv] at h
    | ok p =>
      simp only [hv] at h
      rcases List.mem_cons.mp hc with rfl | hmem
      · exact ⟨p, hv⟩
      · exact ih _ _ _ h c hmem

/-! ### The later stages of `VisitQuery` -/

theorem ParseInt_error_num (s : String) (e : NumError) (h : ParseInt s = .error e) :
    e.Num = s := by
  unfold ParseInt at h
  cases hd : s.data with
  | nil =>
    simp only [hd, Except.error.injEq] at h
    rw [← h]
  | cons c cs =>
    simp only [hd] at h
    cases hp : ParseUint (String.mk (if c.toNat = 43 ∨ c.toNat = 45 then cs else c :: cs)) with
    | error e2 =>
      obtain ⟨f, n, k⟩ := e2
      cases k <;> simp only [hp, Except.error.injEq] at h <;> rw [← h]
    | ok un =>
      simp only [hp] at h
      split at h
      · simp only [Except.error.injEq] at h; rw [← h]
      · split at h
        · simp only [Except.error.injEq] at h; rw [← h]
        · exact absurd h (by simp)

theorem Atoi_error_func (s : String) (e : NumError) (h : Atoi s = .error e) :
    ∃ k, e = ⟨"Atoi", s, k⟩ := by
  unfold Atoi at h
  cases hp : ParseInt s with
  | error e2 =>
    simp only [hp, Except.error.injEq] at h
    exact ⟨e2.Err, by rw [← h, ParseInt_error_num s e2 hp]⟩
  | ok i => simp [hp] at h

theorem VisitOrderLimit_error (c : OrderLimitContext) (e : CqlError)
    (h : VisitOrderLimit c = .error e) : ∃ t k, e = .wrap ⟨"Atoi", t, k⟩ := by
  unfold VisitOrderLimit at h
  cases hl : c.Limit with
  | none => simp [hl] at h
  | some t =>
    simp only [hl] at h
    cases ha : Atoi t with
    | error e2 =>
      obtain ⟨k, hk⟩ := Atoi_error_func t e2 ha
      simp only [ha, Except.error.injEq] at h
      exact ⟨t, k, by rw [← h, hk]⟩
    | ok n => simp [ha] at h

theorem queryOrderLimit_error (ctx : QueryContext) (q : CqlSelect) (e : CqlError)
    (h : queryOrderLimit ctx q = .error e) :
    (∃ p, e = .invalidOrderBy p) ∨ (∃ t k, e = .wrap ⟨"Atoi", t, k⟩) := by
  unfold queryOrderLimit at h
  cases hol : ctx.OrderLimit with
  | none =>
    simp only [hol] at h
    by_cases hob : q.OrderBy = ""
    · simp [hob] at h
    · simp only [hob, ne_eq, not_false_eq_true, if_true] at h
      split at h
      · exact Or.inl ⟨_, (Except.error.inj h).symm⟩
      · exact absurd h (by simp)
  | some ordCtx =>
    simp only [hol] at h
    cases hv : VisitOrderLimit ordCtx with
    | error e2 =>
      simp only [hv, Except.error.injEq] at h
      exact Or.inr (h ▸ VisitOrderLimit_error ordCtx e2 hv)
    | ok ol =>
      simp only [hv] at h
      split at h
      · rename_i e3 he3
        split at he3
        · simp only [Except.error.injEq] at he3 h
          exact Or.inl ⟨_, by rw [← h, ← he3]⟩
        · exact absurd he3 (by simp)
      · split at h
        · exact Or.inl ⟨_, (Except.error.inj h).symm⟩
        · exact absurd h (by simp)

theorem queryOrderLimit_preds (ctx : QueryContext) (q q2 : CqlSelect)
    (h : queryOrderLimit ctx q = .ok q2) :
    q2.UintPreds = q.UintPreds ∧ q2.Index = q.Index ∧ q2.EnumPreds = q.EnumPreds ∧
      q2.StrPreds = q.StrPreds := by
  unfold queryOrderLimit at h
  cases hol : ctx.OrderLimit with
  | none =>
    simp only [hol] at h
    by_cases hob : q.OrderBy = ""
    · simp [hob] at h
      rw [← h]; simp
    · simp only [hob, ne_eq, not_false_eq_true, if_true] at h
      split at h
      · exact absurd h (by simp)
      · simp only [Except.ok.injEq] at h
        rw [← h]; simp
  | some ordCtx =>
    simp only [hol] at h
    cases hv : VisitOrderLimit ordCtx with
    | error e2 => simp [hv] at h
    | ok ol =>
      simp only [hv] at h
      split at h
      · exact absurd h (by simp)
      · rename_i q3 he3
        split at he3
        · exact absurd he3 (by simp)
        · simp only [Except.ok.injEq] at he3
          split at h
          · exact absurd h (by simp)
          · simp only [Except.ok.injEq] at h
            rw [← h, ← he3]; simp

theorem VisitIntList_error (l : List String) (e : CqlError) (h : VisitIntList l = .error e) :
    ∃ t k, e = .wrap ⟨"Atoi", t, k⟩ := by
  induction l generalizing e with
  | nil => simp [VisitIntList] at h
  | cons it rest ih =>
    simp only [VisitIntList] at h
    cases ha : Atoi it with
    | error e2 =>
      obtain ⟨k, hk⟩ := Atoi_error_func it e2 ha
      simp only [ha, Except.error.injEq] at h
      exact ⟨it, k, by rw [← h, hk]⟩
    | ok val =>
      simp only [ha] at h
      cases hr : VisitIntList rest with
      | error e3 =>
        simp only [hr, Except.error.injEq] at h
        subst h
        exact ih e3 hr
      | ok vals => simp [hr] at h

theorem VisitEnumPred_error (c : EnumPredContext) (e : CqlError)
    (h : VisitEnumPred c = .error e) : ∃ t k, e = .wrap ⟨"Atoi", t, k⟩ := by
  unfold VisitEnumPred at h
  cases hr : VisitIntList c.IntList with
  | error e3 =>
    simp only [hr, Except.error.injEq] at h
    exact h ▸ VisitIntList_error _ e3 hr
  | ok vals => simp [hr] at h

theorem queryEnumLoop_error (cs : List EnumPredContext) (q : CqlSelect) (e : CqlError)
    (h : queryEnumLoop cs q = .error e) :
    (∃ p, e = .multipleEnumPred p) ∨ (∃ t k, e = .wrap ⟨"Atoi", t, k⟩) := by
  induction cs generalizing q with
  | nil => simp [queryEnumLoop] at h
  | cons c cs ih =>
    simp only [queryEnumLoop] at h
    cases hv : VisitEnumPred c with
    | error e2 =>
      simp only [hv, Except.error.injEq] at h
      exact Or.inr (h ▸ VisitEnumPred_error c e2 hv)
    | ok enumPred =>
      simp only [hv] at h
      by_cases hd : (q.EnumPreds enumPred.Name).isSome = true
      · simp only [hd, if_true, Except.error.injEq] at h
        exact Or.inl ⟨_, h.symm⟩
      · simp only [hd] at h
        exact ih _ h

theorem queryEnumLoop_fields (cs : List EnumPredContext) (q q2 : CqlSelect)
    (h : queryEnumLoop cs q = .ok q2) :
    q2.UintPreds = q.UintPreds ∧ q2.Index = q.Index ∧ q2.StrPreds = q.StrPreds ∧
      q2.OrderBy = q.OrderBy ∧ q2.Limit = q.Limit := by
  induction cs generalizing q with
  | nil =>
    simp only [queryEnumLoop, Except.ok.injEq] at h
    subst h
    exact ⟨rfl, rfl, rfl, rfl, rfl⟩
  | cons c cs ih =>
    simp only [queryEnumLoop] at h
    cases hv : VisitEnumPred c with
    | error e2 => simp [hv] at h
    | ok enumPred =>
      simp only [hv] at h
      by_cases hd : (q.EnumPreds enumPred.Name).isSome = true
      · simp [hd] at h
      · simp only [hd, if_false] at h
        have h3 := ih _ h
        exact h3

theorem queryStrLoop_error (cs : List StrPredContext) (q : CqlSelect) (e : CqlError)
    (h : queryStrLoop cs q = .error e) : ∃ p, e = .multipleStrPred p := by
  induction cs generalizing q with
  | nil => simp [queryStrLoop] at h
  | cons c cs ih =>
    simp only [queryStrLoop, VisitStrPred] at h
    by_cases hd : (q.StrPreds c.Property).isSome = true
    · simp only [hd, if_true, Except.error.injEq] at h
      exact ⟨_, h.symm⟩
    · simp only [hd] at h
      exact ih _ h

theorem queryStrLoop_fields (cs : List StrPredContext) (q q2 : CqlSelect)
    (h : queryStrLoop cs q = .ok q2) :
    q2.UintPreds = q.UintPreds ∧ q2.Index = q.Index ∧ q2.EnumPreds = q.EnumPreds ∧
      q2.OrderBy = q.OrderBy ∧ q2.Limit = q.Limit := by
  induction cs generalizing q with
  | nil =>
    simp only [queryStrLoop, Except.ok.injEq] at h
    subst h
    exact ⟨rfl, rfl, rfl, rfl, rfl⟩
  | cons c cs ih =>
    simp only [queryStrLoop, VisitStrPred] at h
    by_cases hd : (q.StrPreds c.Property).isSome = true
    · simp [hd] at h
    · simp only [hd, if_false] at h
      have h3 := ih _ h
      exact h3

/-- The stages of a successful `VisitQuery`, one after the other. -/
theorem VisitQuery_ok_stages (ctx : QueryContext) (q : CqlSelect) (h : VisitQuery ctx = .ok q) :
    ∃ q0 q1 q2, queryUintLoop ctx.AllUintPred 0 (newSelect ctx) = .ok q0 ∧
      queryOrderLimit ctx q0 = .ok q1 ∧ queryEnumLoop ctx.AllEnumPred q1 = .ok q2 ∧
      queryStrLoop ctx.AllStrPred q2 = .ok q := by
  unfold VisitQuery at h
  cases h0 : queryUintLoop ctx.AllUintPred 0 (newSelect ctx) with
  | error e => simp [h0] at h
  | ok q0 =>
    simp only [h0] at h
    cases h1 : queryOrderLimit ctx q0 with
    | error e => simp [h1] at h
    | ok q1 =>
      simp only [h1] at h
      cases h2 : queryEnumLoop ctx.AllEnumPred q1 with
      | error e => simp [h2] at h
      | ok q2 =>
        simp only [h2] at h
        exact ⟨q0, q1, q2, rfl, h1, h2, h⟩

/-- The interval predicates and the order of a select are those the order/limit
stage leaves: the two later loops do not touch them. -/
theorem VisitQuery_ok_preds (ctx : QueryContext) (q : CqlSelect) (h : VisitQuery ctx = .ok q) :
    ∃ q0 q1, queryUintLoop ctx.AllUintPred 0 (newSelect ctx) = .ok q0 ∧
      queryOrderLimit ctx q0 = .ok q1 ∧ q.UintPreds = q0.UintPreds ∧
      q.OrderBy = q1.OrderBy ∧ q.Limit = q1.Limit ∧ q.Index = ctx.IndexName := by
  obtain ⟨q0, q1, q2, h0, h1, h2, h3⟩ := VisitQuery_ok_stages ctx q h
  obtain ⟨hU1, hI1, _, _⟩ := queryOrderLimit_preds ctx q0 q1 h1
  obtain ⟨hU2, hI2, _, hO2, hL2⟩ := queryEnumLoop_fields _ q1 q2 h2
  obtain ⟨hU3, hI3, _, hO3, hL3⟩ := queryStrLoop_fields _ q2 q h3
  refine ⟨q0, q1, h0, h1, by rw [hU3, hU2, hU1], by rw [hO3, hO2], by rw [hL3, hL2], ?_⟩
  rw [hI3, hI2, hI1]
  obtain ⟨q0b, h0b, hI0, _⟩ :=
    queryUintLoop_spec ctx.AllUintPred 0 (newSelect ctx) (queryUintLoop_ok_all _ 0 _ q0 h0)
  rw [h0] at h0b
  simp only [Except.ok.injEq] at h0b
  rw [h0b, hI0]
  rfl

/-- Whatever `VisitQuery` fails with once the interval loop has passed is an
error of a later stage. -/
theorem VisitQuery_error_later (ctx : QueryContext) (q0 : CqlSelect) (e : CqlError)
    (h0 : queryUintLoop ctx.AllUintPred 0 (newSelect ctx) = .ok q0)
    (h : VisitQuery ctx = .error e) :
    (∃ p, e = .invalidOrderBy p) ∨ (∃ p, e = .multipleEnumPred p) ∨
      (∃ p, e = .multipleStrPred p) ∨ (∃ t k, e = .wrap ⟨"Atoi", t, k⟩) := by
  unfold VisitQuery at h
  simp only [h0] at h
  cases h1 : queryOrderLimit ctx q0 with
  | error e1 =>
    simp only [h1, Except.error.injEq] at h
    subst h
    rcases queryOrderLimit_error ctx q0 e1 h1 with hh | hh
    · exact Or.inl hh
    · exact Or.inr (Or.inr (Or.inr hh))
  | ok q1 =>
    simp only [h1] at h
    cases h2 : queryEnumLoop ctx.AllEnumPred q1 with
    | error e2 =>
      simp only [h2, Except.error.injEq] at h
      subst h
      rcases queryEnumLoop_error _ q1 e2 h2 with hh | hh
      · exact Or.inr (Or.inl hh)
      · exact Or.inr (Or.inr (Or.inr hh))
    | ok q2 =>
      simp only [h2] at h
      exact Or.inr (Or.inr (Or.inl (queryStrLoop_error _ q2 e h)))

theorem mem_clausesOn (P : String) (ctx : QueryContext) (c : UintPredContext) :
    c ∈ clausesOn P ctx ↔ c ∈ ctx.AllUintPred ∧ c.Property = P := by
  simp [clausesOn, List.mem_filter]

/-- C2: when every interval literal of a select parses, the interval loop of
`VisitQuery` returns (it rejects nothing), a failure of `VisitQuery` can only be
an error of the later stages (invalid order-by, repeated set or substring
predicate, an integer `Atoi` rejects), every select `VisitQuery` returns has
the interval predicates the loop produced, and for each property `P` named by
some interval clause the map holds one predicate, named `P`, whose Low is the
maximum of the clauses' Lows and whose High is the minimum of the clauses'
Highs. No relation between Low and High is required, so the range may be
empty. -/
theorem C2_fold_is_intersection (ctx : QueryContext)
    (hparse : ∀ c ∈ ctx.AllUintPred, ∃ v, ParseUint c.INT = .ok v) :
    ∃ q0, queryUintLoop ctx.AllUintPred 0 (newSelect ctx) = .ok q0 ∧
      (∀ e, VisitQuery ctx = .error e →
        (∃ p, e = .invalidOrderBy p) ∨ (∃ p, e = .multipleEnumPred p) ∨
          (∃ p, e = .multipleStrPred p) ∨ (∃ t k, e = .wrap ⟨"Atoi", t, k⟩)) ∧
      (∀ q, VisitQuery ctx = .ok q → q.UintPreds = q0.UintPreds) ∧
      ∀ P, (∃ c ∈ ctx.AllUintPred, c.Property = P) →
        ∃ pred, q0.UintPreds P = some pred ∧ pred.Name = P ∧
          (∃ c ∈ clausesOn P ctx, clauseLow c = pred.Low) ∧
          (∀ c ∈ clausesOn P ctx, clauseLow c ≤ pred.Low) ∧
          (∃ c ∈ clausesOn P ctx, clauseHigh c = pred.High) ∧
          (∀ c ∈ clausesOn P ctx, pred.High ≤ clauseHigh c) := by
  have hall : ∀ c ∈ ctx.AllUintPred, ∃ p, VisitUintPred c = .ok p := fun c hc => by
    obtain ⟨v, hv⟩ := hparse c hc
    exact VisitUintPred_of_parse c v hv
  obtain ⟨q0, h0, _, _, _, _, _, hU⟩ := queryUintLoop_spec ctx.AllUintPred 0 (newSelect ctx) hall
  refine ⟨q0, h0, fun e he => VisitQuery_error_later ctx q0 e h0 he, ?_, ?_⟩
  · intro q hq
    obtain ⟨q0b, _, h0b, _, hUq, _⟩ := VisitQuery_ok_preds ctx q hq
    rw [h0] at h0b
    simp only [Except.ok.injEq] at h0b
    rw [hUq, h0b]
  · intro P hP
    obtain ⟨pred, hf, hn, hbounds, ⟨cl, hcl, hclP, hlo⟩, ⟨ch, hch, hchP, hhi⟩⟩ :=
      foldOn_none P ctx.AllUintPred hP
    refine ⟨pred, ?_, hn, ⟨cl, (mem_clausesOn P ctx cl).2 ⟨hcl, hclP⟩, hlo⟩, ?_,
      ⟨ch, (mem_clausesOn P ctx ch).2 ⟨hch, hchP⟩, hhi⟩, ?_⟩
    · rw [hU P]; exact hf
    · intro c hc
      obtain ⟨hc1, hc2⟩ := (mem_clausesOn P ctx c).1 hc
      exact (hbounds c hc1 hc2).1
    · intro c hc
      obtain ⟨hc1, hc2⟩ := (mem_clausesOn P ctx c).1 hc
      exact (hbounds c hc1 hc2).2

/-- C2 at `WHERE price>10 AND price<100 AND price>=20`: the select compiles and
holds the single interval `[20, 99]` for `price`. -/
theorem C2_fold_is_intersection_witness :
    (∀ c ∈ exampleFold.AllUintPred, ∃ v, ParseUint c.INT = .ok v) ∧
    ∃ q, VisitQuery exampleFold = .ok q ∧ q.UintPreds "price" = some ⟨"price", 20, 99⟩ := by
  have hparse : ∀ c ∈ exampleFold.AllUintPred, ∃ v, ParseUint c.INT = .ok v := by
    intro c hc
    simp only [exampleFold, List.mem_cons, List.mem_singleton, List.not_mem_nil, or_false] at hc
    rcases hc with rfl | rfl | rfl
    · exact ⟨10, rfl⟩
    · exact ⟨100, rfl⟩
    · exact ⟨20, rfl⟩
  refine ⟨hparse, ?_⟩
  obtain ⟨q0, _, _, hok, hP⟩ := C2_fold_is_intersection exampleFold hparse
  obtain ⟨q, hq⟩ : ∃ q, VisitQuery exampleFold = .ok q := ⟨_, rfl⟩
  refine ⟨q, hq, ?_⟩
  obtain ⟨pred, hpred, hname, ⟨cl, hcl, hlo⟩, hlow, ⟨ch, hch, hhi⟩, hhigh⟩ :=
    hP "price" ⟨⟨"price", .bt, "10"⟩, by simp [exampleFold], rfl⟩
  have hcs : clausesOn "price" exampleFold =
      [⟨"price", .bt, "10"⟩, ⟨"price", .lt, "100"⟩, ⟨"price", .be, "20"⟩] := by decide
  rw [hcs] at hcl hch hlow hhigh
  have l1 : clauseLow ⟨"price", .bt, "10"⟩ = 11 := rfl
  have l2 : clauseLow ⟨"price", .lt, "100"⟩ = 0 := rfl
  have l3 : clauseLow ⟨"price", .be, "20"⟩ = 20 := rfl
  have u1 : clauseHigh ⟨"price", .bt, "10"⟩ = 2 ^ 64 - 1 := rfl
  have u2 : clauseHigh ⟨"price", .lt, "100"⟩ = 99 := rfl
  have u3 : clauseHigh ⟨"price", .be, "20"⟩ = 2 ^ 64 - 1 := rfl
  have hL : pred.Low = 20 := by
    have a3 := hlow _ (List.mem_cons_of_mem _ (List.mem_cons_of_mem _ (List.mem_cons_self _ _)))
    rw [l3] at a3
    simp only [List.mem_cons, List.mem_singleton, List.not_mem_nil, or_false] at hcl
    rcases hcl with rfl | rfl | rfl
    · rw [l1] at hlo; omega
    · rw [l2] at hlo; omega
    · rw [l3] at hlo; omega
  have hH : pred.High = 99 := by
    have a2 := hhigh _ (List.mem_cons_of_mem _ (List.mem_cons_self _ _))
    rw [u2] at a2
    simp only [List.mem_cons, List.mem_singleton, List.not_mem_nil, or_false] at hch
    rcases hch with rfl | rfl | rfl
    · rw [u1] at hhi; omega
    · rw [u2] at hhi; omega
    · rw [u3] at hhi; omega
  rw [hok q hq, hpred]
  obtain ⟨n, lo, hi⟩ := pred
  simp only at hname hL hH
  rw [hname, hL, hH]

/-- Away from the two edge clauses, the interval of a clause holds exactly the
unsigned 64-bit values that satisfy the clause. -/
theorem clause_interval_iff (c : UintPredContext) (v x : Nat)
    (hv : ParseUint c.INT = .ok v) (he : c.isEdge = false) (hx : x < 2 ^ 64) :
    (clauseLow c ≤ x ∧ x ≤ clauseHigh c) ↔ c.satisfiedBy x = true := by
  obtain ⟨P, cmp, txt⟩ := c
  have hvlt := ParseUint_lt txt v hv
  simp only at hv
  cases cmp <;>
    simp only [clauseLow, clauseHigh, VisitUintPred_ok P txt _ v hv,
      UintPredContext.satisfiedBy, UintPredContext.isEdge, hv, maxUint64, reduceCtorEq,
      false_and, true_and, or_false, false_or, decide_eq_false_iff_not, decide_eq_true_eq,
      Bool.decide_eq_false, Bool.not_eq_true', Bool.or_false, Bool.false_or,
      Bool.decide_and, Bool.and_eq_true, Bool.decide_false, Bool.false_and, Bool.true_and,
      decide_True] at he ⊢ <;>
    omega

/-- C1: for a select whose interval literals are unsigned 64-bit literals, a
property `P` named by at least one interval clause, none of the clauses on `P`
being `< 0` or `> 2^64-1`, and an unsigned 64-bit value `x`: the interval loop of
`VisitQuery` returns, it holds one predicate for `P`, that predicate is the one
every select `VisitQuery` returns holds for `P`, and `Low <= x <= High` if and
only if `x` satisfies every clause on `P`. -/
theorem C1_fold_is_conjunction (ctx : QueryContext) (P : String) (x : Nat)
    (hparse : ∀ c ∈ ctx.AllUintPred, ∃ v, ParseUint c.INT = .ok v)
    (hP : ∃ c ∈ ctx.AllUintPred, c.Property = P)
    (hedge : ∀ c ∈ ctx.AllUintPred, c.Property = P → c.isEdge = false)
    (hx : x < 2 ^ 64) :
    ∃ q0 pred, queryUintLoop ctx.AllUintPred 0 (newSelect ctx) = .ok q0 ∧
      q0.UintPreds P = some pred ∧
      (∀ q, VisitQuery ctx = .ok q → q.UintPreds P = some pred) ∧
      ((pred.Low ≤ x ∧ x ≤ pred.High) ↔
        ∀ c ∈ ctx.AllUintPred, c.Property = P → c.satisfiedBy x = true) := by
  have hall : ∀ c ∈ ctx.AllUintPred, ∃ p, VisitUintPred c = .ok p := fun c hc => by
    obtain ⟨v, hv⟩ := hparse c hc
    exact VisitUintPred_of_parse c v hv
  obtain ⟨q0, h0, _, _, _, _, _, hU⟩ := queryUintLoop_spec ctx.AllUintPred 0 (newSelect ctx) hall
  obtain ⟨pred, hf, _, hbounds, ⟨cl, hcl, hclP, hlo⟩, ⟨ch, hch, hchP, hhi⟩⟩ :=
    foldOn_none P ctx.AllUintPred hP
  have hpred : q0.UintPreds P = some pred := by rw [hU P]; exact hf
  refine ⟨q0, pred, h0, hpred, ?_, ?_⟩
  · intro q hq
    obtain ⟨q0b, _, h0b, _, hUq, _⟩ := VisitQuery_ok_preds ctx q hq
    rw [h0] at h0b
    simp only [Except.ok.injEq] at h0b
    rw [hUq, ← h0b]
    exact hpred
  · constructor
    · intro hin c hc hcP
      obtain ⟨v, hv⟩ := hparse c hc
      have hb := hbounds c hc hcP
      exact (clause_interval_iff c v x hv (hedge c hc hcP) hx).1
        ⟨le_trans hb.1 hin.1, le_trans hin.2 hb.2⟩
    · intro hsat
      obtain ⟨vl, hvl⟩ := hparse cl hcl
      obtain ⟨vh, hvh⟩ := hparse ch hch
      have h1 := (clause_interval_iff cl vl x hvl (hedge cl hcl hclP) hx).2 (hsat cl hcl hclP)
      have h2 := (clause_interval_iff ch vh x hvh (hedge ch hch hchP) hx).2 (hsat ch hch hchP)
      exact ⟨hlo ▸ h1.1, hhi ▸ h2.2⟩

/-- C1 at `WHERE price>10 AND price<100 AND price>=20` and the value 50, which
satisfies the three clauses and lies in the stored interval. -/
theorem C1_fold_is_conjunction_witness :
    (∀ c ∈ exampleFold.AllUintPred, ∃ v, ParseUint c.INT = .ok v) ∧
    (∃ c ∈ exampleFold.AllUintPred, c.Property = "price") ∧
    (∀ c ∈ exampleFold.AllUintPred, c.Property = "price" → c.isEdge = false) ∧
    50 < 2 ^ 64 ∧
    ∃ q0 pred, queryUintLoop exampleFold.AllUintPred 0 (newSelect exampleFold) = .ok q0 ∧
      q0.UintPreds "price" = some pred ∧
      (∀ q, VisitQuery exampleFold = .ok q → q.UintPreds "price" = some pred) ∧
      ((pred.Low ≤ 50 ∧ 50 ≤ pred.High) ↔
        ∀ c ∈ exampleFold.AllUintPred, c.Property = "price" → c.satisfiedBy 50 = true) := by
  have hparse : ∀ c ∈ exampleFold.AllUintPred, ∃ v, ParseUint c.INT = .ok v := by
    intro c hc
    simp only [exampleFold, List.mem_cons, List.mem_singleton, List.not_mem_nil, or_false] at hc
    rcases hc with rfl | rfl | rfl
    · exact ⟨10, rfl⟩
    · exact ⟨100, rfl⟩
    · exact ⟨20, rfl⟩
  have hP : ∃ c ∈ exampleFold.AllUintPred, c.Property = "price" :=
    ⟨⟨"price", .bt, "10"⟩, by simp [exampleFold], rfl⟩
  have hedge : ∀ c ∈ exampleFold.AllUintPred, c.Property = "price" → c.isEdge = false := by
    intro c hc _
    simp only [exampleFold, List.mem_cons, List.mem_singleton, List.not_mem_nil, or_false] at hc
    rcases hc with rfl | rfl | rfl <;> rfl
  exact ⟨hparse, hP, hedge, by norm_num,
    C1_fold_is_conjunction exampleFold "price" 50 hparse hP hedge (by norm_num)⟩

/-! ### Document binding -/

/-- What a successful run of the first binding loop returns. -/
theorem docUintLoop_ok (vals : List String) (prots : List UintProp) :
    ∀ (i : Nat) (out : List UintProp), docUintLoop vals prots i = .ok out →
      out.length = prots.length ∧
      ∀ k p, prots[k]? = some p →
        ∃ t n, vals[i + k]? = some t ∧ ParseUint t = .ok n ∧
          out[k]? = some ⟨p.Name, p.ValLen, n⟩ := by
  induction prots with
  | nil =>
    intro i out h
    simp only [docUintLoop, Except.ok.injEq] at h
    subst h
    exact ⟨rfl, fun k p hk => by simp at hk⟩
  | cons p0 prots ih =>
    intro i out h
    simp only [docUintLoop] at h
    cases hv : vals[i]? with
    | none => simp [hv] at h
    | some text =>
      simp only [hv] at h
      cases hp : ParseUint text with
      | error e => simp [hp] at h
      | ok n0 =>
        simp only [hp] at h
        cases hr : docUintLoop vals prots (i + 1) with
        | error e => simp [hr] at h
        | ok rest =>
          simp only [hr, Except.ok.injEq] at h
          subst h
          obtain ⟨hlen, hrest⟩ := ih (i + 1) rest hr
          refine ⟨by simp [hlen], ?_⟩
          intro k p hk
          cases k with
          | zero =>
            simp only [List.getElem?_cons_zero, Option.some.injEq] at hk
            subst hk
            exact ⟨text, n0, by simpa using hv, hp, by simp⟩
          | succ k =>
            simp only [List.getElem?_cons_succ] at hk
            obtain ⟨t, n, h1, h2, h3⟩ := hrest k p hk
            exact ⟨t, n, by rw [← h1]; congr 1; omega, h2, by simpa using h3⟩

/-- What a successful run of the second binding loop returns. -/
theorem docEnumLoop_ok (vals : List String) (off : Nat) (prots : List EnumProp) :
    ∀ (i : Nat) (out : List EnumProp), docEnumLoop vals off prots i = .ok out →
      out.length = prots.length ∧
      ∀ k p, prots[k]? = some p →
        ∃ t n, vals[off + (i + k)]? = some t ∧ Atoi t = .ok n ∧
          out[k]? = some ⟨p.Name, n⟩ := by
  induction prots with
  | nil =>
    intro i out h
    simp only [docEnumLoop, Except.ok.injEq] at h
    subst h
    exact ⟨rfl, fun k p hk => by simp at hk⟩
  | cons p0 prots ih =>
    intro i out h
    simp only [docEnumLoop] at h
    cases hv : vals[i + off]? with
    | none => simp [hv] at h
    | some text =>
      simp only [hv] at h
      cases hp : Atoi text with
      | error e => simp [hp] at h
      | ok n0 =>
        simp only [hp] at h
        cases hr : docEnumLoop vals off prots (i + 1) with
        | error e => simp [hr] at h
        | ok rest =>
          simp only [hr, Except.ok.injEq] at h
          subst h
          obtain ⟨hlen, hrest⟩ := ih (i + 1) rest hr
          refine ⟨by simp [hlen], ?_⟩
          intro k p hk
          cases k with
          | zero =>
            simp only [List.getElem?_cons_zero, Option.some.injEq] at hk
            subst hk
            exact ⟨text, n0, by rw [← hv]; congr 1; omega, hp, by simp⟩
          | succ k =>
            simp only [List.getElem?_cons_succ] at hk
            obtain ⟨t, n, h1, h2, h3⟩ := hrest k p hk
            exact ⟨t, n, by rw [← h1]; congr 1; omega, h2, by simpa using h3⟩

/-- What a successful run of the third binding loop returns. -/
theorem docStrLoop_ok (vals : List String) (off : Nat) (prots : List StrProp) :
    ∀ (i : Nat) (out : List StrProp), docStrLoop vals off prots i = .ok out →
      out.length = prots.length ∧
      ∀ k p, prots[k]? = some p →
        ∃ t, vals[off + (i + k)]? = some t ∧ out[k]? = some ⟨p.Name, t⟩ := by
  induction prots with
  | nil =>
    intro i out h
    simp only [docStrLoop, Except.ok.injEq] at h
    subst h
    exact ⟨rfl, fun k p hk => by simp at hk⟩
  | cons p0 prots ih =>
    intro i out h
    simp only [docStrLoop] at h
    cases hv : vals[i + off]? with
    | none => simp [hv] at h
    | some text =>
      simp only [hv] at h
      cases hr : docStrLoop vals off prots (i + 1) with
      | error e => simp [hr] at h
      | ok rest =>
        simp only [hr, Except.ok.injEq] at h
        subst h
        obtain ⟨hlen, hrest⟩ := ih (i + 1) rest hr
        refine ⟨by simp [hlen], ?_⟩
        intro k p hk
        cases k with
        | zero =>
          simp only [List.getElem?_cons_zero, Option.some.injEq] at hk
          subst hk
          exact ⟨text, by rw [← hv]; congr 1; omega, by simp⟩
        | succ k =>
          simp only [List.getElem?_cons_succ] at hk
          obtain ⟨t, h1, h3⟩ := hrest k p hk
          exact ⟨t, by rw [← h1]; congr 1; omega, by simpa using h3⟩

/-- The stages of a successful `VisitDocument`, one after the other. -/
theorem VisitDocument_ok_stages (docProts : GoMap Document) (ctx : DocumentContext)
    (doc : DocumentWithIdx) (h : VisitDocument docProts ctx = .ok doc) :
    ∃ prot, docProts ctx.IndexName = some prot ∧
      ctx.AllValue.length =
        prot.UintProps.length + prot.EnumProps.length + prot.StrProps.length ∧
      ParseUint ctx.DocId = .ok doc.DocID ∧ doc.Index = ctx.IndexName ∧
      docUintLoop ctx.AllValue prot.UintProps 0 = .ok doc.UintProps ∧
      docEnumLoop ctx.AllValue prot.UintProps.length prot.EnumProps 0 = .ok doc.EnumProps ∧
      docStrLoop ctx.AllValue (prot.UintProps.length + prot.EnumProps.length)
        prot.StrProps 0 = .ok doc.StrProps := by
  unfold VisitDocument at h
  cases hprot : docProts ctx.IndexName with
  | none => simp [hprot] at h
  | some prot =>
    simp only [hprot, Option.isSome_some, not_true_eq_false, if_false, Option.getD_some] at h
    by_cases hlen : ctx.AllValue.length =
        prot.UintProps.length + prot.EnumProps.length + prot.StrProps.length
    · simp only [hlen, ne_eq, not_true_eq_false, if_false] at h
      cases hid : ParseUint ctx.DocId with
      | error e => simp [hid] at h
      | ok n =>
        simp only [hid] at h
        cases hu : docUintLoop ctx.AllValue prot.UintProps 0 with
        | error e => simp [hu] at h
        | ok us =>
          simp only [hu] at h
          cases he : docEnumLoop ctx.AllValue prot.UintProps.length prot.EnumProps 0 with
          | error e => simp [he] at h
          | ok es =>
            simp only [he] at h
            cases hs : docStrLoop ctx.AllValue (prot.UintProps.length + prot.EnumProps.length)
                prot.StrProps 0 with
            | error e => simp [hs] at h
            | ok ss =>
              simp only [hs, Except.ok.injEq] at h
              subst h
              exact ⟨prot, rfl, hlen, rfl, rfl, hu, he, hs⟩
    · simp [hlen] at h

/-- C4: whenever `VisitDocument` succeeds, the registry holds a prototype for
the collection, and the document has Index = the collection name, DocID = the
id literal parsed as an unsigned 64-bit decimal, as many entries per bucket as
the prototype, `UintProps[i]` with the prototype's Name and ValLen and Val =
literal `i` parsed by `ParseUint`, `EnumProps[j]` with the prototype's Name and
Val = literal `N1 + j` parsed by `Atoi`, and `StrProps[k]` with the prototype's
Name and Val = the text of literal `N1 + N2 + k` unchanged. -/
theorem C4_positional_binding (docProts : GoMap Document) (ctx : DocumentContext)
    (doc : DocumentWithIdx) (h : VisitDocument docProts ctx = .ok doc) :
    ∃ prot, docProts ctx.IndexName = some prot ∧
      doc.Index = ctx.IndexName ∧ ParseUint ctx.DocId = .ok doc.DocID ∧
      doc.UintProps.length = prot.UintProps.length ∧
      doc.EnumProps.length = prot.EnumProps.length ∧
      doc.StrProps.length = prot.StrProps.length ∧
      (∀ (i : Nat) (p : UintProp), prot.UintProps[i]? = some p →
        ∃ t n, ctx.AllValue[i]? = some t ∧ ParseUint t = .ok n ∧
          doc.UintProps[i]? = some ⟨p.Name, p.ValLen, n⟩) ∧
      (∀ (j : Nat) (p : EnumProp), prot.EnumProps[j]? = some p →
        ∃ t n, ctx.AllValue[prot.UintProps.length + j]? = some t ∧ Atoi t = .ok n ∧
          doc.EnumProps[j]? = some ⟨p.Name, n⟩) ∧
      (∀ (k : Nat) (p : StrProp), prot.StrProps[k]? = some p →
        ∃ t, ctx.AllValue[prot.UintProps.length + prot.EnumProps.length + k]? = some t ∧
          doc.StrProps[k]? = some ⟨p.Name, t⟩) := by
  obtain ⟨prot, hprot, _, hid, hidx, hu, he, hs⟩ := VisitDocument_ok_stages docProts ctx doc h
  obtain ⟨hul, hup⟩ := docUintLoop_ok _ _ 0 _ hu
  obtain ⟨hel, hep⟩ := docEnumLoop_ok _ _ _ 0 _ he
  obtain ⟨hsl, hsp⟩ := docStrLoop_ok _ _ _ 0 _ hs
  refine ⟨prot, hprot, hidx, hid, hul, hel, hsl, ?_, ?_, ?_⟩
  · intro i p hp
    obtain ⟨t, n, h1, h2, h3⟩ := hup i p hp
    exact ⟨t, n, by simpa using h1, h2, h3⟩
  · intro j p hp
    obtain ⟨t, n, h1, h2, h3⟩ := hep j p hp
    exact ⟨t, n, by simpa using h1, h2, h3⟩
  · intro k p hp
    obtain ⟨t, h1, h3⟩ := hsp k p hp
    exact ⟨t, by simpa using h1, h3⟩

/-- C4 at the insert of `(1, 42, "x")` into `orders(price UINT32, name STR)`. -/
theorem C4_positional_binding_witness :
    VisitDocument ordersRegistry ordersDocument
      = .ok { DocID := 1, UintProps := [⟨"price", 4, 42⟩], EnumProps := [],
              StrProps := [⟨"name", quoted "x"⟩], Index := "orders" } ∧
    ∃ prot, ordersRegistry "orders" = some prot ∧
      (∀ (i : Nat) (p : UintProp), prot.UintProps[i]? = some p →
        ∃ t n, ordersDocument.AllValue[i]? = some t ∧ ParseUint t = .ok n ∧
          [(⟨"price", 4, 42⟩ : UintProp)][i]? = some ⟨p.Name, p.ValLen, n⟩) := by
  have h : VisitDocument ordersRegistry ordersDocument
      = .ok { DocID := 1, UintProps := [⟨"price", 4, 42⟩], EnumProps := [],
              StrProps := [⟨"name", quoted "x"⟩], Index := "orders" } := by rfl
  obtain ⟨prot, hprot, _, _, _, _, _, hu, _, _⟩ :=
    C4_positional_binding ordersRegistry ordersDocument _ h
  exact ⟨h, prot, hprot, hu⟩

theorem docUintLoop_total (vals : List String) (prots : List UintProp) :
    ∀ i : Nat, (∀ k, k < prots.length → ∃ t n, vals[i + k]? = some t ∧ ParseUint t = .ok n) →
      ∃ out, docUintLoop vals prots i = .ok out := by
  induction prots with
  | nil => intro i _; exact ⟨[], rfl⟩
  | cons p0 prots ih =>
    intro i h
    obtain ⟨t, n, h1, h2⟩ := h 0 (by simp)
    obtain ⟨rest, hr⟩ := ih (i + 1) (fun k hk => by
      obtain ⟨t2, n2, h3, h4⟩ := h (k + 1) (by simp; omega)
      exact ⟨t2, n2, by rw [← h3]; congr 1; omega, h4⟩)
    simp only [Nat.add_zero] at h1
    exact ⟨{ p0 with Val := n } :: rest, by simp only [docUintLoop, h1, h2, hr]⟩

theorem docEnumLoop_total (vals : List String) (off : Nat) (prots : List EnumProp) :
    ∀ i : Nat,
      (∀ k, k < prots.length → ∃ t n, vals[off + (i + k)]? = some t ∧ Atoi t = .ok n) →
      ∃ out, docEnumLoop vals off prots i = .ok out := by
  induction prots with
  | nil => intro i _; exact ⟨[], rfl⟩
  | cons p0 prots ih =>
    intro i h
    obtain ⟨t, n, h1, h2⟩ := h 0 (by simp)
    obtain ⟨rest, hr⟩ := ih (i + 1) (fun k hk => by
      obtain ⟨t2, n2, h3, h4⟩ := h (k + 1) (by simp; omega)
      exact ⟨t2, n2, by rw [← h3]; congr 1; omega, h4⟩)
    have h1b : vals[i + off]? = some t := by rw [← h1]; congr 1; omega
    exact ⟨{ p0 with Val := n } :: rest, by simp only [docEnumLoop, h1b, h2, hr]⟩

theorem docStrLoop_total (vals : List String) (off : Nat) (prots : List StrProp) :
    ∀ i : Nat, (∀ k, k < prots.length → ∃ t, vals[off + (i + k)]? = some t) →
      ∃ out, docStrLoop vals off prots i = .ok out := by
  induction prots with
  | nil => intro i _; exact ⟨[], rfl⟩
  | cons p0 prots ih =>
    intro i h
    obtain ⟨t, h1⟩ := h 0 (by simp)
    obtain ⟨rest, hr⟩ := ih (i + 1) (fun k hk => by
      obtain ⟨t2, h3⟩ := h (k + 1) (by simp; omega)
      exact ⟨t2, by rw [← h3]; congr 1; omega⟩)
    have h1b : vals[i + off]? = some t := by rw [← h1]; congr 1; omega
    exact ⟨{ p0 with Val := t } :: rest, by simp only [docStrLoop, h1b, hr]⟩

/-- A list has an element at every index below its length. -/
theorem getElem?_of_lt (vals : List String) (i : Nat) (h : i < vals.length) :
    ∃ t, vals[i]? = some t :=
  ⟨vals[i], List.getElem?_eq_getElem h⟩

/-- `VisitDocument` succeeds exactly under the documented conditions. -/
theorem VisitDocument_ok_iff (docProts : GoMap Document) (ctx : DocumentContext) :
    (∃ doc, VisitDocument docProts ctx = .ok doc) ↔ documentBinds docProts ctx := by
  constructor
  · rintro ⟨doc, h⟩
    obtain ⟨prot, hprot, hlen, hid, _, hu, he, _⟩ := VisitDocument_ok_stages docProts ctx doc h
    obtain ⟨_, hup⟩ := docUintLoop_ok _ _ 0 _ hu
    obtain ⟨_, hep⟩ := docEnumLoop_ok _ _ _ 0 _ he
    refine ⟨prot, hprot, hlen, ⟨_, hid⟩, ?_, ?_⟩
    · intro i t hi ht
      obtain ⟨t2, n, h1, h2, _⟩ := hup i prot.UintProps[i] (List.getElem?_eq_getElem hi)
      simp only [Nat.zero_add] at h1
      rw [ht, Option.some.injEq] at h1
      exact ⟨n, h1 ▸ h2⟩
    · intro j t hj ht
      obtain ⟨t2, n, h1, h2, _⟩ := hep j prot.EnumProps[j] (List.getElem?_eq_getElem hj)
      simp only [Nat.zero_add] at h1
      rw [ht, Option.some.injEq] at h1
      exact ⟨n, h1 ▸ h2⟩
  · rintro ⟨prot, hprot, hlen, ⟨n, hid⟩, hu, he⟩
    obtain ⟨us, hus⟩ := docUintLoop_total ctx.AllValue prot.UintProps 0 (fun k hk => by
      obtain ⟨t, ht⟩ := getElem?_of_lt ctx.AllValue k (by omega)
      obtain ⟨n2, hn2⟩ := hu k t hk ht
      exact ⟨t, n2, by simpa using ht, hn2⟩)
    obtain ⟨es, hes⟩ := docEnumLoop_total ctx.AllValue prot.UintProps.length prot.EnumProps 0
      (fun k hk => by
        obtain ⟨t, ht⟩ := getElem?_of_lt ctx.AllValue (prot.UintProps.length + k) (by omega)
        obtain ⟨n2, hn2⟩ := he k t hk ht
        exact ⟨t, n2, by simpa using ht, hn2⟩)
    obtain ⟨ss, hss⟩ := docStrLoop_total ctx.AllValue
      (prot.UintProps.length + prot.EnumProps.length) prot.StrProps 0 (fun k hk => by
        obtain ⟨t, ht⟩ := getElem?_of_lt ctx.AllValue
          (prot.UintProps.length + prot.EnumProps.length + k) (by omega)
        exact ⟨t, by simpa using ht⟩)
    exact ⟨{ DocID := n, UintProps := us, EnumProps := es, StrProps := ss,
             Index := ctx.IndexName },
      by simp [VisitDocument, hprot, hlen, hid, hus, hes, hss]⟩

/-- The compile of an insert and of a delete, from the result of
`VisitDocument`. -/
theorem ParseCql_document (docProts : GoMap Document) (ctx : DocumentContext) :
    (∀ doc, VisitDocument docProts ctx = .ok doc →
      ParseCql none (.insert ⟨ctx⟩) docProts = (some (.insert ⟨doc⟩), none) ∧
      ParseCql none (.del ⟨ctx⟩) docProts = (some (.del ⟨doc⟩), none)) ∧
    (∀ e, VisitDocument docProts ctx = .error e →
      ParseCql none (.insert ⟨ctx⟩) docProts = (none, some e) ∧
      ParseCql none (.del ⟨ctx⟩) docProts = (none, some e)) := by
  constructor
  · intro doc h
    simp [ParseCql, VisitCql, CqlContext.Create, CqlContext.Destroy, CqlContext.Insert,
      CqlContext.Del, VisitInsert, VisitDel, h, Except.map]
  · intro e h
    simp [ParseCql, VisitCql, CqlContext.Create, CqlContext.Destroy, CqlContext.Insert,
      CqlContext.Del, VisitInsert, VisitDel, h, Except.map]

/-- C5 (as stated, refuted): with the registry holding the prototype of
`orders(price UINT32, name STR)`, the insert of `(1, 42, "x")` does not yield a
document whose string property `name` has the one-character value `x`. -/
theorem C5_roundtrip_counterexample :
    ¬ ∃ q : CqlInsert,
      ParseCql none (.insert ⟨ordersDocument⟩) ordersRegistry = (some (.insert q), none) ∧
      (∃ u ∈ q.UintProps, u.Name = "price" ∧ u.Val = 42) ∧
      (∃ sp ∈ q.StrProps, sp.Name = "name" ∧ sp.Val = "x") := by
  rintro ⟨q, hq, _, sp, hsp, _, hval⟩
  have h : ParseCql none (.insert ⟨ordersDocument⟩) ordersRegistry
      = (some (.insert
          { DocID := 1, UintProps := [⟨"price", 4, 42⟩], EnumProps := [],
            StrProps := [⟨"name", quoted "x"⟩], Index := "orders" }), none) := by rfl
  rw [h] at hq
  simp only [Prod.mk.injEq, Option.some.injEq, Res.insert.injEq, and_true] at hq
  subst hq
  simp only [List.mem_singleton] at hsp
  subst hsp
  revert hval
  decide

/-- C5 (amended): with the registry holding the prototype that defining
`orders(price UINT32, name STR)` produces, the insert of `(1, 42, "x")` compiles
to a document in which the unsigned-integer property `price` has value 42 and
the string property `name` has the text of the literal as written, the three
characters double quote, `x`, double quote. -/
theorem C5_roundtrip_verbatim :
    VisitCreate ordersCreate
      = .ok { DocID := 0, UintProps := [⟨"price", 4, 0⟩], EnumProps := [],
              StrProps := [⟨"name", ""⟩], Index := "orders" } ∧
    ordersRegistry "orders"
      = some { DocID := 0, UintProps := [⟨"price", 4, 0⟩], EnumProps := [],
               StrProps := [⟨"name", ""⟩] } ∧
    ParseCql none (.insert ⟨ordersDocument⟩) ordersRegistry
      = (some (.insert
          { DocID := 1, UintProps := [⟨"price", 4, 42⟩], EnumProps := [],
            StrProps := [⟨"name", quoted "x"⟩], Index := "orders" }), none) ∧
    (quoted "x").data = [Char.ofNat 34, 'x', Char.ofNat 34] :=
  ⟨rfl, rfl, rfl, rfl⟩

/-- C6: for every registry and every document of an insert or delete, the
compile returns a command (and no error) if and only if the documented
conditions hold (`documentBinds`: collection in the registry, as many value
literals as properties, id accepted by `ParseUint`, the first `N1` literals
accepted by `ParseUint`, the next `N2` by `Atoi`; the string literals are not
constrained), and otherwise it returns an error and no command. -/
theorem C6_bind_fails_exactly (docProts : GoMap Document) (ctx : DocumentContext) :
    ((∃ q, ParseCql none (.insert ⟨ctx⟩) docProts = (some (.insert q), none))
      ↔ documentBinds docProts ctx) ∧
    ((∃ q, ParseCql none (.del ⟨ctx⟩) docProts = (some (.del q), none))
      ↔ documentBinds docProts ctx) ∧
    (¬ documentBinds docProts ctx →
      ∃ e, ParseCql none (.insert ⟨ctx⟩) docProts = (none, some e) ∧
        ParseCql none (.del ⟨ctx⟩) docProts = (none, some e)) := by
  obtain ⟨hok, herr⟩ := ParseCql_document docProts ctx
  have hiff := VisitDocument_ok_iff docProts ctx
  cases hv : VisitDocument docProts ctx with
  | ok doc =>
    have hb : documentBinds docProts ctx := hiff.1 ⟨doc, hv⟩
    obtain ⟨h1, h2⟩ := hok doc hv
    exact ⟨⟨fun _ => hb, fun _ => ⟨⟨doc⟩, h1⟩⟩, ⟨fun _ => hb, fun _ => ⟨⟨doc⟩, h2⟩⟩,
      fun hn => absurd hb hn⟩
  | error e =>
    have hb : ¬ documentBinds docProts ctx := fun hb => by
      obtain ⟨doc, hd⟩ := hiff.2 hb
      rw [hv] at hd
      exact absurd hd (by simp)
    obtain ⟨h1, h2⟩ := herr e hv
    refine ⟨⟨?_, fun h => absurd h hb⟩, ⟨?_, fun h => absurd h hb⟩, fun _ => ⟨e, h1, h2⟩⟩
    · rintro ⟨q, hq⟩
      rw [h1] at hq
      exact absurd hq (by simp)
    · rintro ⟨q, hq⟩
      rw [h2] at hq
      exact absurd hq (by simp)

/-- C7: when the registry holds the collection and the number of value
literals differs from the number of properties of its prototype, the compile of
an insert and of a delete returns the arity error and no command, whatever the
id and value literals are. -/
theorem C7_arity_mismatch (docProts : GoMap Document) (ctx : DocumentContext) (prot : Document)
    (hprot : docProts ctx.IndexName = some prot)
    (hlen : ctx.AllValue.length ≠
      prot.UintProps.length + prot.EnumProps.length + prot.StrProps.length) :
    ParseCql none (.insert ⟨ctx⟩) docProts
      = (none, some (.invalidNumberOfValues ctx.AllValue.length
          (prot.UintProps.length + prot.EnumProps.length + prot.StrProps.length))) ∧
    ParseCql none (.del ⟨ctx⟩) docProts
      = (none, some (.invalidNumberOfValues ctx.AllValue.length
          (prot.UintProps.length + prot.EnumProps.length + prot.StrProps.length))) := by
  have hv : VisitDocument docProts ctx = .error (.invalidNumberOfValues ctx.AllValue.length
      (prot.UintProps.length + prot.EnumProps.length + prot.StrProps.length)) := by
    simp [VisitDocument, hprot, hlen]
  exact (ParseCql_document docProts ctx).2 _ hv

/-- C7 at a three-property schema and an insert that supplies two values. -/
theorem C7_arity_mismatch_witness :
    itemsRegistry itemsShortDocument.IndexName
      = some { DocID := 0, UintProps := [⟨"size", 1, 0⟩], EnumProps := [⟨"color", 0⟩],
               StrProps := [⟨"name", ""⟩] } ∧
    itemsShortDocument.AllValue.length ≠ 1 + 1 + 1 ∧
    ParseCql none (.insert ⟨itemsShortDocument⟩) itemsRegistry
      = (none, some (.invalidNumberOfValues 2 3)) :=
  ⟨rfl, by decide,
    (C7_arity_mismatch itemsRegistry itemsShortDocument
      { DocID := 0, UintProps := [⟨"size", 1, 0⟩], EnumProps := [⟨"color", 0⟩],
        StrProps := [⟨"name", ""⟩] } rfl (by decide)).1⟩

/-! ### Order and limit -/

/-- What `VisitOrderLimit` returns when it returns. -/
theorem VisitOrderLimit_ok_inv (ol : OrderLimitContext) (r : orderLimit)
    (h : VisitOrderLimit ol = .ok r) :
    r.order = ol.Order.getD "" ∧ (∀ t, ol.Limit = some t → Atoi t = .ok r.limit) ∧
      (ol.Limit = none → r.limit = 100) := by
  unfold VisitOrderLimit at h
  cases hl : ol.Limit with
  | none =>
    simp only [hl, Except.ok.injEq] at h
    subst h
    cases ho : ol.Order <;> simp [DEFAULT_LIMIT]
  | some t =>
    simp only [hl] at h
    cases ha : Atoi t with
    | error e => simp [ha] at h
    | ok n =>
      simp only [ha, Except.ok.injEq] at h
      subst h
      cases ho : ol.Order <;> simp [ha]

/-- `VisitOrderLimit` returns when the limit literal, if any, is one `Atoi`
accepts. -/
theorem VisitOrderLimit_total (ol : OrderLimitContext)
    (hlim : ∀ t, ol.Limit = some t → ∃ n, Atoi t = .ok n) :
    ∃ r, VisitOrderLimit ol = .ok r := by
  unfold VisitOrderLimit
  cases hl : ol.Limit with
  | none => exact ⟨_, rfl⟩
  | some t =>
    obtain ⟨n, hn⟩ := hlim t hl
    simp only [hn]
    exact ⟨_, rfl⟩

/-- The order/limit stage on a select with an order/limit part. -/
theorem queryOrderLimit_some (ctx : QueryContext) (ol : OrderLimitContext) (q0 : CqlSelect)
    (r : orderLimit) (hol : ctx.OrderLimit = some ol) (hr : VisitOrderLimit ol = .ok r) :
    queryOrderLimit ctx q0 =
      if (q0.UintPreds r.order).isNone then .error (.invalidOrderBy r.order)
      else .ok { q0 with OrderBy := r.order, Limit := r.limit } := by
  unfold queryOrderLimit
  simp only [hol, hr]
  by_cases hn : (q0.UintPreds r.order).isNone = true
  · simp [hn]
  · simp [hn]

/-- The order/limit stage on a select without an order/limit part. -/
theorem queryOrderLimit_none (ctx : QueryContext) (q0 : CqlSelect)
    (hol : ctx.OrderLimit = none) (hne : q0.OrderBy ≠ "")
    (hp : (q0.UintPreds q0.OrderBy).isNone = false) :
    queryOrderLimit ctx q0 = .ok { q0 with Limit := DEFAULT_LIMIT } := by
  unfold queryOrderLimit
  simp [hol, hne, hp]

/-- C8: for a select whose first interval clause is `c` with a non-empty
property name, whose interval literals all parse and which has no ORDER
BY/LIMIT part, the interval loop and the order/limit stage return with OrderBy
= the property of `c` and Limit = 100, and every select `VisitQuery` returns
has OrderBy = the property of `c` and Limit = 100. -/
theorem C8_default_ordering (ctx : QueryContext) (c : UintPredContext)
    (cs : List UintPredContext) (hcs : ctx.AllUintPred = c :: cs) (hne : c.Property ≠ "")
    (hparse : ∀ c2 ∈ ctx.AllUintPred, ∃ v, ParseUint c2.INT = .ok v)
    (hol : ctx.OrderLimit = none) :
    (∃ q0 q1, queryUintLoop ctx.AllUintPred 0 (newSelect ctx) = .ok q0 ∧
      queryOrderLimit ctx q0 = .ok q1 ∧ q1.OrderBy = c.Property ∧ q1.Limit = 100) ∧
    ∀ q, VisitQuery ctx = .ok q → q.OrderBy = c.Property ∧ q.Limit = 100 := by
  have hall : ∀ c2 ∈ ctx.AllUintPred, ∃ p, VisitUintPred c2 = .ok p := fun c2 hc2 => by
    obtain ⟨v, hv⟩ := hparse c2 hc2
    exact VisitUintPred_of_parse c2 v hv
  obtain ⟨q0, h0, _, _, _, _, hO, hU⟩ := queryUintLoop_spec ctx.AllUintPred 0 (newSelect ctx) hall
  have hO2 : q0.OrderBy = c.Property := by rw [hO, hcs]; simp
  obtain ⟨pred, hf, _⟩ := foldOn_none c.Property ctx.AllUintPred
    ⟨c, by rw [hcs]; exact List.mem_cons_self _ _, rfl⟩
  have hp : (q0.UintPreds q0.OrderBy).isNone = false := by
    rw [hO2, hU c.Property]
    have : (newSelect ctx).UintPreds c.Property = none := rfl
    rw [this, hf]; rfl
  have h1 := queryOrderLimit_none ctx q0 hol (by rw [hO2]; exact hne) hp
  refine ⟨⟨q0, _, h0, h1, hO2, rfl⟩, ?_⟩
  intro q hq
  obtain ⟨q0b, q1b, h0b, h1b, _, hOq, hLq, _⟩ := VisitQuery_ok_preds ctx q hq
  rw [h0] at h0b
  simp only [Except.ok.injEq] at h0b
  subst h0b
  rw [h1] at h1b
  simp only [Except.ok.injEq] at h1b
  subst h1b
  exact ⟨by rw [hOq]; exact hO2, by rw [hLq]; rfl⟩

/-- C8 at `SELECT FROM orders WHERE price>0`: it compiles with OrderBy =
`price` and Limit = 100. -/
theorem C8_default_ordering_witness :
    (∀ c2 ∈ examplePriceOnly.AllUintPred, ∃ v, ParseUint c2.INT = .ok v) ∧
    ∃ q, VisitQuery examplePriceOnly = .ok q ∧ q.OrderBy = "price" ∧ q.Limit = 100 := by
  have hparse : ∀ c2 ∈ examplePriceOnly.AllUintPred, ∃ v, ParseUint c2.INT = .ok v := by
    intro c2 hc2
    simp only [examplePriceOnly, List.mem_singleton] at hc2
    subst hc2
    exact ⟨0, rfl⟩
  obtain ⟨q, hq⟩ : ∃ q, VisitQuery examplePriceOnly = .ok q := ⟨_, rfl⟩
  exact ⟨hparse, q, hq,
    (C8_default_ordering examplePriceOnly ⟨"price", .bt, "0"⟩ [] rfl (by decide) hparse rfl).2
      q hq⟩

/-- The compile of a select, from the result of `VisitQuery`. -/
theorem ParseCql_query (docProts : GoMap Document) (ctx : QueryContext) :
    (∀ q, VisitQuery ctx = .ok q →
      ParseCql none (.query ctx) docProts = (some (.select q), none)) ∧
    (∀ e, VisitQuery ctx = .error e →
      ParseCql none (.query ctx) docProts = (none, some e)) := by
  constructor
  · intro q h
    simp [ParseCql, VisitCql, CqlContext.Create, CqlContext.Destroy, CqlContext.Insert,
      CqlContext.Del, CqlContext.Query, h, Except.map]
  · intro e h
    simp [ParseCql, VisitCql, CqlContext.Create, CqlContext.Destroy, CqlContext.Insert,
      CqlContext.Del, CqlContext.Query, h, Except.map]

/-- C9 (as stated, refuted): the select `WHERE color IN (1) ORDER BY color LIMIT
99999999999999999999` has no interval literal that fails to parse and its ORDER
BY names a property without an interval predicate, yet the compile fails with
the range error of the limit literal, not with the invalid-order-by error. -/
theorem C9_invalid_order_by_counterexample :
    (∀ c ∈ exampleOrderByColorBigLimit.AllUintPred, ∃ v, ParseUint c.INT = .ok v) ∧
    exampleOrderByColorBigLimit.OrderLimit
      = some ⟨some "color", some "99999999999999999999"⟩ ∧
    (∀ c ∈ exampleOrderByColorBigLimit.AllUintPred, c.Property ≠ "color") ∧
    VisitQuery exampleOrderByColorBigLimit
      = .error (.wrap ⟨"Atoi", "99999999999999999999", .range⟩) ∧
    ¬ (∃ p, VisitQuery exampleOrderByColorBigLimit = .error (.invalidOrderBy p)) := by
  have h : VisitQuery exampleOrderByColorBigLimit
      = .error (.wrap ⟨"Atoi", "99999999999999999999", .range⟩) := by rfl
  refine ⟨fun c hc => ?_, rfl, fun c hc => ?_, h, ?_⟩
  · simp [exampleOrderByColorBigLimit] at hc
  · simp [exampleOrderByColorBigLimit] at hc
  · rintro ⟨p, hp⟩
    rw [h] at hp
    exact absurd hp (by simp)

/-- C9 (amended): for a select whose interval literals all parse, whose LIMIT
literal (if there is one) is accepted by `Atoi`, and whose explicit ORDER BY
names a property `p` that no interval clause names, `VisitQuery` fails with the
invalid-order-by error on `p` and the compile returns that error and no
command, whatever set and substring clauses the select has. -/
theorem C9_invalid_order_by (ctx : QueryContext) (ol : OrderLimitContext) (p : String)
    (hparse : ∀ c ∈ ctx.AllUintPred, ∃ v, ParseUint c.INT = .ok v)
    (hol : ctx.OrderLimit = some ol) (hord : ol.Order = some p)
    (hlim : ∀ t, ol.Limit = some t → ∃ n, Atoi t = .ok n)
    (hno : ∀ c ∈ ctx.AllUintPred, c.Property ≠ p) :
    VisitQuery ctx = .error (.invalidOrderBy p) ∧
    ∀ docProts, ParseCql none (.query ctx) docProts = (none, some (.invalidOrderBy p)) := by
  have hall : ∀ c ∈ ctx.AllUintPred, ∃ p, VisitUintPred c = .ok p := fun c hc => by
    obtain ⟨v, hv⟩ := hparse c hc
    exact VisitUintPred_of_parse c v hv
  obtain ⟨q0, h0, _, _, _, _, _, hU⟩ := queryUintLoop_spec ctx.AllUintPred 0 (newSelect ctx) hall
  obtain ⟨r, hr⟩ := VisitOrderLimit_total ol hlim
  obtain ⟨hro, _, _⟩ := VisitOrderLimit_ok_inv ol r hr
  have hrp : r.order = p := by rw [hro, hord]; rfl
  have hnone : (q0.UintPreds r.order).isNone = true := by
    rw [hrp, hU p, foldOn_absent p ctx.AllUintPred _ hno]
    rfl
  have h1 : queryOrderLimit ctx q0 = .error (.invalidOrderBy p) := by
    rw [queryOrderLimit_some ctx ol q0 r hol hr, if_pos hnone, hrp]
  have hv : VisitQuery ctx = .error (.invalidOrderBy p) := by
    unfold VisitQuery
    simp only [h0, h1]
  exact ⟨hv, fun docProts => (ParseCql_query docProts ctx).2 _ hv⟩

/-- C9 (amended) at `SELECT FROM orders WHERE color IN (1) ORDER BY color`,
where `color` carries a set predicate. -/
theorem C9_invalid_order_by_witness :
    (∀ c ∈ exampleOrderByColor.AllUintPred, ∃ v, ParseUint c.INT = .ok v) ∧
    exampleOrderByColor.OrderLimit = some ⟨some "color", none⟩ ∧
    (∀ c ∈ exampleOrderByColor.AllUintPred, c.Property ≠ "color") ∧
    VisitQuery exampleOrderByColor = .error (.invalidOrderBy "color") :=
  ⟨fun c hc => by simp [exampleOrderByColor] at hc, rfl,
    fun c hc => by simp [exampleOrderByColor] at hc,
    (C9_invalid_order_by exampleOrderByColor ⟨some "color", none⟩ "color"
      (fun c hc => by simp [exampleOrderByColor] at hc) rfl rfl
      (fun t ht => by simp at ht)
      (fun c hc => by simp [exampleOrderByColor] at hc)).1⟩

/-- C10: for every select that compiles and has an explicit ORDER BY `p`, the
command has OrderBy = `p`; its Limit is what `Atoi` returns for the LIMIT
literal when there is one, and 100 when there is none. -/
theorem C10_explicit_order_limit (ctx : QueryContext) (ol : OrderLimitContext) (p : String)
    (q : CqlSelect) (hol : ctx.OrderLimit = some ol) (hord : ol.Order = some p)
    (hq : VisitQuery ctx = .ok q) :
    q.OrderBy = p ∧ (∀ t, ol.Limit = some t → Atoi t = .ok q.Limit) ∧
      (ol.Limit = none → q.Limit = 100) := by
  obtain ⟨q0, q1, _, h1, _, hOq, hLq, _⟩ := VisitQuery_ok_preds ctx q hq
  cases hr : VisitOrderLimit ol with
  | error e =>
    unfold queryOrderLimit at h1
    simp [hol, hr] at h1
  | ok r =>
    obtain ⟨hro, hrl, hrn⟩ := VisitOrderLimit_ok_inv ol r hr
    rw [queryOrderLimit_some ctx ol q0 r hol hr] at h1
    by_cases hn : (q0.UintPreds r.order).isNone = true
    · rw [if_pos hn] at h1
      exact absurd h1 (by simp)
    · rw [if_neg hn] at h1
      simp only [Except.ok.injEq] at h1
      subst h1
      simp only at hOq hLq
      refine ⟨by rw [hOq, hro, hord]; rfl, ?_, ?_⟩
      · intro t ht
        rw [hLq]
        exact hrl t ht
      · intro hnl
        rw [hLq]
        exact hrn hnl

/-- C10 at `WHERE price>0 AND qty>1 ORDER BY qty LIMIT 5`: the select compiles,
and OrderBy is `qty`, not the first interval property `price`, and Limit is 5. -/
theorem C10_explicit_order_limit_witness :
    exampleOrderByQty.OrderLimit = some ⟨some "qty", some "5"⟩ ∧
    ∃ q, VisitQuery exampleOrderByQty = .ok q ∧ q.OrderBy = "qty" ∧
      (∀ t, (some "5" : Option String) = some t → Atoi t = .ok q.Limit) ∧
      Atoi "5" = .ok 5 := by
  obtain ⟨q, hq⟩ : ∃ q, VisitQuery exampleOrderByQty = .ok q := ⟨_, rfl⟩
  obtain ⟨h1, h2, _⟩ :=
    C10_explicit_order_limit exampleOrderByQty ⟨some "qty", some "5"⟩ "qty" q rfl rfl hq
  exact ⟨rfl, q, hq, h1, h2, rfl⟩

/-! ### Invariants of the select command -/

/-- A predicate the fold holds for `P` is named `P`. -/
theorem foldOn_name (P : String) (cs : List UintPredContext) :
    ∀ (o : Option UintPred) (pred : UintPred), (∀ p0, o = some p0 → p0.Name = P) →
      foldOn P cs o = some pred → pred.Name = P := by
  induction cs with
  | nil =>
    intro o pred ho h
    exact ho pred h
  | cons c cs ih =>
    intro o pred ho h
    by_cases hc : c.Property = P
    · cases o with
      | none =>
        simp only [foldOn, hc, if_true] at h
        exact ih _ pred (fun p0 hp0 => by rw [← Option.some.inj hp0]) h
      | some p2 =>
        simp only [foldOn, hc, if_true] at h
        exact ih _ pred (fun p0 hp0 => by rw [← Option.some.inj hp0]) h
    · simp only [foldOn, hc, if_false] at h
      exact ih o pred ho h

/-- A select that leaves the order/limit stage with an order names there a
property that holds an interval predicate. -/
theorem queryOrderLimit_invariant (ctx : QueryContext) (q q2 : CqlSelect)
    (h : queryOrderLimit ctx q = .ok q2) (hne : q2.OrderBy ≠ "") :
    (q2.UintPreds q2.OrderBy).isNone = false := by
  simp only [queryOrderLimit] at h
  split at h
  · exact absurd h (by simp)
  · rename_i q3 _
    by_cases hc : q3.OrderBy ≠ "" ∧ (q3.UintPreds q3.OrderBy).isNone = true
    · rw [if_pos hc] at h
      exact absurd h (by simp)
    · rw [if_neg hc] at h
      simp only [Except.ok.injEq] at h
      subst h
      cases hn : (q3.UintPreds q3.OrderBy).isNone with
      | false => rfl
      | true => exact absurd ⟨hne, hn⟩ hc

/-- C11: whenever `VisitQuery` succeeds and the OrderBy of the command is not
empty, `UintPreds` holds under the key OrderBy an interval predicate, and that
predicate is named OrderBy. The statement does not depend on whether the
select has an ORDER BY part, so it covers the default and the explicit path. -/
theorem C11_order_by_invariant (ctx : QueryContext) (q : CqlSelect)
    (hq : VisitQuery ctx = .ok q) (hne : q.OrderBy ≠ "") :
    ∃ pred, q.UintPreds q.OrderBy = some pred ∧ pred.Name = q.OrderBy := by
  obtain ⟨q0, q1, h0, h1, hU, hO, _, _⟩ := VisitQuery_ok_preds ctx q hq
  obtain ⟨hU1, _, _, _⟩ := queryOrderLimit_preds ctx q0 q1 h1
  have hinv := queryOrderLimit_invariant ctx q0 q1 h1 (by rw [← hO]; exact hne)
  obtain ⟨q0b, h0b, _, _, _, _, _, hfold⟩ :=
    queryUintLoop_spec ctx.AllUintPred 0 (newSelect ctx) (queryUintLoop_ok_all _ 0 _ q0 h0)
  rw [h0] at h0b
  simp only [Except.ok.injEq] at h0b
  subst h0b
  rw [hU1, ← hO] at hinv
  rw [hU]
  cases hp : q0.UintPreds q.OrderBy with
  | none => rw [hp] at hinv; exact absurd hinv (by simp)
  | some pred =>
    refine ⟨pred, rfl, ?_⟩
    rw [hfold q.OrderBy] at hp
    exact foldOn_name q.OrderBy ctx.AllUintPred _ pred (fun p0 hp0 => by
      have : (newSelect ctx).UintPreds q.OrderBy = none := rfl
      rw [this] at hp0
      exact absurd hp0 (by simp)) hp

/-- C11 on the default path (`WHERE price>0`, OrderBy `price`) and on the
explicit path (`WHERE price>0 AND qty>1 ORDER BY qty LIMIT 5`, OrderBy `qty`). -/
theorem C11_order_by_invariant_witness :
    (∃ q, VisitQuery examplePriceOnly = .ok q ∧ q.OrderBy = "price" ∧
      ∃ pred, q.UintPreds q.OrderBy = some pred ∧ pred.Name = q.OrderBy) ∧
    (∃ q, VisitQuery exampleOrderByQty = .ok q ∧ q.OrderBy = "qty" ∧
      ∃ pred, q.UintPreds q.OrderBy = some pred ∧ pred.Name = q.OrderBy) := by
  constructor
  · obtain ⟨q, hq, ho⟩ : ∃ q, VisitQuery examplePriceOnly = .ok q ∧ q.OrderBy = "price" :=
      ⟨_, rfl, rfl⟩
    exact ⟨q, hq, ho, C11_order_by_invariant examplePriceOnly q hq (by rw [ho]; decide)⟩
  · obtain ⟨q, hq, ho⟩ : ∃ q, VisitQuery exampleOrderByQty = .ok q ∧ q.OrderBy = "qty" :=
      ⟨_, rfl, rfl⟩
    exact ⟨q, hq, ho, C11_order_by_invariant exampleOrderByQty q hq (by rw [ho]; decide)⟩

/-- C12: every select without an interval clause that compiles has OrderBy
empty and Limit 0, whatever its set and substring clauses; such a select has no
ORDER BY/LIMIT part (one with that part does not compile), and its command
holds no interval predicate. -/
theorem C12_no_interval_unordered (ctx : QueryContext) (q : CqlSelect)
    (hno : ctx.AllUintPred = []) (hq : VisitQuery ctx = .ok q) :
    q.OrderBy = "" ∧ q.Limit = 0 ∧ ctx.OrderLimit = none ∧ ∀ P, q.UintPreds P = none := by
  obtain ⟨q0, q1, h0, h1, hU, hO, hL, _⟩ := VisitQuery_ok_preds ctx q hq
  rw [hno] at h0
  simp only [queryUintLoop, Except.ok.injEq] at h0
  subst h0
  have hU0 : ∀ P, q.UintPreds P = none := fun P => by rw [hU]; rfl
  cases hol : ctx.OrderLimit with
  | some ol =>
    cases hr : VisitOrderLimit ol with
    | error e =>
      unfold queryOrderLimit at h1
      simp [hol, hr] at h1
    | ok r =>
      rw [queryOrderLimit_some ctx ol _ r hol hr] at h1
      have hn : ((newSelect ctx).UintPreds r.order).isNone = true := rfl
      rw [if_pos hn] at h1
      exact absurd h1 (by simp)
  | none =>
    have h1b : queryOrderLimit ctx (newSelect ctx) = .ok (newSelect ctx) := by
      unfold queryOrderLimit
      simp [hol, newSelect]
    rw [h1b] at h1
    simp only [Except.ok.injEq] at h1
    subst h1
    exact ⟨hO, hL, rfl, hU0⟩

/-- C12 at `WHERE color IN (1) AND name CONTAINS "x"`: it compiles, unordered
and unbounded. -/
theorem C12_no_interval_unordered_witness :
    exampleNoInterval.AllUintPred = [] ∧
    ∃ q, VisitQuery exampleNoInterval = .ok q ∧ q.OrderBy = "" ∧ q.Limit = 0 := by
  obtain ⟨q, hq⟩ : ∃ q, VisitQuery exampleNoInterval = .ok q := ⟨_, rfl⟩
  obtain ⟨h1, h2, _, _⟩ := C12_no_interval_unordered exampleNoInterval q rfl hq
  exact ⟨rfl, q, hq, h1, h2⟩

/-! ### Set and substring clauses -/

theorem VisitEnumPred_ok (c : EnumPredContext) (vals : List Int)
    (h : VisitIntList c.IntList = .ok vals) :
    VisitEnumPred c = .ok ⟨c.Property, vals⟩ := by
  simp only [VisitEnumPred, h]

/-- The set loop fails with the duplicate error when a property is named twice
or is already held; the property of the error is one a clause names. -/
theorem queryEnumLoop_dup (cs : List EnumPredContext) :
    ∀ q : CqlSelect, (∀ c ∈ cs, ∃ vals, VisitIntList c.IntList = .ok vals) →
      (¬ (cs.map (fun c => c.Property)).Nodup ∨ ∃ c ∈ cs, (q.EnumPreds c.Property).isSome) →
      ∃ p, queryEnumLoop cs q = .error (.multipleEnumPred p) ∧
        p ∈ cs.map (fun c => c.Property) ∧
        ((q.EnumPreds p).isSome ∨ 1 < (cs.map (fun c => c.Property)).count p) := by
  induction cs with
  | nil =>
    intro q _ h
    rcases h with h | ⟨c, hc, _⟩
    · exact absurd List.nodup_nil h
    · exact absurd hc (List.not_mem_nil c)
  | cons c cs ih =>
    intro q hparse h
    obtain ⟨vals, hvals⟩ := hparse c (List.mem_cons_self _ _)
    have hv := VisitEnumPred_ok c vals hvals
    by_cases hheld : (q.EnumPreds c.Property).isSome = true
    · exact ⟨c.Property, by simp only [queryEnumLoop, hv, hheld, if_true],
        by simp, Or.inl hheld⟩
    · have hrest : ¬ (cs.map (fun c => c.Property)).Nodup ∨
          ∃ c2 ∈ cs, (({ q with EnumPreds := q.EnumPreds.insert c.Property ⟨c.Property, vals⟩ }
            : CqlSelect).EnumPreds c2.Property).isSome := by
        rcases h with h | ⟨c2, hc2, hs⟩
        · by_cases hmem : c.Property ∈ cs.map (fun c => c.Property)
          · obtain ⟨c2, hc2, hP⟩ := List.mem_map.mp hmem
            exact Or.inr ⟨c2, hc2, by simp [GoMap.insert, hP]⟩
          · left
            intro hnd
            exact h (by simpa [List.nodup_cons, hmem] using hnd)
        · rcases List.mem_cons.mp hc2 with rfl | hmem
          · exact absurd hs hheld
          · right
            refine ⟨c2, hmem, ?_⟩
            by_cases hP : c2.Property = c.Property
            · simp [GoMap.insert, hP]
            · simpa [GoMap.insert, hP] using hs
      obtain ⟨p, hp, hpmem, hwhy⟩ :=
        ih _ (fun c2 hc2 => hparse c2 (List.mem_cons_of_mem _ hc2)) hrest
      refine ⟨p, by simp only [queryEnumLoop, hv, hheld]; exact hp,
        by simp only [List.map_cons]; exact List.mem_cons_of_mem _ hpmem, ?_⟩
      have hpos := List.count_pos_iff.mpr hpmem
      rcases hwhy with hw | hw
      · by_cases hP : p = c.Property
        · subst hP
          right
          simp only [List.map_cons, List.count_cons_self]
          omega
        · left
          simpa [GoMap.insert, hP] using hw
      · right
        simp only [List.map_cons, List.count_cons]
        omega

/-- The set loop records every clause under its property when no property is
named twice and none is held yet. -/
theorem queryEnumLoop_nodup (cs : List EnumPredContext) :
    ∀ q : CqlSelect, (∀ c ∈ cs, ∃ vals, VisitIntList c.IntList = .ok vals) →
      (cs.map (fun c => c.Property)).Nodup → (∀ c ∈ cs, q.EnumPreds c.Property = none) →
      ∃ q2, queryEnumLoop cs q = .ok q2 ∧
        (∀ c ∈ cs, ∃ vals, VisitIntList c.IntList = .ok vals ∧
          q2.EnumPreds c.Property = some ⟨c.Property, vals⟩) ∧
        (∀ P, (∀ c ∈ cs, c.Property ≠ P) → q2.EnumPreds P = q.EnumPreds P) := by
  induction cs with
  | nil =>
    intro q _ _ _
    exact ⟨q, rfl, fun c hc => absurd hc (List.not_mem_nil c), fun P _ => rfl⟩
  | cons c cs ih =>
    intro q hparse hnd hfree
    obtain ⟨vals, hvals⟩ := hparse c (List.mem_cons_self _ _)
    have hv := VisitEnumPred_ok c vals hvals
    have hc0 : q.EnumPreds c.Property = none := hfree c (List.mem_cons_self _ _)
    simp only [List.map_cons, List.nodup_cons, List.mem_map, not_exists, not_and] at hnd
    obtain ⟨hnotin, hnd2⟩ := hnd
    obtain ⟨q2, h2, hrec, hkeep⟩ :=
      ih { q with EnumPreds := q.EnumPreds.insert c.Property ⟨c.Property, vals⟩ }
        (fun c2 hc2 => hparse c2 (List.mem_cons_of_mem _ hc2)) hnd2
        (fun c2 hc2 => by
          have hP : c2.Property ≠ c.Property := hnotin c2 hc2
          simp only [GoMap.insert, hP, if_false]
          exact hfree c2 (List.mem_cons_of_mem _ hc2))
    refine ⟨q2, by simp only [queryEnumLoop, hv, hc0, Option.isSome_none]; exact h2, ?_, ?_⟩
    · intro c2 hc2
      rcases List.mem_cons.mp hc2 with rfl | hmem
      · refine ⟨vals, hvals, ?_⟩
        rw [hkeep c2.Property (fun c3 hc3 => hnotin c3 hc3)]
        simp [GoMap.insert]
      · exact hrec c2 hmem
    · intro P hP
      rw [hkeep P (fun c2 hc2 => hP c2 (List.mem_cons_of_mem _ hc2))]
      have hP0 : ¬ P = c.Property := fun h => hP c (List.mem_cons_self _ _) h.symm
      simp [GoMap.insert, hP0]

/-- The substring loop fails with the duplicate error when a property is named
twice or is already held; the property of the error is one a clause names. -/
theorem queryStrLoop_dup (cs : List StrPredContext) :
    ∀ q : CqlSelect,
      (¬ (cs.map (fun c => c.Property)).Nodup ∨ ∃ c ∈ cs, (q.StrPreds c.Property).isSome) →
      ∃ p, queryStrLoop cs q = .error (.multipleStrPred p) ∧
        p ∈ cs.map (fun c => c.Property) ∧
        ((q.StrPreds p).isSome ∨ 1 < (cs.map (fun c => c.Property)).count p) := by
  induction cs with
  | nil =>
    intro q h
    rcases h with h | ⟨c, hc, _⟩
    · exact absurd List.nodup_nil h
    · exact absurd hc (List.not_mem_nil c)
  | cons c cs ih =>
    intro q h
    by_cases hheld : (q.StrPreds c.Property).isSome = true
    · exact ⟨c.Property, by simp only [queryStrLoop, VisitStrPred, hheld, if_true],
        by simp, Or.inl hheld⟩
    · have hrest : ¬ (cs.map (fun c => c.Property)).Nodup ∨
          ∃ c2 ∈ cs, ((q.StrPreds.insert c.Property
              ⟨c.Property, stripQuote c.STRING⟩) c2.Property).isSome := by
        rcases h with h | ⟨c2, hc2, hs⟩
        · by_cases hmem : c.Property ∈ cs.map (fun c => c.Property)
          · obtain ⟨c2, hc2, hP⟩ := List.mem_map.mp hmem
            exact Or.inr ⟨c2, hc2, by simp [GoMap.insert, hP]⟩
          · left
            intro hnd
            exact h (by simpa [List.nodup_cons, hmem] using hnd)
        · rcases List.mem_cons.mp hc2 with rfl | hmem
          · exact absurd hs hheld
          · right
            refine ⟨c2, hmem, ?_⟩
            by_cases hP : c2.Property = c.Property
            · simp [GoMap.insert, hP]
            · simpa [GoMap.insert, hP] using hs
      obtain ⟨p, hp, hpmem, hwhy⟩ :=
        ih { q with
             StrPreds := q.StrPreds.insert c.Property ⟨c.Property, stripQuote c.STRING⟩ } hrest
      refine ⟨p, by simp only [queryStrLoop, VisitStrPred, hheld]; exact hp,
        by simp only [List.map_cons]; exact List.mem_cons_of_mem _ hpmem, ?_⟩
      have hpos := List.count_pos_iff.mpr hpmem
      rcases hwhy with hw | hw
      · by_cases hP : p = c.Property
        · subst hP
          right
          simp only [List.map_cons, List.count_cons_self]
          omega
        · left
          simpa [GoMap.insert, hP] using hw
      · right
        simp only [List.map_cons, List.count_cons]
        omega

/-- The substring loop records every clause under its property, with the
literal stripped of its quotes, when no property is named twice and none is
held yet. -/
theorem queryStrLoop_nodup (cs : List StrPredContext) :
    ∀ q : CqlSelect,
      (cs.map (fun c => c.Property)).Nodup → (∀ c ∈ cs, q.StrPreds c.Property = none) →
      ∃ q2, queryStrLoop cs q = .ok q2 ∧
        (∀ c ∈ cs, q2.StrPreds c.Property = some ⟨c.Property, stripQuote c.STRING⟩) ∧
        (∀ P, (∀ c ∈ cs, c.Property ≠ P) → q2.StrPreds P = q.StrPreds P) := by
  induction cs with
  | nil =>
    intro q _ _
    exact ⟨q, rfl, fun c hc => absurd hc (List.not_mem_nil c), fun P _ => rfl⟩
  | cons c cs ih =>
    intro q hnd hfree
    have hc0 : q.StrPreds c.Property = none := hfree c (List.mem_cons_self _ _)
    simp only [List.map_cons, List.nodup_cons, List.mem_map, not_exists, not_and] at hnd
    obtain ⟨hnotin, hnd2⟩ := hnd
    obtain ⟨q2, h2, hrec, hkeep⟩ :=
      ih { q with StrPreds := q.StrPreds.insert c.Property ⟨c.Property, stripQuote c.STRING⟩ }
        hnd2
        (fun c2 hc2 => by
          have hP : c2.Property ≠ c.Property := hnotin c2 hc2
          simp only [GoMap.insert, hP, if_false]
          exact hfree c2 (List.mem_cons_of_mem _ hc2))
    refine ⟨q2, by simp only [queryStrLoop, VisitStrPred, hc0, Option.isSome_none]; exact h2,
      ?_, ?_⟩
    · intro c2 hc2
      rcases List.mem_cons.mp hc2 with rfl | hmem
      · rw [hkeep c2.Property (fun c3 hc3 => hnotin c3 hc3)]
        simp [GoMap.insert]
      · exact hrec c2 hmem
    · intro P hP
      rw [hkeep P (fun c2 hc2 => hP c2 (List.mem_cons_of_mem _ hc2))]
      have hP0 : ¬ P = c.Property := fun h => hP c (List.mem_cons_self _ _) h.symm
      simp [GoMap.insert, hP0]

/-- The select that enters the set loop holds no set and no substring
predicate. -/
theorem queryOrderLimit_fresh (ctx : QueryContext) (q0 q1 : CqlSelect)
    (h0 : queryUintLoop ctx.AllUintPred 0 (newSelect ctx) = .ok q0)
    (h1 : queryOrderLimit ctx q0 = .ok q1) :
    (∀ P, q1.EnumPreds P = none) ∧ (∀ P, q1.StrPreds P = none) := by
  obtain ⟨q0b, h0b, _, hE, hS, _⟩ :=
    queryUintLoop_spec ctx.AllUintPred 0 (newSelect ctx) (queryUintLoop_ok_all _ 0 _ q0 h0)
  rw [h0] at h0b
  simp only [Except.ok.injEq] at h0b
  subst h0b
  obtain ⟨_, _, hE1, hS1⟩ := queryOrderLimit_preds ctx q0 q1 h1
  exact ⟨fun P => by rw [hE1, hE]; rfl, fun P => by rw [hS1, hS]; rfl⟩

/-- C13: for a select whose interval loop and order/limit stage pass and whose
integer lists all parse: if a property is named by two set (IN) clauses the
compile fails with the duplicate-set-predicate error on a property named twice
and returns no command; if no set property is repeated but a property is named
by two substring clauses it fails with the duplicate-substring-predicate error
on a property named twice and returns no command; and if no property is
repeated within a kind it compiles and every set clause is recorded under its
property with its parsed integer list, every substring clause under its
property with its literal stripped of the quotes. -/
theorem C13_duplicate_predicate (ctx : QueryContext) (q0 q1 : CqlSelect)
    (h0 : queryUintLoop ctx.AllUintPred 0 (newSelect ctx) = .ok q0)
    (h1 : queryOrderLimit ctx q0 = .ok q1)
    (hlists : ∀ c ∈ ctx.AllEnumPred, ∃ vals, VisitIntList c.IntList = .ok vals) :
    (¬ (ctx.AllEnumPred.map (fun c => c.Property)).Nodup →
      ∃ p, 1 < (ctx.AllEnumPred.map (fun c => c.Property)).count p ∧
        VisitQuery ctx = .error (.multipleEnumPred p) ∧
        ∀ docProts, ParseCql none (.query ctx) docProts
          = (none, some (.multipleEnumPred p))) ∧
    ((ctx.AllEnumPred.map (fun c => c.Property)).Nodup →
      ¬ (ctx.AllStrPred.map (fun c => c.Property)).Nodup →
      ∃ p, 1 < (ctx.AllStrPred.map (fun c => c.Property)).count p ∧
        VisitQuery ctx = .error (.multipleStrPred p) ∧
        ∀ docProts, ParseCql none (.query ctx) docProts
          = (none, some (.multipleStrPred p))) ∧
    ((ctx.AllEnumPred.map (fun c => c.Property)).Nodup →
      (ctx.AllStrPred.map (fun c => c.Property)).Nodup →
      ∃ q, VisitQuery ctx = .ok q ∧
        (∀ c ∈ ctx.AllEnumPred, ∃ vals, VisitIntList c.IntList = .ok vals ∧
          q.EnumPreds c.Property = some ⟨c.Property, vals⟩) ∧
        (∀ c ∈ ctx.AllStrPred,
          q.StrPreds c.Property = some ⟨c.Property, stripQuote c.STRING⟩)) := by
  obtain ⟨hE, hS⟩ := queryOrderLimit_fresh ctx q0 q1 h0 h1
  have hnoheld : ∀ p, ¬ (q1.EnumPreds p).isSome = true := fun p => by rw [hE p]; simp
  refine ⟨?_, ?_, ?_⟩
  · intro hdup
    obtain ⟨p, hp, _, hwhy⟩ := queryEnumLoop_dup ctx.AllEnumPred q1 hlists (Or.inl hdup)
    have hcount : 1 < (ctx.AllEnumPred.map (fun c => c.Property)).count p := by
      rcases hwhy with hw | hw
      · exact absurd hw (hnoheld p)
      · exact hw
    have hv : VisitQuery ctx = .error (.multipleEnumPred p) := by
      unfold VisitQuery
      simp only [h0, h1, hp]
    exact ⟨p, hcount, hv, fun docProts => (ParseCql_query docProts ctx).2 _ hv⟩
  · intro hnd hdup
    obtain ⟨q2, h2, _, hkeep⟩ :=
      queryEnumLoop_nodup ctx.AllEnumPred q1 hlists hnd (fun c _ => hE c.Property)
    obtain ⟨_, _, hS2, _, _⟩ := queryEnumLoop_fields _ q1 q2 h2
    obtain ⟨p, hp, _, hwhy⟩ := queryStrLoop_dup ctx.AllStrPred q2 (Or.inl hdup)
    have hcount : 1 < (ctx.AllStrPred.map (fun c => c.Property)).count p := by
      rcases hwhy with hw | hw
      · rw [hS2, hS p] at hw
        exact absurd hw (by simp)
      · exact hw
    have hv : VisitQuery ctx = .error (.multipleStrPred p) := by
      unfold VisitQuery
      simp only [h0, h1, h2, hp]
    exact ⟨p, hcount, hv, fun docProts => (ParseCql_query docProts ctx).2 _ hv⟩
  · intro hnd hnd2
    obtain ⟨q2, h2, hrecE, _⟩ :=
      queryEnumLoop_nodup ctx.AllEnumPred q1 hlists hnd (fun c _ => hE c.Property)
    obtain ⟨_, _, hS2, _, _⟩ := queryEnumLoop_fields _ q1 q2 h2
    obtain ⟨q3, h3, hrecS, _⟩ :=
      queryStrLoop_nodup ctx.AllStrPred q2 hnd2 (fun c _ => by rw [hS2]; exact hS c.Property)
    obtain ⟨_, _, hE3, _, _⟩ := queryStrLoop_fields _ q2 q3 h3
    have hv : VisitQuery ctx = .ok q3 := by
      unfold VisitQuery
      simp only [h0, h1, h2, h3]
    refine ⟨q3, hv, ?_, hrecS⟩
    intro c hc
    obtain ⟨vals, hvals, hrec⟩ := hrecE c hc
    exact ⟨vals, hvals, by rw [hE3]; exact hrec⟩

/-- C13 at `WHERE color IN (1,2) AND color IN (3)`: the compile fails with the
duplicate-set-predicate error on `color` and returns no command. -/
theorem C13_duplicate_predicate_witness :
    queryUintLoop exampleDupColor.AllUintPred 0 (newSelect exampleDupColor)
      = .ok (newSelect exampleDupColor) ∧
    queryOrderLimit exampleDupColor (newSelect exampleDupColor)
      = .ok (newSelect exampleDupColor) ∧
    (∀ c ∈ exampleDupColor.AllEnumPred, ∃ vals, VisitIntList c.IntList = .ok vals) ∧
    ¬ (exampleDupColor.AllEnumPred.map (fun c => c.Property)).Nodup ∧
    VisitQuery exampleDupColor = .error (.multipleEnumPred "color") ∧
    ∃ p, VisitQuery exampleDupColor = .error (.multipleEnumPred p) ∧
      ∀ docProts, ParseCql none (.query exampleDupColor) docProts
        = (none, some (.multipleEnumPred p)) := by
  have hlists : ∀ c ∈ exampleDupColor.AllEnumPred, ∃ vals, VisitIntList c.IntList = .ok vals := by
    intro c hc
    simp only [exampleDupColor, List.mem_cons, List.mem_singleton, List.not_mem_nil,
      or_false] at hc
    rcases hc with rfl | rfl
    · exact ⟨[1, 2], rfl⟩
    · exact ⟨[3], rfl⟩
  have hdup : ¬ (exampleDupColor.AllEnumPred.map (fun c => c.Property)).Nodup := by decide
  obtain ⟨p, _, hp, hcompile⟩ :=
    (C13_duplicate_predicate exampleDupColor (newSelect exampleDupColor)
      (newSelect exampleDupColor) rfl rfl hlists).1 hdup
  exact ⟨rfl, rfl, hlists, hdup, rfl, p, hp, hcompile⟩

/-! ### Quote stripping -/

/-- The two conditional cuts of `stripQuote`, on the list of characters. -/
theorem stripQuote_data (s : String) :
    (stripQuote s).data =
      (if (if s.data.length > 0 ∧ s.data.head? = some (Char.ofNat 34) then s.data.drop 1
            else s.data).length > 0 ∧
          (if s.data.length > 0 ∧ s.data.head? = some (Char.ofNat 34) then s.data.drop 1
            else s.data).getLast? = some (Char.ofNat 34) then
        (if s.data.length > 0 ∧ s.data.head? = some (Char.ofNat 34) then s.data.drop 1
          else s.data).dropLast
      else
        (if s.data.length > 0 ∧ s.data.head? = some (Char.ofNat 34) then s.data.drop 1
          else s.data)) := by
  rfl

/-- C14: for every string `w`, `stripQuote` applied to the literal made of a
double quote, `w` and a double quote returns `w`, so `VisitStrPred` records
ContWord = `w` for that literal; and for every string `s`, `stripQuote s` is
`s` without at most one leading and at most one trailing double quote: `s` is
`a`, then `stripQuote s`, then `b`, where each of `a` and `b` is empty or one
double quote. -/
theorem C14_stripQuote_undoes_quoting :
    (∀ w : String, stripQuote (quoted w) = w) ∧
    (∀ (P w : String), VisitStrPred ⟨P, quoted w⟩ = .ok ⟨P, w⟩) ∧
    (∀ s : String, ∃ a b : List Char,
      (a = [] ∨ a = [Char.ofNat 34]) ∧ (b = [] ∨ b = [Char.ofNat 34]) ∧
        s.data = a ++ (stripQuote s).data ++ b) := by
  have h1 : ∀ w : String, stripQuote (quoted w) = w := by
    intro w
    apply String.ext
    rw [stripQuote_data]
    simp [quoted]
  refine ⟨h1, fun P w => by simp only [VisitStrPred, h1], ?_⟩
  intro s
  rw [stripQuote_data]
  generalize s.data = l
  by_cases hhead : l.length > 0 ∧ l.head? = some (Char.ofNat 34)
  · rw [if_pos hhead]
    obtain ⟨_, hh⟩ := hhead
    have hl : l = Char.ofNat 34 :: l.drop 1 := by
      cases l with
      | nil => simp at hh
      | cons c t =>
        simp only [List.head?_cons, Option.some.injEq] at hh
        simp [hh]
    by_cases hlast : (l.drop 1).length > 0 ∧ (l.drop 1).getLast? = some (Char.ofNat 34)
    · rw [if_pos hlast]
      refine ⟨[Char.ofNat 34], [Char.ofNat 34], Or.inr rfl, Or.inr rfl, ?_⟩
      have := List.dropLast_append_getLast? (Char.ofNat 34) hlast.2
      rw [List.append_assoc, this]
      exact hl
    · rw [if_neg hlast]
      exact ⟨[Char.ofNat 34], [], Or.inr rfl, Or.inl rfl, by simpa using hl⟩
  · rw [if_neg hhead]
    by_cases hlast : l.length > 0 ∧ l.getLast? = some (Char.ofNat 34)
    · rw [if_pos hlast]
      refine ⟨[], [Char.ofNat 34], Or.inl rfl, Or.inr rfl, ?_⟩
      have := List.dropLast_append_getLast? (Char.ofNat 34) hlast.2
      simp [this]
    · rw [if_neg hlast]
      exact ⟨[], [], Or.inl rfl, Or.inl rfl, by simp⟩

/-! ### Schema definition -/

theorem VisitUintPropDef_ok (d : UintPropDefContext) :
    VisitUintPropDef d = .ok ⟨d.Property, widthOf d.UintType, 0⟩ := by
  obtain ⟨P, t⟩ := d
  cases t <;> rfl

theorem createUintLoop_ok (defs : List UintPropDefContext) :
    ∀ q : CqlCreate, createUintLoop defs q = .ok
      { q with UintProps :=
          q.UintProps ++ defs.map (fun d => ⟨d.Property, widthOf d.UintType, 0⟩) } := by
  induction defs with
  | nil => intro q; simp [createUintLoop]
  | cons d defs ih =>
    intro q
    simp only [createUintLoop, VisitUintPropDef_ok, ih, List.map_cons, List.append_assoc,
      List.singleton_append]

theorem createEnumLoop_ok (defs : List EnumPropDefContext) :
    ∀ q : CqlCreate, createEnumLoop defs q = .ok
      { q with EnumProps := q.EnumProps ++ defs.map (fun d => ⟨d.Property, 0⟩) } := by
  induction defs with
  | nil => intro q; simp [createEnumLoop]
  | cons d defs ih =>
    intro q
    simp only [createEnumLoop, VisitEnumPropDef, ih, List.map_cons, List.append_assoc,
      List.singleton_append]

theorem createStrLoop_ok (defs : List StrPropDefContext) :
    ∀ q : CqlCreate, createStrLoop defs q = .ok
      { q with StrProps := q.StrProps ++ defs.map (fun d => ⟨d.Property, ""⟩) } := by
  induction defs with
  | nil => intro q; simp [createStrLoop]
  | cons d defs ih =>
    intro q
    simp only [createStrLoop, VisitStrPropDef, ih, List.map_cons, List.append_assoc,
      List.singleton_append]

/-- The command of a schema definition is the declared schema: `VisitCreate`
never fails. -/
theorem VisitCreate_ok (ctx : CreateContext) : VisitCreate ctx = .ok (declaredSchema ctx) := by
  simp only [VisitCreate, createUintLoop_ok, createEnumLoop_ok, createStrLoop_ok,
    List.nil_append, declaredSchema]

/-- C15: for every schema definition, `VisitCreate` returns (and the compile
yields) the command with Index = the collection name, UintProps = the declared
unsigned-integer definitions in textual order, each with its name and ValLen
1, 2, 4, 8 for `UINT8`, `UINT16`, `UINT32`, `UINT64`, EnumProps and StrProps =
the declared enumerated and string definitions in textual order, and every Val
(and DocID) the zero value. Once the registry holds that command's prototype,
a document of the collection that binds takes literal `i` for unsigned-integer
definition `i`, literal `N1 + j` for enumerated definition `j` and literal
`N1 + N2 + k` for string definition `k`: unsigned-integers, then enums, then
strings. -/
theorem C15_define_schema_order (ctx : CreateContext) :
    VisitCreate ctx = .ok
      { DocID := 0,
        UintProps := ctx.AllUintPropDef.map (fun d => ⟨d.Property, widthOf d.UintType, 0⟩),
        EnumProps := ctx.AllEnumPropDef.map (fun d => ⟨d.Property, 0⟩),
        StrProps := ctx.AllStrPropDef.map (fun d => ⟨d.Property, ""⟩),
        Index := ctx.IndexName } ∧
    (widthOf .u8 = 1 ∧ widthOf .u16 = 2 ∧ widthOf .u32 = 4 ∧ widthOf .u64 = 8) ∧
    (∀ docProts, ParseCql none (.create ctx) docProts
      = (some (.create (declaredSchema ctx)), none)) ∧
    (∀ (docProts : GoMap Document) (dctx : DocumentContext) (doc : DocumentWithIdx),
      dctx.IndexName = ctx.IndexName →
      VisitDocument (registerSchema docProts (declaredSchema ctx)) dctx = .ok doc →
      (∀ (i : Nat) (d : UintPropDefContext), ctx.AllUintPropDef[i]? = some d →
        ∃ t n, dctx.AllValue[i]? = some t ∧ ParseUint t = .ok n ∧
          doc.UintProps[i]? = some ⟨d.Property, widthOf d.UintType, n⟩) ∧
      (∀ (j : Nat) (d : EnumPropDefContext), ctx.AllEnumPropDef[j]? = some d →
        ∃ t n, dctx.AllValue[ctx.AllUintPropDef.length + j]? = some t ∧ Atoi t = .ok n ∧
          doc.EnumProps[j]? = some ⟨d.Property, n⟩) ∧
      (∀ (k : Nat) (d : StrPropDefContext), ctx.AllStrPropDef[k]? = some d →
        ∃ t, dctx.AllValue[ctx.AllUintPropDef.length + ctx.AllEnumPropDef.length + k]?
            = some t ∧
          doc.StrProps[k]? = some ⟨d.Property, t⟩)) := by
  have hv := VisitCreate_ok ctx
  refine ⟨hv, ⟨rfl, rfl, rfl, rfl⟩, ?_, ?_⟩
  · intro docProts
    simp [ParseCql, VisitCql, CqlContext.Create, hv, Except.map]
  · intro docProts dctx doc hidx hdoc
    obtain ⟨prot, hprot, _, _, _, hu, he, hs⟩ := VisitDocument_ok_stages _ dctx doc hdoc
    have hreg : registerSchema docProts (declaredSchema ctx) dctx.IndexName
        = some (declaredSchema ctx).toDocument := by
      simp [registerSchema, GoMap.insert, hidx, declaredSchema]
    rw [hreg, Option.some.injEq] at hprot
    subst hprot
    obtain ⟨_, hup⟩ := docUintLoop_ok _ _ 0 _ hu
    obtain ⟨_, hep⟩ := docEnumLoop_ok _ _ _ 0 _ he
    obtain ⟨_, hsp⟩ := docStrLoop_ok _ _ _ 0 _ hs
    refine ⟨?_, ?_, ?_⟩
    · intro i d hd
      obtain ⟨t, n, h1, h2, h3⟩ := hup i ⟨d.Property, widthOf d.UintType, 0⟩
        (by simp [declaredSchema, List.getElem?_map, hd])
      exact ⟨t, n, by simpa using h1, h2, h3⟩
    · intro j d hd
      obtain ⟨t, n, h1, h2, h3⟩ := hep j ⟨d.Property, 0⟩
        (by simp [declaredSchema, List.getElem?_map, hd])
      exact ⟨t, n, by simpa [declaredSchema] using h1, h2, h3⟩
    · intro k d hd
      obtain ⟨t, h1, h3⟩ := hsp k ⟨d.Property, ""⟩
        (by simp [declaredSchema, List.getElem?_map, hd])
      exact ⟨t, by simpa [declaredSchema] using h1, h3⟩

/-- C16 (as stated, refuted): the schema definition `orders(price UINT32, price
UINT64)` compiles, and its define-schema command holds the property name
`price` twice. -/
theorem C16_unique_names_counterexample :
    ParseCql none (.create exampleDupSchema) GoMap.empty
      = (some (.create { DocID := 0, UintProps := [⟨"price", 4, 0⟩, ⟨"price", 8, 0⟩],
                         EnumProps := [], StrProps := [], Index := "orders" }), none) ∧
    ∃ q, VisitCreate exampleDupSchema = .ok q ∧ schemaNames q.toDocument = ["price", "price"] ∧
      ¬ (schemaNames q.toDocument).Nodup :=
  ⟨rfl, _, rfl, rfl, by decide⟩

/-- C16 (amended): the compiler copies the declared property names into the
define-schema command without a uniqueness check: the names of the command
(unsigned-integer, then enumerated, then string) are the declared names in
order, so no name occurs twice in the command if and only if none is declared
twice. -/
theorem C16_names_as_declared (ctx : CreateContext) :
    ∃ q, VisitCreate ctx = .ok q ∧ schemaNames q.toDocument = declaredNames ctx ∧
      ((schemaNames q.toDocument).Nodup ↔ (declaredNames ctx).Nodup) := by
  have hn : schemaNames (declaredSchema ctx).toDocument = declaredNames ctx := by
    simp [schemaNames, declaredNames, declaredSchema, List.map_map, Function.comp_def]
  exact ⟨declaredSchema ctx, VisitCreate_ok ctx, hn, by rw [hn]⟩

/-! ### The write-ahead log frame -/

theorem encodeFrameSize_pad (d : Int) :
    (encodeFrameSize d).2 = Int.tmod (8 - Int.tmod d 8) 8 := by
  simp only [encodeFrameSize]
  by_cases hp : Int.tmod (8 - Int.tmod d 8) 8 = 0
  · simp [hp]
  · simp [hp]

/-- The pad of a non-negative length, in the usual remainder. -/
theorem encodeFrameSize_pad_nonneg (d : Int) (h : 0 ≤ d) :
    (encodeFrameSize d).2 = (8 - d % 8) % 8 := by
  rw [encodeFrameSize_pad, Int.tmod_eq_emod h (by norm_num),
    Int.tmod_eq_emod (by omega) (by norm_num)]

/-- C17: for every `dataBytes >= 0`, the `padBytes` that `encodeFrameSize`
returns lies in `0..7`, makes `dataBytes + padBytes` a multiple of 8, is the
least non-negative value that does, and is 0 exactly when `dataBytes` is a
multiple of 8. -/
theorem C17_pad_reaches_boundary (dataBytes : Int) (h : 0 ≤ dataBytes) :
    0 ≤ (encodeFrameSize dataBytes).2 ∧ (encodeFrameSize dataBytes).2 ≤ 7 ∧
    (dataBytes + (encodeFrameSize dataBytes).2) % 8 = 0 ∧
    (∀ p : Int, 0 ≤ p → (dataBytes + p) % 8 = 0 → (encodeFrameSize dataBytes).2 ≤ p) ∧
    ((encodeFrameSize dataBytes).2 = 0 ↔ dataBytes % 8 = 0) := by
  rw [encodeFrameSize_pad_nonneg dataBytes h]
  refine ⟨by omega, by omega, by omega, ?_, by omega⟩
  intro p hp hdiv
  omega

/-- C17 at a record of 13 bytes: 3 pad bytes reach 16. -/
theorem C17_pad_reaches_boundary_witness :
    (0 : Int) ≤ 13 ∧ (encodeFrameSize 13).2 = 3 ∧ ((13 : Int) + (encodeFrameSize 13).2) % 8 = 0 :=
  ⟨by decide, by decide, (C17_pad_reaches_boundary 13 (by decide)).2.2.1⟩

theorem lor_128 (p : Nat) (h : p < 8) : 128 ||| p = 128 + p := by
  interval_cases p <;> rfl

/-- The length field of a record shorter than `2 ^ 56` bytes, as a sum: the
record length, plus `(0x80 + padBytes) * 2 ^ 56` when there is padding. -/
theorem encodeFrameSize_len (d : Int) (h0 : 0 ≤ d) (h1 : d < 2 ^ 56) :
    (encodeFrameSize d).1 =
      d.toNat + (if (encodeFrameSize d).2 = 0 then 0
                 else (128 + (encodeFrameSize d).2.toNat) * 2 ^ 56) := by
  have hpad := encodeFrameSize_pad d
  have hpad2 := encodeFrameSize_pad_nonneg d h0
  have hlen : (d % 2 ^ 64).toNat = d.toNat := by
    rw [Int.emod_eq_of_lt h0 (by omega)]
  by_cases hp : (encodeFrameSize d).2 = 0
  · rw [if_pos hp]
    rw [hpad] at hp
    simp only [encodeFrameSize, hp, ne_eq, not_true_eq_false, if_false, hlen, Nat.add_zero]
  · rw [if_neg hp]
    have hp2 : Int.tmod (8 - Int.tmod d 8) 8 ≠ 0 := by rw [← hpad]; exact hp
    have hlt : (encodeFrameSize d).2.toNat < 8 := by omega
    have hd : d.toNat < 2 ^ 56 := by omega
    simp only [encodeFrameSize, ne_eq, hp2, not_false_eq_true, if_true, hlen]
    rw [← hpad, lor_128 _ hlt, Nat.shiftLeft_eq,
      Nat.mod_eq_of_lt (by omega : 128 + (encodeFrameSize d).2.toNat < 2 ^ 64),
      Nat.mod_eq_of_lt (by omega : (128 + (encodeFrameSize d).2.toNat) * 2 ^ 56 < 2 ^ 64),
      Nat.lor_comm, Nat.mul_comm, ← Nat.mul_add_lt_is_or hd, Nat.add_comm]

/-- C18: for every `dataBytes` with `0 <= dataBytes < 2^56`, the `lenField`
that `encodeFrameSize` returns has its low 56 bits equal to `dataBytes`; when
`padBytes = 0` it is `dataBytes` (top byte 0); when `padBytes != 0` its bit 63
is set and its bits 56..58 are `padBytes`; in both cases `dataBytes` is
`lenField mod 2^56` and `padBytes` is `(lenField / 2^56) mod 8`, and two
lengths of the range with the same `lenField` are equal. -/
theorem C18_len_field_recoverable (dataBytes : Int) (h0 : 0 ≤ dataBytes)
    (h1 : dataBytes < 2 ^ 56) :
    (((encodeFrameSize dataBytes).1 % 2 ^ 56 : Nat) : Int) = dataBytes ∧
    ((encodeFrameSize dataBytes).2 = 0 →
      (((encodeFrameSize dataBytes).1 : Nat) : Int) = dataBytes ∧
      (encodeFrameSize dataBytes).1 / 2 ^ 56 = 0) ∧
    ((encodeFrameSize dataBytes).2 ≠ 0 →
      (encodeFrameSize dataBytes).1 / 2 ^ 63 % 2 = 1 ∧
      (((encodeFrameSize dataBytes).1 / 2 ^ 56 % 8 : Nat) : Int)
        = (encodeFrameSize dataBytes).2) ∧
    ((((encodeFrameSize dataBytes).1 / 2 ^ 56 % 8 : Nat) : Int)
      = (encodeFrameSize dataBytes).2) ∧
    (∀ d2 : Int, 0 ≤ d2 → d2 < 2 ^ 56 →
      (encodeFrameSize d2).1 = (encodeFrameSize dataBytes).1 → d2 = dataBytes) := by
  have hL := encodeFrameSize_len dataBytes h0 h1
  have hpad := encodeFrameSize_pad_nonneg dataBytes h0
  have key : ∀ d : Int, 0 ≤ d → d < 2 ^ 56 →
      (((encodeFrameSize d).1 % 2 ^ 56 : Nat) : Int) = d := by
    intro d hd0 hd1
    have hLd := encodeFrameSize_len d hd0 hd1
    have hpd := encodeFrameSize_pad_nonneg d hd0
    by_cases hp : (encodeFrameSize d).2 = 0
    · rw [if_pos hp] at hLd
      omega
    · rw [if_neg hp] at hLd
      omega
  have e56 : (2 : Nat) ^ 56 = 72057594037927936 := by norm_num
  have e63 : (2 : Nat) ^ 63 = 9223372036854775808 := by norm_num
  have hn : dataBytes.toNat < 72057594037927936 := by omega
  have hpn : ((encodeFrameSize dataBytes).2.toNat : Int) = (encodeFrameSize dataBytes).2 :=
    Int.toNat_of_nonneg (by omega)
  have hp7 : (encodeFrameSize dataBytes).2.toNat < 8 := by omega
  refine ⟨key dataBytes h0 h1, ?_, ?_, ?_, ?_⟩
  · intro hp
    rw [if_pos hp] at hL
    simp only [e56] at hL ⊢
    omega
  · intro hp
    rw [if_neg hp] at hL
    simp only [e56, e63] at hL ⊢
    have hq : (encodeFrameSize dataBytes).1 / 72057594037927936
        = 128 + (encodeFrameSize dataBytes).2.toNat := by omega
    have hb : (encodeFrameSize dataBytes).1 / 9223372036854775808 = 1 := by omega
    rw [hq, hb]
    refine ⟨rfl, ?_⟩
    rw [← hpn]
    congr 1
    omega
  · by_cases hp : (encodeFrameSize dataBytes).2 = 0
    · rw [if_pos hp] at hL
      simp only [e56] at hL ⊢
      have hq : (encodeFrameSize dataBytes).1 / 72057594037927936 = 0 := by omega
      rw [hq, hp]
      rfl
    · rw [if_neg hp] at hL
      simp only [e56] at hL ⊢
      have hq : (encodeFrameSize dataBytes).1 / 72057594037927936
          = 128 + (encodeFrameSize dataBytes).2.toNat := by omega
      rw [hq, ← hpn]
      congr 1
      omega
  · intro d2 hd0 hd1 heq
    have k1 := key dataBytes h0 h1
    have k2 := key d2 hd0 hd1
    rw [heq] at k2
    omega

/-- C18 at a record of 13 bytes: the length field is `0x8300000000000000 + 13`,
from which the length 13 and the pad 3 are read back. -/
theorem C18_len_field_recoverable_witness :
    (0 : Int) ≤ 13 ∧ (13 : Int) < 2 ^ 56 ∧
    encodeFrameSize 13 = (0x830000000000000D, 3) ∧
    (((encodeFrameSize 13).1 % 2 ^ 56 : Nat) : Int) = 13 ∧
    ((((encodeFrameSize 13).1 / 2 ^ 56 % 8 : Nat) : Int) = (encodeFrameSize 13).2) :=
  ⟨by decide, by decide, by decide,
    (C18_len_field_recoverable 13 (by decide) (by decide)).1,
    (C18_len_field_recoverable 13 (by decide) (by decide)).2.2.2.1⟩

/-! ### Selects of interval clauses only -/

/-- A select with interval clauses only, all literals parseable, compiles, and
its interval predicates are the fold of the clauses. -/
theorem VisitQuery_intervals_only (ctx : QueryContext)
    (hparse : ∀ c ∈ ctx.AllUintPred, ∃ v, ParseUint c.INT = .ok v)
    (hol : ctx.OrderLimit = none) (hE : ctx.AllEnumPred = []) (hS : ctx.AllStrPred = []) :
    ∃ q, VisitQuery ctx = .ok q ∧ ∀ P, q.UintPreds P = foldOn P ctx.AllUintPred none := by
  have hall : ∀ c ∈ ctx.AllUintPred, ∃ p, VisitUintPred c = .ok p := fun c hc => by
    obtain ⟨v, hv⟩ := hparse c hc
    exact VisitUintPred_of_parse c v hv
  obtain ⟨q0, h0, _, _, _, _, hO, hU⟩ := queryUintLoop_spec ctx.AllUintPred 0 (newSelect ctx) hall
  have hU2 : ∀ P, q0.UintPreds P = foldOn P ctx.AllUintPred none := fun P => by
    rw [hU P]; rfl
  have hstage : ∃ q1, queryOrderLimit ctx q0 = .ok q1 ∧ q1.UintPreds = q0.UintPreds := by
    by_cases hob : q0.OrderBy = ""
    · refine ⟨q0, ?_, rfl⟩
      unfold queryOrderLimit
      simp [hol, hob]
    · have hp : (q0.UintPreds q0.OrderBy).isNone = false := by
        cases hcs : ctx.AllUintPred with
        | nil =>
          rw [hcs] at hO
          exact absurd (by simpa [newSelect] using hO) hob
        | cons c cs =>
          have hO2 : q0.OrderBy = c.Property := by rw [hO, hcs]; simp
          obtain ⟨pred, hf, _⟩ := foldOn_none c.Property ctx.AllUintPred
            ⟨c, by rw [hcs]; exact List.mem_cons_self _ _, rfl⟩
          rw [hO2, hU2 c.Property, hf]
          rfl
      exact ⟨_, queryOrderLimit_none ctx q0 hol hob hp, rfl⟩
  obtain ⟨q1, h1, hU1⟩ := hstage
  refine ⟨q1, ?_, fun P => by rw [hU1]; exact hU2 P⟩
  unfold VisitQuery
  simp only [h0, h1, hE, hS, queryEnumLoop, queryStrLoop]

/-- C19: for a clause `P < 0` (literal of value 0) `VisitUintPred` returns
High = `2^64-1`, and for a clause `P > 2^64-1` it returns Low = 0: either
clause alone gives the full range `[0, 2^64-1]`, the select made of that one
clause compiles and holds the full range for `P`, and every unsigned 64-bit
value lies in that range although none satisfies the clause. -/
theorem C19_silent_wraparound (P txt0 txtMax : String)
    (h0 : ParseUint txt0 = .ok 0) (hmax : ParseUint txtMax = .ok (2 ^ 64 - 1)) :
    VisitUintPred ⟨P, .lt, txt0⟩ = .ok ⟨P, 0, 2 ^ 64 - 1⟩ ∧
    VisitUintPred ⟨P, .bt, txtMax⟩ = .ok ⟨P, 0, 2 ^ 64 - 1⟩ ∧
    (∀ idx, ∃ q, VisitQuery ⟨idx, [⟨P, .lt, txt0⟩], [], [], none⟩ = .ok q ∧
      q.UintPreds P = some ⟨P, 0, 2 ^ 64 - 1⟩) ∧
    (∀ idx, ∃ q, VisitQuery ⟨idx, [⟨P, .bt, txtMax⟩], [], [], none⟩ = .ok q ∧
      q.UintPreds P = some ⟨P, 0, 2 ^ 64 - 1⟩) ∧
    (∀ x, x < 2 ^ 64 →
      (0 ≤ x ∧ x ≤ 2 ^ 64 - 1) ∧
      UintPredContext.satisfiedBy ⟨P, .lt, txt0⟩ x = false ∧
      UintPredContext.satisfiedBy ⟨P, .bt, txtMax⟩ x = false) := by
  have hlt : VisitUintPred ⟨P, .lt, txt0⟩ = .ok ⟨P, 0, 2 ^ 64 - 1⟩ := by
    rw [VisitUintPred_ok P txt0 .lt 0 h0]
    rfl
  have hbt : VisitUintPred ⟨P, .bt, txtMax⟩ = .ok ⟨P, 0, 2 ^ 64 - 1⟩ := by
    rw [VisitUintPred_ok P txtMax .bt (2 ^ 64 - 1) hmax]
    rfl
  refine ⟨hlt, hbt, ?_, ?_, ?_⟩
  · intro idx
    obtain ⟨q, hq, hU⟩ := VisitQuery_intervals_only ⟨idx, [⟨P, .lt, txt0⟩], [], [], none⟩
      (fun c hc => by
        simp only [List.mem_singleton] at hc
        subst hc
        exact ⟨0, h0⟩) rfl rfl rfl
    refine ⟨q, hq, ?_⟩
    rw [hU P]
    simp [foldOn, clauseLow, clauseHigh, hlt]
  · intro idx
    obtain ⟨q, hq, hU⟩ := VisitQuery_intervals_only ⟨idx, [⟨P, .bt, txtMax⟩], [], [], none⟩
      (fun c hc => by
        simp only [List.mem_singleton] at hc
        subst hc
        exact ⟨2 ^ 64 - 1, hmax⟩) rfl rfl rfl
    refine ⟨q, hq, ?_⟩
    rw [hU P]
    simp [foldOn, clauseLow, clauseHigh, hbt]
  · intro x hx
    refine ⟨⟨Nat.zero_le x, by omega⟩, ?_, ?_⟩
    · simp [UintPredContext.satisfiedBy, h0]
    · simp only [UintPredContext.satisfiedBy, hmax, decide_eq_false_iff_not]
      omega

/-- C19 at the clauses `price < 0` and `price > 18446744073709551615`. -/
theorem C19_silent_wraparound_witness :
    ParseUint "0" = .ok 0 ∧ ParseUint "18446744073709551615" = .ok (2 ^ 64 - 1) ∧
    VisitUintPred ⟨"price", .lt, "0"⟩ = .ok ⟨"price", 0, 2 ^ 64 - 1⟩ ∧
    VisitUintPred ⟨"price", .bt, "18446744073709551615"⟩ = .ok ⟨"price", 0, 2 ^ 64 - 1⟩ :=
  ⟨rfl, rfl,
    (C19_silent_wraparound "price" "0" "18446744073709551615" rfl rfl).1,
    (C19_silent_wraparound "price" "0" "18446744073709551615" rfl rfl).2.1⟩

/-! ### The place of the order/limit stage -/

/-- An explicit ORDER BY on a property that no interval clause names stops
`VisitQuery` at the order/limit stage. -/
theorem VisitQuery_orderBy_absent (ctx : QueryContext) (ol : OrderLimitContext) (p : String)
    (hparse : ∀ c ∈ ctx.AllUintPred, ∃ v, ParseUint c.INT = .ok v)
    (hol : ctx.OrderLimit = some ol) (hord : ol.Order = some p)
    (hlim : ∀ t, ol.Limit = some t → ∃ n, Atoi t = .ok n)
    (hno : ∀ c ∈ ctx.AllUintPred, c.Property ≠ p) :
    VisitQuery ctx = .error (.invalidOrderBy p) := by
  have hall : ∀ c ∈ ctx.AllUintPred, ∃ p, VisitUintPred c = .ok p := fun c hc => by
    obtain ⟨v, hv⟩ := hparse c hc
    exact VisitUintPred_of_parse c v hv
  obtain ⟨q0, h0, _, _, _, _, _, hU⟩ := queryUintLoop_spec ctx.AllUintPred 0 (newSelect ctx) hall
  obtain ⟨r, hr⟩ := VisitOrderLimit_total ol hlim
  obtain ⟨hro, _, _⟩ := VisitOrderLimit_ok_inv ol r hr
  have hrp : r.order = p := by rw [hro, hord]; rfl
  have hnone : (q0.UintPreds r.order).isNone = true := by
    rw [hrp, hU p, foldOn_absent p ctx.AllUintPred _ hno]
    rfl
  have h1 : queryOrderLimit ctx q0 = .error (.invalidOrderBy p) := by
    rw [queryOrderLimit_some ctx ol q0 r hol hr, if_pos hnone, hrp]
  unfold VisitQuery
  simp only [h0, h1]

/-- C20 (as stated, refuted): the select `WHERE price>0 AND color IN (1,2) AND
color IN (3) ORDER BY size` has a repeated set predicate and an ORDER BY on a
property without an interval predicate, and its compile fails with the
invalid-order-by error, not with the duplicate-predicate error. -/
theorem C20_order_by_after_clauses_counterexample :
    ¬ (exampleDupAndOrder.AllEnumPred.map (fun c => c.Property)).Nodup ∧
    exampleDupAndOrder.OrderLimit = some ⟨some "size", none⟩ ∧
    (∀ c ∈ exampleDupAndOrder.AllUintPred, c.Property ≠ "size") ∧
    VisitQuery exampleDupAndOrder = .error (.invalidOrderBy "size") ∧
    ParseCql none (.query exampleDupAndOrder) GoMap.empty
      = (none, some (.invalidOrderBy "size")) ∧
    ¬ (∃ p, VisitQuery exampleDupAndOrder = .error (.multipleEnumPred p)) := by
  have h : VisitQuery exampleDupAndOrder = .error (.invalidOrderBy "size") := by rfl
  refine ⟨by decide, rfl, ?_, h, rfl, ?_⟩
  · intro c hc
    simp only [exampleDupAndOrder, List.mem_singleton] at hc
    subst hc
    decide
  · rintro ⟨p, hp⟩
    rw [h] at hp
    exact absurd hp (by simp)

/-- C20 (amended): order-by/limit resolution is evaluated after the interval
clauses and before the set and substring clauses: for every select whose
interval literals all parse, whose LIMIT literal (if any) is accepted by
`Atoi`, which has a repeated set or substring predicate on one property and an
explicit ORDER BY naming a property `p` that no interval clause names, the
compile fails with the invalid-order-by error on `p`, not with a
duplicate-predicate error, and returns no command. -/
theorem C20_order_by_before_set_clauses (ctx : QueryContext) (ol : OrderLimitContext)
    (p : String)
    (hparse : ∀ c ∈ ctx.AllUintPred, ∃ v, ParseUint c.INT = .ok v)
    (hol : ctx.OrderLimit = some ol) (hord : ol.Order = some p)
    (hlim : ∀ t, ol.Limit = some t → ∃ n, Atoi t = .ok n)
    (hno : ∀ c ∈ ctx.AllUintPred, c.Property ≠ p)
    (_hdup : ¬ (ctx.AllEnumPred.map (fun c => c.Property)).Nodup ∨
      ¬ (ctx.AllStrPred.map (fun c => c.Property)).Nodup) :
    VisitQuery ctx = .error (.invalidOrderBy p) ∧
    (∀ p2, VisitQuery ctx ≠ .error (.multipleEnumPred p2) ∧
      VisitQuery ctx ≠ .error (.multipleStrPred p2)) ∧
    ∀ docProts, ParseCql none (.query ctx) docProts = (none, some (.invalidOrderBy p)) := by
  have hv := VisitQuery_orderBy_absent ctx ol p hparse hol hord hlim hno
  refine ⟨hv, fun p2 => ⟨?_, ?_⟩, fun docProts => (ParseCql_query docProts ctx).2 _ hv⟩
  · rw [hv]; simp
  · rw [hv]; simp

/-- C20 (amended) at `WHERE price>0 AND color IN (1,2) AND color IN (3) ORDER BY
size`. -/
theorem C20_order_by_before_set_clauses_witness :
    (∀ c ∈ exampleDupAndOrder.AllUintPred, ∃ v, ParseUint c.INT = .ok v) ∧
    (∀ c ∈ exampleDupAndOrder.AllUintPred, c.Property ≠ "size") ∧
    ¬ (exampleDupAndOrder.AllEnumPred.map (fun c => c.Property)).Nodup ∧
    VisitQuery exampleDupAndOrder = .error (.invalidOrderBy "size") := by
  have hparse : ∀ c ∈ exampleDupAndOrder.AllUintPred, ∃ v, ParseUint c.INT = .ok v := by
    intro c hc
    simp only [exampleDupAndOrder, List.mem_singleton] at hc
    subst hc
    exact ⟨0, rfl⟩
  have hno : ∀ c ∈ exampleDupAndOrder.AllUintPred, c.Property ≠ "size" := by
    intro c hc
    simp only [exampleDupAndOrder, List.mem_singleton] at hc
    subst hc
    decide
  have hdup : ¬ (exampleDupAndOrder.AllEnumPred.map (fun c => c.Property)).Nodup := by decide
  exact ⟨hparse, hno, hdup,
    (C20_order_by_before_set_clauses exampleDupAndOrder ⟨some "size", none⟩ "size" hparse rfl rfl
      (fun t ht => by simp at ht) hno (Or.inl hdup)).1⟩

/-! ### The registry -/

/-- C22: the compile of a define-schema, drop-schema or select statement is the
same for any two registries (and so the same as for the empty registry),
whether it returns a command or an error; a select that `VisitQuery` accepts
compiles to its command on every registry, in particular `SELECT FROM orders
WHERE price>0` compiles on the empty registry, where `orders` is absent, and on
a registry where `orders` declares `price` as a string property. -/
theorem C22_registry_not_read :
    (∀ (elErr : Option CqlError) (c : CreateContext) (r1 r2 : GoMap Document),
      ParseCql elErr (.create c) r1 = ParseCql elErr (.create c) r2) ∧
    (∀ (elErr : Option CqlError) (c : DestroyContext) (r1 r2 : GoMap Document),
      ParseCql elErr (.destroy c) r1 = ParseCql elErr (.destroy c) r2) ∧
    (∀ (elErr : Option CqlError) (c : QueryContext) (r1 r2 : GoMap Document),
      ParseCql elErr (.query c) r1 = ParseCql elErr (.query c) r2) ∧
    (∀ (c : QueryContext) (q : CqlSelect) (r : GoMap Document), VisitQuery c = .ok q →
      ParseCql none (.query c) r = (some (.select q), none)) ∧
    ((GoMap.empty : GoMap Document) examplePriceOnly.IndexName = none ∧
      ∃ q, ParseCql none (.query examplePriceOnly) GoMap.empty = (some (.select q), none)) ∧
    (ordersPriceStrRegistry examplePriceOnly.IndexName
        = some { DocID := 0, UintProps := [], EnumProps := [], StrProps := [⟨"price", ""⟩] } ∧
      ∃ q, ParseCql none (.query examplePriceOnly) ordersPriceStrRegistry
        = (some (.select q), none)) := by
  refine ⟨fun _ _ _ _ => rfl, fun _ _ _ _ => rfl, fun _ _ _ _ => rfl, ?_, ⟨rfl, _, rfl⟩,
    ⟨rfl, _, rfl⟩⟩
  intro c q r h
  exact (ParseCql_query r c).1 q h

/-! ### Values and declared widths -/

/-- The digit loop continues from the value it has read, whatever text the
errors would carry. -/
theorem parseUintLoop_append_ok (s0 s1 : String) (cs ds : List Char) :
    ∀ n m : Nat, parseUintLoop s0 cs n = .ok m →
      parseUintLoop s1 (cs ++ ds) n = parseUintLoop s1 ds m := by
  induction cs with
  | nil =>
    intro n m h
    simp only [parseUintLoop, Except.ok.injEq] at h
    subst h
    rfl
  | cons c cs ih =>
    intro n m h
    simp only [parseUintLoop] at h
    simp only [List.cons_append, parseUintLoop]
    by_cases hd : 48 ≤ c.toNat ∧ c.toNat ≤ 57
    · rw [if_pos hd] at h ⊢
      by_cases hc : n ≥ maxUint64 / 10 + 1
      · rw [if_pos hc] at h
        exact absurd h (by simp)
      · rw [if_neg hc] at h ⊢
        by_cases ho : (n * 10 + (c.toNat - 48)) % 2 ^ 64 < n * 10 ∨
            (n * 10 + (c.toNat - 48)) % 2 ^ 64 > maxUint64
        · rw [if_pos ho] at h
          exact absurd h (by simp)
        · rw [if_neg ho] at h ⊢
          exact ih _ m h
    · rw [if_neg hd] at h
      exact absurd h (by simp)

theorem digit_toNat (d : Nat) (h : d < 10) : (Char.ofNat (48 + d)).toNat = 48 + d := by
  interval_cases d <;> rfl

/-- One more decimal digit: from `m` the loop reaches `m * 10 + d`, as long as
that is an unsigned 64-bit value. -/
theorem parseUintLoop_digit (s1 : String) (m d : Nat) (hd : d < 10)
    (hlt : m * 10 + d < 2 ^ 64) :
    parseUintLoop s1 [Char.ofNat (48 + d)] m = .ok (m * 10 + d) := by
  have ht := digit_toNat d hd
  have h1 : 48 ≤ (Char.ofNat (48 + d)).toNat ∧ (Char.ofNat (48 + d)).toNat ≤ 57 := by omega
  have h2 : ¬ m ≥ maxUint64 / 10 + 1 := by
    simp only [maxUint64]
    omega
  have h3 : (m * 10 + ((Char.ofNat (48 + d)).toNat - 48)) % 2 ^ 64 = m * 10 + d := by
    rw [ht, Nat.add_sub_cancel_left]
    exact Nat.mod_eq_of_lt hlt
  have h4 : ¬ ((m * 10 + ((Char.ofNat (48 + d)).toNat - 48)) % 2 ^ 64 < m * 10 ∨
      (m * 10 + ((Char.ofNat (48 + d)).toNat - 48)) % 2 ^ 64 > maxUint64) := by
    rw [h3]
    simp only [maxUint64]
    omega
  have h5 : ¬ (m * 10 + d < m * 10 ∨ m * 10 + d > maxUint64) := by
    rw [h3] at h4
    exact h4
  simp only [parseUintLoop, h1, h2, h3, h5, and_self, if_true, if_false]

/-- Every unsigned 64-bit value has a decimal text the digit loop reads. -/
theorem parseUintLoop_surjective (n : Nat) :
    n < 2 ^ 64 → ∃ cs : List Char, cs ≠ [] ∧ ∀ s0, parseUintLoop s0 cs 0 = .ok n := by
  induction n using Nat.strong_induction_on with
  | _ n ih =>
    intro hn
    by_cases hsmall : n < 10
    · refine ⟨[Char.ofNat (48 + n)], by simp, fun s0 => ?_⟩
      have := parseUintLoop_digit s0 0 n hsmall (by omega)
      simpa using this
    · obtain ⟨cs, hne, hcs⟩ := ih (n / 10) (by omega) (by omega)
      refine ⟨cs ++ [Char.ofNat (48 + n % 10)], by simp, fun s0 => ?_⟩
      rw [parseUintLoop_append_ok s0 s0 cs _ 0 (n / 10) (hcs s0),
        parseUintLoop_digit s0 (n / 10) (n % 10) (by omega) (by omega)]
      congr 1
      omega

/-- Every unsigned 64-bit value is the value of a text `ParseUint` accepts. -/
theorem ParseUint_surjective (n : Nat) (hn : n < 2 ^ 64) : ∃ t, ParseUint t = .ok n := by
  obtain ⟨cs, hne, hcs⟩ := parseUintLoop_surjective n hn
  refine ⟨String.mk cs, ?_⟩
  unfold ParseUint
  rw [if_neg hne]
  exact hcs _

/-- C23: with the prototype `t(b)` whose unsigned-integer property `b` has
ValLen 1, the insert of id `1` and value literal `256` compiles and binds to
`b` the Val 256, which is at least `2^(8*ValLen)`; for every declared width
and every literal that `ParseUint` accepts the insert binds the literal's
value, and the values `ParseUint` accepts are exactly those below `2^64`, so
`2^64-1` is the only upper bound on a bound unsigned-integer value. -/
theorem C23_width_not_checked :
    widthRegistry 1 "t"
      = some { DocID := 0, UintProps := [⟨"b", 1, 0⟩], EnumProps := [], StrProps := [] } ∧
    ParseCql none (.insert ⟨widthDocument "256"⟩) (widthRegistry 1)
      = (some (.insert
          { DocID := 1, UintProps := [⟨"b", 1, 256⟩], EnumProps := [], StrProps := [],
            Index := "t" }), none) ∧
    (256 : Nat) ≥ 2 ^ (8 * 1) ∧
    (∀ (w : Int) (t : String) (n : Nat), ParseUint t = .ok n →
      ParseCql none (.insert ⟨widthDocument t⟩) (widthRegistry w)
        = (some (.insert
            { DocID := 1, UintProps := [⟨"b", w, n⟩], EnumProps := [], StrProps := [],
              Index := "t" }), none)) ∧
    (∀ n : Nat, n < 2 ^ 64 → ∃ t, ParseUint t = .ok n) ∧
    (∀ (t : String) (n : Nat), ParseUint t = .ok n → n < 2 ^ 64) := by
  refine ⟨rfl, rfl, by norm_num, ?_, ParseUint_surjective, ParseUint_lt⟩
  intro w t n h
  have hid : ParseUint "1" = .ok 1 := rfl
  have hdoc : VisitDocument (widthRegistry w) (widthDocument t)
      = .ok { DocID := 1, UintProps := [⟨"b", w, n⟩], EnumProps := [], StrProps := [],
              Index := "t" } := by
    simp [VisitDocument, widthRegistry, widthDocument, GoMap.insert, GoMap.empty, hid, h,
      docUintLoop, docEnumLoop, docStrLoop]
  exact ((ParseCql_document (widthRegistry w) (widthDocument t)).1 _ hdoc).1

/-! ### Independence of the clause order -/

/-- The fold of the interval clauses on a property does not depend on their
order. -/
theorem foldOn_perm (P : String) (cs1 cs2 : List UintPredContext) (hperm : cs1.Perm cs2) :
    foldOn P cs1 none = foldOn P cs2 none := by
  by_cases h : ∃ c ∈ cs1, c.Property = P
  · have h2 : ∃ c ∈ cs2, c.Property = P := by
      obtain ⟨c, hc, hP⟩ := h
      exact ⟨c, hperm.mem_iff.1 hc, hP⟩
    obtain ⟨p1, hf1, hn1, hb1, ⟨cl1, hcl1, hclP1, hlo1⟩, ⟨ch1, hch1, hchP1, hhi1⟩⟩ :=
      foldOn_none P cs1 h
    obtain ⟨p2, hf2, hn2, hb2, ⟨cl2, hcl2, hclP2, hlo2⟩, ⟨ch2, hch2, hchP2, hhi2⟩⟩ :=
      foldOn_none P cs2 h2
    have a1 := (hb2 cl1 (hperm.mem_iff.1 hcl1) hclP1).1
    have a2 := (hb1 cl2 (hperm.mem_iff.2 hcl2) hclP2).1
    have a3 := (hb2 ch1 (hperm.mem_iff.1 hch1) hchP1).2
    have a4 := (hb1 ch2 (hperm.mem_iff.2 hch2) hchP2).2
    have hL : p1.Low = p2.Low := by omega
    have hH : p1.High = p2.High := by omega
    rw [hf1, hf2]
    obtain ⟨n1, l1, u1⟩ := p1
    obtain ⟨n2, l2, u2⟩ := p2
    simp only at hn1 hn2 hL hH
    rw [hn1, hn2, hL, hH]
  · have hno1 : ∀ c ∈ cs1, c.Property ≠ P := fun c hc hP => h ⟨c, hc, hP⟩
    have hno2 : ∀ c ∈ cs2, c.Property ≠ P := fun c hc hP => h ⟨c, hperm.mem_iff.2 hc, hP⟩
    rw [foldOn_absent P cs1 none hno1, foldOn_absent P cs2 none hno2]

/-- A select without an ORDER BY/LIMIT part whose interval literals parse: the
select that enters the set loop, and what `VisitQuery` returns from there. -/
theorem VisitQuery_noOrder (ctx : QueryContext)
    (hparse : ∀ c ∈ ctx.AllUintPred, ∃ v, ParseUint c.INT = .ok v)
    (hol : ctx.OrderLimit = none) :
    ∃ q1 : CqlSelect, (∀ P, q1.UintPreds P = foldOn P ctx.AllUintPred none) ∧
      (∀ P, q1.EnumPreds P = none) ∧ (∀ P, q1.StrPreds P = none) ∧
      q1.Index = ctx.IndexName ∧
      q1.OrderBy = (ctx.AllUintPred.head?.map (fun c => c.Property)).getD "" ∧
      q1.Limit = (if q1.OrderBy = "" then 0 else 100) ∧
      VisitQuery ctx =
        (match queryEnumLoop ctx.AllEnumPred q1 with
         | .error e => .error e
         | .ok q => queryStrLoop ctx.AllStrPred q) := by
  have hall : ∀ c ∈ ctx.AllUintPred, ∃ p, VisitUintPred c = .ok p := fun c hc => by
    obtain ⟨v, hv⟩ := hparse c hc
    exact VisitUintPred_of_parse c v hv
  obtain ⟨q0, h0, hI, hE, hS, hL, hO, hU⟩ :=
    queryUintLoop_spec ctx.AllUintPred 0 (newSelect ctx) hall
  have hU2 : ∀ P, q0.UintPreds P = foldOn P ctx.AllUintPred none := fun P => by
    rw [hU P]; rfl
  have hO2 : q0.OrderBy = (ctx.AllUintPred.head?.map (fun c => c.Property)).getD "" := by
    rw [hO]; rfl
  by_cases hob : q0.OrderBy = ""
  · have h1 : queryOrderLimit ctx q0 = .ok q0 := by
      unfold queryOrderLimit
      simp [hol, hob]
    refine ⟨q0, hU2, fun P => by rw [hE]; rfl, fun P => by rw [hS]; rfl, hI, hO2, ?_, ?_⟩
    · rw [if_pos hob, hL]; rfl
    · unfold VisitQuery
      simp only [h0, h1]
  · have hp : (q0.UintPreds q0.OrderBy).isNone = false := by
      cases hcs : ctx.AllUintPred with
      | nil =>
        rw [hcs] at hO2
        exact absurd (by simpa using hO2) hob
      | cons c cs =>
        have hO3 : q0.OrderBy = c.Property := by rw [hO2, hcs]; simp
        obtain ⟨pred, hf, _⟩ := foldOn_none c.Property ctx.AllUintPred
          ⟨c, by rw [hcs]; exact List.mem_cons_self _ _, rfl⟩
        rw [hO3, hU2 c.Property, hf]
        rfl
    have h1 := queryOrderLimit_none ctx q0 hol hob hp
    refine ⟨{ q0 with Limit := DEFAULT_LIMIT }, hU2, fun P => by rw [hE]; rfl,
      fun P => by rw [hS]; rfl, hI, hO2, ?_, ?_⟩
    · simp only [hob, if_false]; rfl
    · unfold VisitQuery
      simp only [h0, h1]

/-- The outcome of the set loop depends on the select only through the set
predicates it holds. -/
theorem queryEnumLoop_congr (cs : List EnumPredContext) :
    ∀ qa qb : CqlSelect, qa.EnumPreds = qb.EnumPreds →
      (queryEnumLoop cs qa).map (fun r => r.EnumPreds)
        = (queryEnumLoop cs qb).map (fun r => r.EnumPreds) := by
  induction cs with
  | nil =>
    intro qa qb h
    simp only [queryEnumLoop, Except.map, h]
  | cons c cs ih =>
    intro qa qb h
    simp only [queryEnumLoop]
    cases hv : VisitEnumPred c with
    | error e => rfl
    | ok pred =>
      simp only [h]
      by_cases hs : (qb.EnumPreds pred.Name).isSome = true
      · simp only [hs, if_true]
      · simp only [hs, if_false]
        exact ih _ _ (by simp only [h])

/-- The outcome of the substring loop depends on the select only through the
substring predicates it holds. -/
theorem queryStrLoop_congr (cs : List StrPredContext) :
    ∀ qa qb : CqlSelect, qa.StrPreds = qb.StrPreds →
      (queryStrLoop cs qa).map (fun r => r.StrPreds)
        = (queryStrLoop cs qb).map (fun r => r.StrPreds) := by
  induction cs with
  | nil =>
    intro qa qb h
    simp only [queryStrLoop, Except.map, h]
  | cons c cs ih =>
    intro qa qb h
    simp only [queryStrLoop, VisitStrPred, h]
    by_cases hs : (qb.StrPreds c.Property).isSome = true
    · simp only [hs, if_true]
    · simp only [hs, if_false]
      exact ih _ _ (by simp only [h])

/-- Two selects without ORDER BY/LIMIT part that differ by a permutation of
their interval clauses: the outcome of the first decides that of the second. -/
theorem VisitQuery_perm_aux (ctx1 ctx2 : QueryContext)
    (hperm : ctx1.AllUintPred.Perm ctx2.AllUintPred)
    (hidx : ctx1.IndexName = ctx2.IndexName)
    (hE : ctx1.AllEnumPred = ctx2.AllEnumPred) (hS : ctx1.AllStrPred = ctx2.AllStrPred)
    (hol1 : ctx1.OrderLimit = none) (hol2 : ctx2.OrderLimit = none)
    (hparse : ∀ c ∈ ctx1.AllUintPred, ∃ v, ParseUint c.INT = .ok v) :
    (∀ e, VisitQuery ctx1 = .error e → VisitQuery ctx2 = .error e) ∧
    (∀ q1, VisitQuery ctx1 = .ok q1 →
      ∃ q2, VisitQuery ctx2 = .ok q2 ∧ q1.UintPreds = q2.UintPreds ∧ q1.Index = q2.Index ∧
        q1.EnumPreds = q2.EnumPreds ∧ q1.StrPreds = q2.StrPreds ∧
        ((∀ c ∈ ctx1.AllUintPred, c.Property ≠ "") → q1.Limit = q2.Limit)) := by
  have hparse2 : ∀ c ∈ ctx2.AllUintPred, ∃ v, ParseUint c.INT = .ok v :=
    fun c hc => hparse c (hperm.mem_iff.2 hc)
  obtain ⟨qa, hUa, hEa, hSa, hIa, hOa, hLa, hVa⟩ := VisitQuery_noOrder ctx1 hparse hol1
  obtain ⟨qb, hUb, hEb, hSb, hIb, hOb, hLb, hVb⟩ := VisitQuery_noOrder ctx2 hparse2 hol2
  have hEab : qa.EnumPreds = qb.EnumPreds := funext (fun P => by rw [hEa, hEb])
  have hUab : qa.UintPreds = qb.UintPreds :=
    funext (fun P => by rw [hUa, hUb]; exact foldOn_perm P _ _ hperm)
  have hLab : (∀ c ∈ ctx1.AllUintPred, c.Property ≠ "") → qa.Limit = qb.Limit := by
    intro hne
    rw [hLa, hLb, hOa, hOb]
    cases h1 : ctx1.AllUintPred with
    | nil =>
      rw [h1] at hperm
      rw [List.Perm.nil_eq hperm]
    | cons c1 cs1 =>
      cases h2 : ctx2.AllUintPred with
      | nil =>
        rw [h1, h2] at hperm
        exact absurd (List.Perm.eq_nil hperm) (by simp)
      | cons c2 cs2 =>
        have n1 : c1.Property ≠ "" := hne c1 (by rw [h1]; exact List.mem_cons_self _ _)
        have n2 : c2.Property ≠ "" :=
          hne c2 (hperm.mem_iff.2 (by rw [h2]; exact List.mem_cons_self _ _))
        simp [n1, n2]
  have hc := queryEnumLoop_congr ctx1.AllEnumPred qa qb hEab
  rw [hVa, hVb, ← hE, ← hS]
  cases ha : queryEnumLoop ctx1.AllEnumPred qa with
  | error ea =>
    cases hb : queryEnumLoop ctx1.AllEnumPred qb with
    | error eb =>
      rw [ha, hb] at hc
      simp only [Except.map, Except.error.injEq] at hc
      subst hc
      exact ⟨fun e h => h, fun q1 h => absurd h (by simp)⟩
    | ok rb =>
      rw [ha, hb] at hc
      simp [Except.map] at hc
  | ok ra =>
    cases hb : queryEnumLoop ctx1.AllEnumPred qb with
    | error eb =>
      rw [ha, hb] at hc
      simp [Except.map] at hc
    | ok rb =>
      rw [ha, hb] at hc
      simp only [Except.map, Except.ok.injEq] at hc
      obtain ⟨hUra, hIra, hSra, _, hLra⟩ := queryEnumLoop_fields _ qa ra ha
      obtain ⟨hUrb, hIrb, hSrb, _, hLrb⟩ := queryEnumLoop_fields _ qb rb hb
      have hSab : ra.StrPreds = rb.StrPreds := by
        rw [hSra, hSrb]
        exact funext (fun P => by rw [hSa, hSb])
      have hcs := queryStrLoop_congr ctx1.AllStrPred ra rb hSab
      simp only
      cases hsa : queryStrLoop ctx1.AllStrPred ra with
      | error ea =>
        cases hsb : queryStrLoop ctx1.AllStrPred rb with
        | error eb =>
          rw [hsa, hsb] at hcs
          simp only [Except.map, Except.error.injEq] at hcs
          subst hcs
          exact ⟨fun e h => h, fun q1 h => absurd h (by simp)⟩
        | ok fb =>
          rw [hsa, hsb] at hcs
          simp [Except.map] at hcs
      | ok fa =>
        cases hsb : queryStrLoop ctx1.AllStrPred rb with
        | error eb =>
          rw [hsa, hsb] at hcs
          simp [Except.map] at hcs
        | ok fb =>
          rw [hsa, hsb] at hcs
          simp only [Except.map, Except.ok.injEq] at hcs
          obtain ⟨hUfa, hIfa, hEfa, _, hLfa⟩ := queryStrLoop_fields _ ra fa hsa
          obtain ⟨hUfb, hIfb, hEfb, _, hLfb⟩ := queryStrLoop_fields _ rb fb hsb
          refine ⟨fun e h => absurd h (by simp), ?_⟩
          intro q1 h
          simp only [Except.ok.injEq] at h
          subst h
          refine ⟨fb, rfl, ?_, ?_, ?_, hcs, ?_⟩
          · rw [hUfa, hUra, hUfb, hUrb, hUab]
          · rw [hIfa, hIra, hIfb, hIrb, hIa, hIb, hidx]
          · rw [hEfa, hEfb, hc]
          · intro hne
            rw [hLfa, hLra, hLfb, hLrb]
            exact hLab hne

/-- C21 (as stated, refuted): the selects `WHERE qty>=20 AND price>10 AND color
IN (1) AND color IN (2)` and `WHERE price>10 AND qty>=20 AND color IN (1) AND
color IN (2)` differ only by a permutation of their interval clauses, all their
literals parse and they have no ORDER BY, yet neither compiles: both fail with
the duplicate-set-predicate error. -/
theorem C21_fold_order_independent_counterexample :
    examplePermDupA.AllUintPred.Perm examplePermDupB.AllUintPred ∧
    examplePermDupA.IndexName = examplePermDupB.IndexName ∧
    examplePermDupA.AllEnumPred = examplePermDupB.AllEnumPred ∧
    examplePermDupA.AllStrPred = examplePermDupB.AllStrPred ∧
    examplePermDupA.OrderLimit = none ∧ examplePermDupB.OrderLimit = none ∧
    (∀ c ∈ examplePermDupA.AllUintPred, ∃ v, ParseUint c.INT = .ok v) ∧
    (∀ c ∈ examplePermDupA.AllEnumPred, ∃ vals, VisitIntList c.IntList = .ok vals) ∧
    VisitQuery examplePermDupA = .error (.multipleEnumPred "color") ∧
    VisitQuery examplePermDupB = .error (.multipleEnumPred "color") ∧
    ¬ (∃ q, VisitQuery examplePermDupA = .ok q) := by
  have h : VisitQuery examplePermDupA = .error (.multipleEnumPred "color") := by rfl
  refine ⟨List.Perm.swap _ _ _, rfl, rfl, rfl, rfl, rfl, ?_, ?_, h, rfl, ?_⟩
  · intro c hc
    simp only [examplePermDupA, List.mem_cons, List.mem_singleton, List.not_mem_nil,
      or_false] at hc
    rcases hc with rfl | rfl
    · exact ⟨20, rfl⟩
    · exact ⟨10, rfl⟩
  · intro c hc
    simp only [examplePermDupA, List.mem_cons, List.mem_singleton, List.not_mem_nil,
      or_false] at hc
    rcases hc with rfl | rfl
    · exact ⟨[1], rfl⟩
    · exact ⟨[2], rfl⟩
  · rintro ⟨q, hq⟩
    rw [h] at hq
    exact absurd hq (by simp)

/-- C21 (amended): for two selects without ORDER BY/LIMIT part that differ only
by a permutation of their interval clauses, all interval literals parseable:
the two compiles fail together, with the same error, which is an error of the
set or substring clauses, or succeed together; when they succeed their
UintPreds maps are equal, as are Index, EnumPreds and StrPreds, and Limit when
the property names are non-empty; and they do succeed when the integer lists
parse and no property is repeated among the set clauses or among the substring
clauses. -/
theorem C21_fold_order_independent (ctx1 ctx2 : QueryContext)
    (hperm : ctx1.AllUintPred.Perm ctx2.AllUintPred)
    (hidx : ctx1.IndexName = ctx2.IndexName)
    (hE : ctx1.AllEnumPred = ctx2.AllEnumPred) (hS : ctx1.AllStrPred = ctx2.AllStrPred)
    (hol1 : ctx1.OrderLimit = none) (hol2 : ctx2.OrderLimit = none)
    (hparse : ∀ c ∈ ctx1.AllUintPred, ∃ v, ParseUint c.INT = .ok v) :
    (∀ e, VisitQuery ctx1 = .error e ↔ VisitQuery ctx2 = .error e) ∧
    (∀ e, VisitQuery ctx1 = .error e →
      (∃ p, e = .multipleEnumPred p) ∨ (∃ p, e = .multipleStrPred p) ∨
        (∃ t k, e = .wrap ⟨"Atoi", t, k⟩)) ∧
    ((∃ q1, VisitQuery ctx1 = .ok q1) ↔ (∃ q2, VisitQuery ctx2 = .ok q2)) ∧
    (∀ q1 q2, VisitQuery ctx1 = .ok q1 → VisitQuery ctx2 = .ok q2 →
      q1.UintPreds = q2.UintPreds ∧ q1.Index = q2.Index ∧ q1.EnumPreds = q2.EnumPreds ∧
        q1.StrPreds = q2.StrPreds ∧
        ((∀ c ∈ ctx1.AllUintPred, c.Property ≠ "") → q1.Limit = q2.Limit)) ∧
    ((∀ c ∈ ctx1.AllEnumPred, ∃ vals, VisitIntList c.IntList = .ok vals) →
      (ctx1.AllEnumPred.map (fun c => c.Property)).Nodup →
      (ctx1.AllStrPred.map (fun c => c.Property)).Nodup →
      ∃ q1 q2, VisitQuery ctx1 = .ok q1 ∧ VisitQuery ctx2 = .ok q2 ∧
        q1.UintPreds = q2.UintPreds) := by
  have hparse2 : ∀ c ∈ ctx2.AllUintPred, ∃ v, ParseUint c.INT = .ok v :=
    fun c hc => hparse c (hperm.mem_iff.2 hc)
  obtain ⟨herr12, hok12⟩ :=
    VisitQuery_perm_aux ctx1 ctx2 hperm hidx hE hS hol1 hol2 hparse
  obtain ⟨herr21, hok21⟩ :=
    VisitQuery_perm_aux ctx2 ctx1 hperm.symm hidx.symm hE.symm hS.symm hol2 hol1 hparse2
  obtain ⟨qa, _, hEa, hSa, _, _, _, hVa⟩ := VisitQuery_noOrder ctx1 hparse hol1
  refine ⟨fun e => ⟨herr12 e, herr21 e⟩, ?_, ?_, ?_, ?_⟩
  · intro e he
    rw [hVa] at he
    cases h2 : queryEnumLoop ctx1.AllEnumPred qa with
    | error e2 =>
      rw [h2] at he
      simp only [Except.error.injEq] at he
      subst he
      rcases queryEnumLoop_error _ qa e2 h2 with hh | hh
      · exact Or.inl hh
      · exact Or.inr (Or.inr hh)
    | ok q2 =>
      rw [h2] at he
      exact Or.inr (Or.inl (queryStrLoop_error _ q2 e he))
  · constructor
    · rintro ⟨q1, h1⟩
      obtain ⟨q2, h2, _⟩ := hok12 q1 h1
      exact ⟨q2, h2⟩
    · rintro ⟨q2, h2⟩
      obtain ⟨q1, h1, _⟩ := hok21 q2 h2
      exact ⟨q1, h1⟩
  · intro q1 q2 h1 h2
    obtain ⟨q2b, h2b, hrest⟩ := hok12 q1 h1
    rw [h2] at h2b
    simp only [Except.ok.injEq] at h2b
    subst h2b
    exact hrest
  · intro hlists hnd hnd2
    obtain ⟨r, hr, _, _⟩ :=
      queryEnumLoop_nodup ctx1.AllEnumPred qa hlists hnd (fun c _ => hEa c.Property)
    obtain ⟨_, _, hSr, _, _⟩ := queryEnumLoop_fields _ qa r hr
    obtain ⟨f, hf, _, _⟩ :=
      queryStrLoop_nodup ctx1.AllStrPred r hnd2 (fun c _ => by rw [hSr]; exact hSa c.Property)
    have h1 : VisitQuery ctx1 = .ok f := by
      rw [hVa]
      simp only [hr, hf]
    obtain ⟨q2, h2, hU, _⟩ := hok12 f h1
    exact ⟨f, q2, h1, h2, hU⟩

/-- C21 (amended) at `WHERE qty>=20 AND price>10 AND price<100 AND color IN (1)`
and the same select with the first two interval clauses exchanged: both
compile with equal UintPreds, and the defaulted OrderBy differs (`qty` and
`price`). -/
theorem C21_fold_order_independent_witness :
    examplePermA.AllUintPred.Perm examplePermB.AllUintPred ∧
    (∀ c ∈ examplePermA.AllUintPred, ∃ v, ParseUint c.INT = .ok v) ∧
    ∃ q1 q2, VisitQuery examplePermA = .ok q1 ∧ VisitQuery examplePermB = .ok q2 ∧
      q1.UintPreds = q2.UintPreds ∧ q1.OrderBy = "qty" ∧ q2.OrderBy = "price" := by
  have hperm : examplePermA.AllUintPred.Perm examplePermB.AllUintPred :=
    List.Perm.swap _ _ _
  have hparse : ∀ c ∈ examplePermA.AllUintPred, ∃ v, ParseUint c.INT = .ok v := by
    intro c hc
    simp only [examplePermA, List.mem_cons, List.mem_singleton, List.not_mem_nil,
      or_false] at hc
    rcases hc with rfl | rfl | rfl
    · exact ⟨20, rfl⟩
    · exact ⟨10, rfl⟩
    · exact ⟨100, rfl⟩
  obtain ⟨q1, h1, ho1⟩ : ∃ q, VisitQuery examplePermA = .ok q ∧ q.OrderBy = "qty" :=
    ⟨_, rfl, rfl⟩
  obtain ⟨q2, h2, ho2⟩ : ∃ q, VisitQuery examplePermB = .ok q ∧ q.OrderBy = "price" :=
    ⟨_, rfl, rfl⟩
  exact ⟨hperm, hparse, q1, q2, h1, h2,
    ((C21_fold_order_independent examplePermA examplePermB hperm rfl rfl rfl rfl rfl
      hparse).2.2.2.1 q1 q2 h1 h2).1, ho1, ho2⟩

end Cql
